import Mathlib

/-!
Open vSwitch bridge device of netifd (`ovs.c`, `system-ovs.c`).

A shallow embedding of the bridge controller of `src/ovs.c` and of the command
layer of `src/system-ovs.c`.

* The C heap objects `struct ovs_state`, `struct ovs_port`, `struct ovs_base`
  become Lean structures; a port is identified by its key in the port tree, and
  a function that works through a pointer `op` takes the port and returns it as
  the function leaves it.
* Every call that leaves the two files (the device framework, the external
  `ovs-vsctl` program, the saved `set_state` handler of the bridge device) is
  appended to a trace together with the value it returned; the value is chosen
  by an environment `Env` that may depend on the whole history, so a theorem
  quantified over `Env` holds whatever the collaborators answer.
* Events that the framework delivers (`DEV_EVENT_ADD`, `DEV_EVENT_REMOVE`,
  hot-plug requests, `set_state`, reloads) are the operations of type `Op`. The
  framework is single-threaded; what it calls back while one of its functions
  runs is an operation of its own in the sequence, except the `DEV_EVENT_ADD`
  that `device_add_user` delivers for a device that is already present, which is
  part of the call.
* `n_present`, the tree version and the node versions are C `int`s; they are
  unbounded integers here (no run reaches the 2^31 events or rounds at which
  they would overflow).
* `calloc` is taken to succeed.
-/

namespace Netifd

/-! ## Collaborator calls and the environment -/

/-- A call that leaves `ovs.c` / `system-ovs.c`. -/
inductive Call where
  /-- `run_prog("/usr/bin/ovs-vsctl", argv...)`: fork, exec, wait. -/
  | run_prog (argv : List String)
  /-- `popen(cmd, "r")` followed by one `fgets` and `pclose`. -/
  | popen (cmd : String)
  | system_set_disable_ipv6 (dev : String) (val : String)
  | netifd_log_message (msg : String)
  | device_get (name : String)
  | device_add_user (dev : String)
  | device_remove_user (dev : String)
  | device_claim (dev : String)
  | device_release (dev : String)
  /-- Reading `dev->present` of a member device. -/
  | device_present (dev : String)
  | device_set_present (dev : String) (present : Bool)
  | device_init (name : String)
  | device_init_settings (dev : String)
  /-- The saved handler `ost->set_state(&ost->dev, up)`. -/
  | set_state (up : Bool)
  deriving DecidableEq, Repr

/-- One entry of the trace: the call and the integer it returned (0 for `void`). -/
abbrev Event := Call × Int

abbrev Trace := List Event

/-- The environment: what a call returns, given everything that happened before. -/
structure Env where
  ret : Trace → Call → Int
  /-- What `fgets` read from a `popen`ed command (`none`: `popen` or `fgets` failed). -/
  out : Trace → Call → Option String
  /-- The constant `__DEV_ATTR_MAX` of the framework: the number of generic
  device attributes. -/
  DEV_ATTR_MAX : Nat

/-- Perform a call with an integer result. -/
def call (env : Env) (c : Call) (tr : Trace) : Trace × Int :=
  (tr ++ [(c, env.ret tr c)], env.ret tr c)

/-- Perform a call whose result is not used (or is `void`). -/
def call_void (c : Call) (tr : Trace) : Trace :=
  tr ++ [(c, 0)]

/-! ## `system-ovs.h` / `system-ovs.c` -/

/-- The fields of `struct ovs_config` used by the two files (`type` and `options`
are used by `ovs.c` and `system-ovs.c`). `tag` holds the value of
`blobmsg_get_u32`, a 32-bit quantity; `none` is the `NULL` string. -/
structure ovs_config where
  empty : Bool := false
  tag : Nat := 0
  base : Option String := none
  type : Option String := none
  options : Option String := none
  deriving DecidableEq, Repr

/-- What `snprintf(buf, size, ...)` leaves in `buf`: at most `size - 1` characters
(one byte per character, as for interface names and option strings). -/
def snprintf (size : Nat) (s : String) : String :=
  String.mk (s.data.take (size - 1))

/-- `remove_trailing_newline`: cut the string at its first newline. -/
def remove_trailing_newline (s : Option String) : Option String :=
  s.map fun str => String.mk (str.data.takeWhile fun c => c != '\n')

/-- `system_get_ovs`: ask `ovs-vsctl iface-to-br` for the bridge of `name`. -/
def system_get_ovs (env : Env) (name : String) (tr : Trace) : Trace × Option String :=
  let cmd := "/usr/bin/ovs-vsctl --verbose=vsctl:syslog:emer iface-to-br " ++ name
  if cmd.length ≥ 90 then
    (call_void (.netifd_log_message
      ("Interface name to long for system_get_ovs(): " ++ name)) tr, none)
  else
    (call_void (.popen cmd) tr, remove_trailing_newline (env.out tr (.popen cmd)))

/-- `system_ovs_delbr`. -/
def system_ovs_delbr (env : Env) (ovs : String) (tr : Trace) : Trace × Int :=
  let r := call env (.run_prog ["del-br", ovs]) tr
  if r.2 ≠ 0 then (r.1, -1) else (r.1, 0)

/-- `system_ovs_addbr`: a pseudo bridge when both tag and base are set. -/
def system_ovs_addbr (env : Env) (ovs : String) (cfg : ovs_config) (tr : Trace) :
    Trace × Int :=
  match cfg.base with
  | some base =>
    if cfg.tag ≠ 0 then
      let buf := snprintf 16 (toString (cfg.tag % 2 ^ 32))
      let r := call env (.run_prog ["add-br", ovs, base, buf]) tr
      if r.2 ≠ 0 then (r.1, -1) else (r.1, 0)
    else
      let r := call env (.run_prog ["add-br", ovs]) tr
      if r.2 ≠ 0 then (r.1, -1) else (r.1, 0)
  | none =>
    let r := call env (.run_prog ["add-br", ovs]) tr
    if r.2 ≠ 0 then (r.1, -1) else (r.1, 0)

/-- `system_ovs_addport`: nothing to add when the port is already on this bridge. -/
def system_ovs_addport (env : Env) (ovs : String) (dev : String) (tr : Trace) :
    Trace × Int :=
  let tr1 := call_void (.system_set_disable_ipv6 dev "1") tr
  let g := system_get_ovs env dev tr1
  if g.2 = some ovs then (g.1, 0)
  else
    let r := call env (.run_prog ["add-port", ovs, dev]) g.1
    if r.2 ≠ 0 then (r.1, -1) else (r.1, 0)

/-- `system_ovs_delport`. -/
def system_ovs_delport (env : Env) (ovs : String) (dev : String) (tr : Trace) :
    Trace × Int :=
  let tr1 := call_void (.system_set_disable_ipv6 dev "0") tr
  let r := call env (.run_prog ["del-port", ovs, dev]) tr1
  if r.2 ≠ 0 then (r.1, -1) else (r.1, 0)

/-- `system_ovs_settype`. -/
def system_ovs_settype (env : Env) (dev : String) (cfg : ovs_config) (tr : Trace) :
    Trace × Int :=
  match cfg.type with
  | none => (tr, 0)
  | some t =>
    let buf := snprintf 31 ("type=" ++ t)
    let r := call env (.run_prog ["set", "interface", dev, buf]) tr
    if r.2 ≠ 0 then (r.1, -1) else (r.1, 0)

/-- `system_ovs_setoptions`. -/
def system_ovs_setoptions (env : Env) (dev : String) (cfg : ovs_config) (tr : Trace) :
    Trace × Int :=
  match cfg.options with
  | none => (tr, 0)
  | some o =>
    let buf := snprintf 128 ("options:" ++ o)
    let r := call env (.run_prog ["set", "interface", dev, buf]) tr
    if r.2 ≠ 0 then (r.1, -1) else (r.1, 0)

/-! ## The data of `ovs.c` -/

/-- A parsed configuration attribute (`struct blob_attr *` in a `tb[]` table). -/
inductive blobmsg where
  | array (elems : List String)
  | string (s : String)
  | int32 (n : Nat)
  | bool (b : Bool)
  deriving DecidableEq, Repr

/-- A configuration message, given by what `blobmsg_parse` extracts from it:
`tb_dev` for the policy `device_attr_list.params` and `tb_br` for the policy
`ovs_attrs`; a missing entry is the `NULL` pointer. -/
structure blob_attr where
  tb_dev : List (Option blobmsg)
  tb_br : List (Option blobmsg)
  deriving DecidableEq, Repr

def OVS_ATTR_IFNAME : Nat := 0
def OVS_ATTR_BASE : Nat := 1
def OVS_ATTR_TAG : Nat := 2
def OVS_ATTR_EMPTY : Nat := 3
def OVS_ATTR_TYPE : Nat := 4
def OVS_ATTR_OPTIONS : Nat := 5
def __OVS_ATTR_MAX : Nat := 6

/-- The entry `tb[i]` of an attribute table. -/
def tb_get (tb : List (Option blobmsg)) (i : Nat) : Option blobmsg :=
  (tb.get? i).join

def blobmsg_get_u32 : blobmsg → Nat
  | .int32 n => n % 2 ^ 32
  | _ => 0

def blobmsg_get_string : blobmsg → Option String
  | .string s => some s
  | _ => none

def blobmsg_get_bool : blobmsg → Bool
  | .bool b => b
  | _ => false

/-- The elements visited by `blobmsg_for_each_attr` over `ost->ifnames`. -/
def blobmsg_elems : Option blobmsg → List String
  | some (.array l) => l
  | _ => []

/-- The attribute types of the policy table `ovs_attrs`. -/
inductive blobmsg_type where
  | BLOBMSG_TYPE_ARRAY
  | BLOBMSG_TYPE_STRING
  | BLOBMSG_TYPE_INT32
  | BLOBMSG_TYPE_BOOL
  deriving DecidableEq, Repr

/-- The policy table `ovs_attrs[__OVS_ATTR_MAX]`. -/
def ovs_attrs : List (String × blobmsg_type) :=
  [("ifname", .BLOBMSG_TYPE_ARRAY), ("ovs_base", .BLOBMSG_TYPE_STRING),
    ("ovs_tag", .BLOBMSG_TYPE_INT32), ("ovs_empty", .BLOBMSG_TYPE_BOOL),
    ("ovs_type", .BLOBMSG_TYPE_STRING), ("ovs_options", .BLOBMSG_TYPE_STRING)]

/-- The type of a configuration attribute. -/
def blobmsg_type_of : blobmsg → blobmsg_type
  | .array _ => .BLOBMSG_TYPE_ARRAY
  | .string _ => .BLOBMSG_TYPE_STRING
  | .int32 _ => .BLOBMSG_TYPE_INT32
  | .bool _ => .BLOBMSG_TYPE_BOOL

/-- Modelled from the spec: `blobmsg_parse` of the missing blob library stores in
`tb[i]` only an attribute of the type that the policy entry `i` names, so a
table parsed with `ovs_attrs` satisfies this. -/
def blobmsg_parsed (policy : List (String × blobmsg_type)) (tb : List (Option blobmsg)) :
    Prop :=
  ∀ i m, tb_get tb i = some m → (policy.get? i).map Prod.snd = some (blobmsg_type_of m)

inductive device_event where
  | DEV_EVENT_ADD
  | DEV_EVENT_REMOVE
  | DEV_EVENT_SETUP
  | DEV_EVENT_UP
  | DEV_EVENT_TEARDOWN
  | DEV_EVENT_DOWN
  deriving DecidableEq, Repr

inductive dev_change_type where
  | DEV_CONFIG_NO_CHANGE
  | DEV_CONFIG_APPLIED
  | DEV_CONFIG_RESTART
  deriving DecidableEq, Repr

/-- The value of `ENOENT` in `<errno.h>`. -/
def ENOENT : Int := 2

/-- The value of `UBUS_STATUS_NOT_FOUND`. -/
def UBUS_STATUS_NOT_FOUND : Int := 4

/-- The fields of the embedded `struct device dev` of the bridge that `ovs.c`
reads: its name and whether the framework holds it active (`dev.active` is the
framework's claim count, tested for being non-zero). -/
structure device where
  ifname : String
  active : Bool := false
  deriving DecidableEq, Repr

/-- `struct ovs_port`: `name` is the key and the name of the member device
(`op->dev.dev->ifname`), `version` is `node.version`, `hotplug` is `dev.hotplug`. -/
structure ovs_port where
  name : String
  version : Int := 0
  hotplug : Bool := false
  present : Bool := false
  deriving DecidableEq, Repr

/-- `struct ovs_base`. -/
structure ovs_base where
  dev : String
  present : Bool := false
  deriving DecidableEq, Repr

/-- `struct vlist_tree` with `keep_old` set (as `ovs_create` does): the version
counter and the nodes of the AVL tree in key order. -/
structure vlist_tree where
  version : Int := 1
  nodes : List ovs_port := []
  deriving DecidableEq, Repr

/-- `struct ovs_state`. -/
structure ovs_state where
  dev : device
  config_data : Option blob_attr := none
  config : ovs_config := {}
  ifnames : Option blobmsg := none
  force_active : Bool := false
  ports : vlist_tree := {}
  n_present : Int := 0
  base : Option ovs_base := none
  deriving DecidableEq, Repr

/-- The bridge together with the base links that `ovs_create_base` allocated and
registered with the framework (`links`), and the trace of collaborator calls. -/
structure World where
  ost : ovs_state
  links : List ovs_base := []
  trace : Trace := []
  deriving DecidableEq, Repr

/-! ## The ordered-key container of the port set -/

/-- Modelled from the spec: the ordered-key reconciliation container (`vlist`,
with its AVL tree) is a library that is not under `src/`. `avl_find` looks a key
up in the tree. -/
def avl_find (nodes : List ovs_port) (key : String) : Option ovs_port :=
  nodes.find? fun n => n.name == key

/-- Whether `strcmp` (of the C library) of two character sequences is negative. -/
def strcmp_lt : List Char → List Char → Bool
  | [], [] => false
  | [], _ :: _ => true
  | _ :: _, [] => false
  | a :: as, b :: bs =>
    if a.toNat < b.toNat then true
    else if b.toNat < a.toNat then false
    else strcmp_lt as bs

/-- Modelled from the spec: the key comparison `avl_strcmp(a, b) < 0` of the
missing container library, which the port tree is initialised with. -/
def avl_strcmp_lt (a b : String) : Bool :=
  strcmp_lt a.data b.data

/-- Modelled from the spec: `avl_insert` of the missing container library puts a
node at its place in key order (`avl_strcmp`). -/
def avl_insert (n : ovs_port) : List ovs_port → List ovs_port
  | [] => [n]
  | m :: rest =>
    if avl_strcmp_lt n.name m.name then n :: m :: rest else m :: avl_insert n rest

/-- Modelled from the spec: `avl_delete` of the missing container library unlinks
the node with the given key. -/
def avl_delete (key : String) : List ovs_port → List ovs_port
  | [] => []
  | m :: rest => if m.name = key then rest else m :: avl_delete key rest

/-- Store the fields of `op` into the tree node with the key of `op` (a write
through the pointer `op`). -/
def store_port (op : ovs_port) : List ovs_port → List ovs_port
  | [] => []
  | m :: rest => if m.name = op.name then op :: rest else m :: store_port op rest

/-- Write the port `op` back into the port tree of the bridge. -/
def World.store (w : World) (op : ovs_port) : World :=
  { w with ost := { w.ost with ports := { w.ost.ports with
      nodes := store_port op w.ost.ports.nodes } } }

/-- Modelled from the spec: `vlist_update` of the missing container library opens
a reconciliation round by advancing the version of the tree. -/
def vlist_update (t : vlist_tree) : vlist_tree :=
  { t with version := t.version + 1 }

/-! ## `ovs.c`: presence, ports and base links -/

/-- The tail of `ovs_set_present` (label `out`): report `present` to the framework. -/
def ovs_set_present_out (w : World) (present : Bool) : World :=
  { w with trace := call_void (.device_set_present w.ost.dev.ifname present) w.trace }

/-- `ovs_set_present`. -/
def ovs_set_present (w : World) : World :=
  match w.ost.base with
  | some ob =>
    if !ob.present then ovs_set_present_out w false
    else if w.ost.config.empty then ovs_set_present_out w true
    else
      let w1 := { w with ost := { w.ost with force_active := false } }
      if w1.ost.n_present = 0 then ovs_set_present_out w1 false
      else ovs_set_present_out w1 true
  | none =>
    if w.ost.config.empty then ovs_set_present_out w true
    else
      let w1 := { w with ost := { w.ost with force_active := false } }
      if w1.ost.n_present = 0 then ovs_set_present_out w1 false
      else ovs_set_present_out w1 true

/-- `ovs_disable_base`. -/
def ovs_disable_base (ob : ovs_base) (w : World) : World × Int :=
  if !ob.present then (w, 0)
  else ({ w with trace := call_void (.device_release ob.dev) w.trace }, 0)

/-- `ovs_enable_base`: returns the base link as left by the function. -/
def ovs_enable_base (env : Env) (ob : ovs_base) (w : World) : (ovs_base × World) × Int :=
  if !ob.present then ((ob, w), 0)
  else
    let c := call env (.device_claim ob.dev) w.trace
    if c.2 < 0 then (({ ob with present := false }, { w with trace := c.1 }), c.2)
    else ((ob, { w with trace := c.1 }), 0)

/-- `ovs_disable_port`. -/
def ovs_disable_port (env : Env) (op : ovs_port) (w : World) : World × Int :=
  if !op.present then (w, 0)
  else
    let d := system_ovs_delport env w.ost.dev.ifname op.name w.trace
    ({ w with trace := call_void (.device_release op.name) d.1 }, 0)

/-- The `error` label of `ovs_enable_port`. -/
def ovs_enable_port_error (op : ovs_port) (w : World) (tr : Trace) (ret : Int) :
    (ovs_port × World) × Int :=
  (({ op with present := false },
    { w with ost := { w.ost with n_present := w.ost.n_present - 1 }, trace := tr }), ret)

/-- `ovs_enable_port`: returns the port as left by the function. -/
def ovs_enable_port (env : Env) (op : ovs_port) (w : World) : (ovs_port × World) × Int :=
  if !op.present then ((op, w), 0)
  else
    let c := call env (.device_claim op.name) w.trace
    if c.2 < 0 then ovs_enable_port_error op w c.1 c.2
    else
      let a := system_ovs_addport env w.ost.dev.ifname op.name c.1
      if a.2 < 0 then ovs_enable_port_error op w a.1 a.2
      else
        let t := system_ovs_settype env op.name w.ost.config a.1
        let o := system_ovs_setoptions env op.name w.ost.config t.1
        ((op, { w with trace := o.1 }), 0)

/-- `ovs_remove_port`: returns the port as left by the function. -/
def ovs_remove_port (env : Env) (op : ovs_port) (w : World) : ovs_port × World :=
  if !op.present then (op, w)
  else
    let w1 := if w.ost.dev.active then (ovs_disable_port env op w).1 else w
    let w2 := { w1 with ost := { w1.ost with n_present := w1.ost.n_present - 1 } }
    ({ op with present := false }, ovs_set_present w2)

/-- `ovs_free_port`: the port is gone afterwards. -/
def ovs_free_port (env : Env) (op : ovs_port) (w : World) : World :=
  let r := ovs_remove_port env op w
  let tr1 := call_void (.device_remove_user op.name) r.2.trace
  let p := call env (.device_present op.name) tr1
  let w1 := r.2
  if p.2 ≠ 0 then
    let tr2 := call_void (.device_set_present op.name false) p.1
    { w1 with trace := call_void (.device_set_present op.name true) tr2 }
  else { w1 with trace := p.1 }

/-- Modelled from the spec: `vlist_delete` of the missing container library
unlinks the node and hands it to the update callback as the old node; for the
port tree the callback `ovs_port_update(tree, NULL, node_old)` is `ovs_free_port`. -/
def vlist_delete (env : Env) (op : ovs_port) (w : World) : World :=
  ovs_free_port env op { w with ost := { w.ost with ports := { w.ost.ports with
    nodes := avl_delete op.name w.ost.ports.nodes } } }

/-- A pointer to a base link: the field `ost->base`, or the `i`-th link that
`ovs_create_base` registered with the framework. -/
inductive base_ref where
  | owned
  | link (i : Nat)
  deriving DecidableEq, Repr

/-- Read through a base-link pointer. -/
def World.get_base (w : World) : base_ref → Option ovs_base
  | .owned => w.ost.base
  | .link i => w.links.get? i

/-- Write through a base-link pointer. -/
def World.set_base (w : World) (r : base_ref) (ob : ovs_base) : World :=
  match r with
  | .owned => { w with ost := { w.ost with base := w.ost.base.map fun _ => ob } }
  | .link i => { w with links := w.links.set i ob }

/-- `ovs_remove_base`. -/
def ovs_remove_base (r : base_ref) (w : World) : World :=
  match w.get_base r with
  | none => w
  | some ob =>
    if !ob.present then w
    else
      let w1 := if w.ost.dev.active then (ovs_disable_base ob w).1 else w
      ovs_set_present (w1.set_base r { ob with present := false })

/-- `ovs_free_base`. -/
def ovs_free_base (r : base_ref) (w : World) : World :=
  match w.get_base r with
  | none => w
  | some ob =>
    let w1 := ovs_remove_base r w
    { w1 with trace := call_void (.device_remove_user ob.dev) w1.trace }

/-- `ovs_port_cb` for the port with key `name`; `none` is the failed
`assert(!op->present)`. An event for a name without a port is no event. -/
def ovs_port_cb (env : Env) (name : String) (ev : device_event) (w : World) :
    Option World :=
  match avl_find w.ost.ports.nodes name with
  | none => some w
  | some op =>
    match ev with
    | .DEV_EVENT_ADD =>
      if op.present then none
      else
        let op1 := { op with present := true }
        let w1 := { w with ost := { w.ost with n_present := w.ost.n_present + 1 } }
        if w1.ost.dev.active then
          let r := ovs_enable_port env op1 w1
          some (r.1.2.store r.1.1)
        else if w1.ost.n_present = 1 then some ((ovs_set_present w1).store op1)
        else some (w1.store op1)
    | .DEV_EVENT_REMOVE =>
      if op.hotplug then some (vlist_delete env op w)
      else if op.present then
        let r := ovs_remove_port env op w
        some (r.2.store r.1)
      else some w
    | _ => some w

/-- `ovs_base_cb` for the base link behind `r`; the `DEV_EVENT_ADD` case has no
`break` and continues into the `DEV_EVENT_REMOVE` case. -/
def ovs_base_cb (env : Env) (r : base_ref) (ev : device_event) (w : World) : World :=
  match ev with
  | .DEV_EVENT_ADD =>
    match w.get_base r with
    | none => w
    | some ob =>
      let e := ovs_enable_base env { ob with present := true } w
      let w1 := ovs_set_present (e.1.2.set_base r e.1.1)
      if e.1.1.present then ovs_remove_base r w1 else w1
  | .DEV_EVENT_REMOVE =>
    match w.get_base r with
    | none => w
    | some ob => if ob.present then ovs_remove_base r w else w
  | _ => w

/-- The loop `vlist_for_each_element(&ost->ports, op, node) ovs_disable_port(op)`. -/
def ovs_disable_ports (env : Env) : List ovs_port → World → World
  | [], w => w
  | op :: rest, w => ovs_disable_ports env rest (ovs_disable_port env op w).1

/-- The statement `if (ost->base) ovs_disable_base(ost->base);` of `ovs_set_down`. -/
def ovs_set_down_base (w : World) : World :=
  match w.ost.base with
  | some ob => (ovs_disable_base ob w).1
  | none => w

/-- `ovs_set_down`. -/
def ovs_set_down (env : Env) (w : World) : World × Int :=
  let s := call env (.set_state false) w.trace
  let w1 := ovs_disable_ports env w.ost.ports.nodes { w with trace := s.1 }
  let w2 := ovs_set_down_base w1
  let d := system_ovs_delbr env w2.ost.dev.ifname w2.trace
  ({ w2 with trace := d.1 }, 0)

/-- The loop `vlist_for_each_element(&ost->ports, op, node) ovs_enable_port(op)`:
returns the ports as left by the loop. -/
def ovs_enable_ports (env : Env) : List ovs_port → World → List ovs_port × World
  | [], w => ([], w)
  | op :: rest, w =>
    let r := ovs_enable_port env op w
    let rr := ovs_enable_ports env rest r.1.2
    (r.1.1 :: rr.1, rr.2)

/-- The statement `if (ost->base) ovs_enable_base(ost->base);` of `ovs_set_up`. -/
def ovs_set_up_base (env : Env) (w : World) : World :=
  match w.ost.base with
  | some ob =>
    let e := ovs_enable_base env ob w
    { e.1.2 with ost := { e.1.2.ost with base := some e.1.1 } }
  | none => w

/-- The attach loop of `ovs_set_up` over the port tree, the ports written back. -/
def ovs_set_up_ports (env : Env) (w : World) : World :=
  let l := ovs_enable_ports env w.ost.ports.nodes w
  { l.2 with ost := { l.2.ost with ports := { l.2.ost.ports with nodes := l.1 } } }

/-- `ovs_set_up`. -/
def ovs_set_up (env : Env) (w : World) : World × Int :=
  if !w.ost.force_active && w.ost.n_present == 0 then (w, -ENOENT)
  else
    let w1 := ovs_set_up_base env w
    let b := system_ovs_addbr env w1.ost.dev.ifname w1.ost.config w1.trace
    if b.2 < 0 then ({ w1 with trace := b.1 }, b.2)
    else
      let w2 := ovs_set_up_ports env { w1 with trace := b.1 }
      if !w2.ost.force_active && w2.ost.n_present == 0 then
        let d := system_ovs_delbr env w2.ost.dev.ifname w2.trace
        (ovs_set_present { w2 with trace := d.1 }, -ENOENT)
      else
        let s := call env (.set_state true) w2.trace
        let w3 := { w2 with trace := s.1 }
        if s.2 < 0 then ((ovs_set_down env w3).1, s.2) else (w3, s.2)

/-- `ovs_set_state`. -/
def ovs_set_state (env : Env) (up : Bool) (w : World) : World × Int :=
  if up then ovs_set_up env w else ovs_set_down env w

/-! ## `ovs.c`: creation of ports and base links, reconciliation -/

/-- `ovs_port_update`, the update callback of the port tree. `device_add_user`
registers the port with the framework; the framework delivers `DEV_EVENT_ADD`
to the new user from inside that call when the device is already present, which
the environment decides (a non-zero result). -/
def ovs_port_update (env : Env) (node_new node_old : Option ovs_port) (w : World) :
    Option World :=
  match node_new, node_old with
  | some _, some _ => some w
  | some op, none =>
    let r := call env (.device_add_user op.name) w.trace
    let w1 := { w with trace := r.1 }
    if r.2 ≠ 0 then ovs_port_cb env op.name .DEV_EVENT_ADD w1 else some w1
  | none, some op => some (ovs_free_port env op w)
  | none, none => some w

/-- Modelled from the spec: `vlist_add` of the missing container library, for a
tree with `keep_old`: a key that is already in the tree keeps its old node, which
is stamped with the current version, and the new node is handed to the callback
together with the old one (the callback frees it); a new key is inserted. -/
def vlist_add (env : Env) (node : ovs_port) (w : World) : Option World :=
  let node1 := { node with version := w.ost.ports.version }
  match avl_find w.ost.ports.nodes node1.name with
  | some old =>
    ovs_port_update env (some node1) (some old)
      (w.store { old with version := w.ost.ports.version })
  | none =>
    ovs_port_update env (some node1) none
      { w with ost := { w.ost with ports := { w.ost.ports with
          nodes := avl_insert node1 w.ost.ports.nodes } } }

/-- `ovs_create_port`. When the key is already in the tree the new port has been
freed by `ovs_port_update` before `op->node.version = -1` is executed; that write
goes to freed memory and changes nothing in the tree. -/
def ovs_create_port (env : Env) (dev : String) (hotplug : Bool) (w : World) :
    Option World :=
  let op : ovs_port := { name := dev, hotplug := hotplug }
  match avl_find w.ost.ports.nodes dev with
  | some _ => vlist_add env op w
  | none =>
    (vlist_add env op w).map fun w1 =>
      if hotplug then
        match avl_find w1.ost.ports.nodes dev with
        | some cur => w1.store { cur with version := -1 }
        | none => w1
      else w1

/-- `ovs_add_port`; `device_get(name, true)` yields the device of that name or
`NULL` (a zero result). -/
def ovs_add_port (env : Env) (name : String) (w : World) : Option World :=
  let g := call env (.device_get name) w.trace
  let w1 := { w with trace := g.1 }
  if g.2 = 0 then some w1 else ovs_create_port env name false w1

/-- `ovs_create_base`: the new base link is the last element of `links`. As for
ports, the framework may deliver `DEV_EVENT_ADD` from inside `device_add_user`. -/
def ovs_create_base (env : Env) (dev : String) (w : World) : World :=
  let i := w.links.length
  let r := call env (.device_add_user dev) w.trace
  let w1 := { w with links := w.links ++ [{ dev := dev }], trace := r.1 }
  if r.2 ≠ 0 then ovs_base_cb env (.link i) .DEV_EVENT_ADD w1 else w1

/-- `ovs_add_base`: the base link returned by `ovs_create_base` is dropped. -/
def ovs_add_base (env : Env) (name : String) (w : World) : World :=
  let g := call env (.device_get name) w.trace
  let w1 := { w with trace := g.1 }
  if g.2 = 0 then w1 else ovs_create_base env name w1

/-- `ovs_hotplug_add`. -/
def ovs_hotplug_add (env : Env) (port : String) (w : World) : Option (World × Int) :=
  (ovs_create_port env port true w).map fun w1 => (w1, 0)

/-- `ovs_hotplug_del`. -/
def ovs_hotplug_del (env : Env) (port : String) (w : World) : World × Int :=
  match avl_find w.ost.ports.nodes port with
  | none => (w, UBUS_STATUS_NOT_FOUND)
  | some op => (vlist_delete env op w, 0)

/-- `ovs_hotplug_prepare`. -/
def ovs_hotplug_prepare (w : World) : World × Int :=
  (ovs_set_present { w with ost := { w.ost with force_active := true } }, 0)

/-- Modelled from the spec: the loop of `vlist_flush` of the missing container
library over the nodes of the tree, in key order. -/
def vlist_flush_nodes (env : Env) : List ovs_port → World → World
  | [], w => w
  | node :: rest, w =>
    if (node.version = w.ost.ports.version ∨ node.version = -1) ∧
        w.ost.ports.version ≠ -1 then
      vlist_flush_nodes env rest w
    else vlist_flush_nodes env rest (vlist_delete env node w)

/-- Modelled from the spec: `vlist_flush` of the missing container library closes
a reconciliation round: every node that was not stamped with the current version
is deleted, except the nodes whose version is `-1`. -/
def vlist_flush (env : Env) (w : World) : World :=
  vlist_flush_nodes env w.ost.ports.nodes w

/-- Modelled from the spec: `vlist_flush_all` of the missing container library
deletes every node. -/
def vlist_flush_all (env : Env) (w : World) : World :=
  vlist_flush env { w with ost := { w.ost with ports := { w.ost.ports with version := -1 } } }

/-- `ovs_free`: the state of the bridge when it is released. -/
def ovs_free (env : Env) (w : World) : World :=
  let w1 := match w.ost.base with
    | some _ => ovs_free_base .owned w
    | none => w
  vlist_flush_all env w1

/-- The loop of `ovs_config_init` over the declared names. -/
def ovs_add_ports (env : Env) : List String → World → Option World
  | [], w => some w
  | name :: rest, w => (ovs_add_port env name w).bind (ovs_add_ports env rest)

/-- `ovs_config_init`. -/
def ovs_config_init (env : Env) (w : World) : Option World :=
  let w1 := if w.ost.config.empty then
      ovs_set_present { w with ost := { w.ost with force_active := true } }
    else w
  let w2 := match w1.ost.config.base with
    | some base => ovs_add_base env base w1
    | none => w1
  let w3 := { w2 with ost := { w2.ost with ports := vlist_update w2.ost.ports } }
  (ovs_add_ports env (blobmsg_elems w3.ost.ifnames) w3).map (vlist_flush env)

/-! ## `ovs.c`: settings, reload, creation -/

/-- `ovs_apply_settings`. -/
def ovs_apply_settings (ost : ovs_state) (tb : List (Option blobmsg)) : ovs_state :=
  let cfg0 : ovs_config :=
    { tag := 0, base := none, empty := false, type := none, options := none }
  let cfg1 := match tb_get tb OVS_ATTR_TAG, tb_get tb OVS_ATTR_BASE with
    | some t, some b => { cfg0 with tag := blobmsg_get_u32 t, base := blobmsg_get_string b }
    | _, _ => cfg0
  let cfg2 := match tb_get tb OVS_ATTR_EMPTY with
    | some e => { cfg1 with empty := blobmsg_get_bool e }
    | none => cfg1
  let cfg3 := match tb_get tb OVS_ATTR_TYPE with
    | some t => { cfg2 with type := blobmsg_get_string t }
    | none => cfg2
  let cfg4 := match tb_get tb OVS_ATTR_OPTIONS with
    | some o => { cfg3 with options := blobmsg_get_string o }
    | none => cfg3
  { ost with config := cfg4 }

/-- The number of bits of `unsigned long`. -/
def BITS_PER_LONG : Nat := 64

/-- Modelled from the spec: `uci_blob_diff` of the missing configuration library
sets, in the `unsigned long` bit mask `diff`, the bit of every index below
`n_params` at which the two attribute tables differ. -/
def uci_blob_diff (tb1 tb2 : List (Option blobmsg)) : Nat → Nat → Nat
  | 0, diff => diff
  | n + 1, diff =>
    let d := uci_blob_diff tb1 tb2 n diff
    if tb_get tb1 n ≠ tb_get tb2 n then (d ||| 1 <<< n) % 2 ^ BITS_PER_LONG else d

/-- The C expression `~x` converted to `unsigned long`. -/
def ulong_not (x : Nat) : Nat :=
  2 ^ BITS_PER_LONG - 1 - x % 2 ^ BITS_PER_LONG

/-- The value that `ovs_reload` returns when an older configuration is stored. -/
def ovs_reload_ret (env : Env) (attr old : blob_attr) : dev_change_type :=
  let ret0 := dev_change_type.DEV_CONFIG_APPLIED
  let diff1 := uci_blob_diff attr.tb_dev old.tb_dev env.DEV_ATTR_MAX 0
  let ret1 := if diff1 ≠ 0 then dev_change_type.DEV_CONFIG_RESTART else ret0
  let diff2 := uci_blob_diff attr.tb_br old.tb_br __OVS_ATTR_MAX 0
  if diff2 &&& ulong_not (1 <<< OVS_ATTR_IFNAME) ≠ 0 then
    dev_change_type.DEV_CONFIG_RESTART
  else ret1

/-- The first part of `ovs_reload`, up to the test of `ost->config_data`: the
member list is stored, the generic and the bridge settings are applied. -/
def ovs_reload_settings (attr : blob_attr) (w : World) : World :=
  let ost1 := { w.ost with ifnames := tb_get attr.tb_br OVS_ATTR_IFNAME }
  let tr1 := call_void (.device_init_settings w.ost.dev.ifname) w.trace
  { w with ost := ovs_apply_settings ost1 attr.tb_br, trace := tr1 }

/-- `ovs_reload`. -/
def ovs_reload (env : Env) (attr : blob_attr) (w : World) :
    Option (World × dev_change_type) :=
  let w1 := ovs_reload_settings attr w
  match w1.ost.config_data with
  | some old =>
    (ovs_config_init env w1).map fun w2 =>
      ({ w2 with ost := { w2.ost with config_data := some attr } },
        ovs_reload_ret env attr old)
  | none =>
    some ({ w1 with ost := { w1.ost with config_data := some attr } },
      dev_change_type.DEV_CONFIG_APPLIED)

/-- `ovs_create`: a zeroed `struct ovs_state`, an initialised port tree, and the
first `ovs_reload`. -/
def ovs_create (env : Env) (name : String) (attr : blob_attr) : Option World :=
  let w0 : World :=
    { ost := { dev := { ifname := name } }, trace := call_void (.device_init name) [] }
  (ovs_reload env attr w0).map fun r => r.1

/-! ## Operations on a bridge -/

/-- What the framework may ask of a bridge, or tell it. -/
inductive Op where
  /-- An event for the user of the member device `port` (`ovs_port_cb`). -/
  | port_event (port : String) (ev : device_event)
  /-- An event for a base link (`ovs_base_cb`). -/
  | base_event (r : base_ref) (ev : device_event)
  /-- The framework changes `dev.active` of the bridge device. -/
  | dev_active (active : Bool)
  /-- `dev->set_state(dev, up)`, which is `ovs_set_state`. -/
  | set_state (up : Bool)
  | hotplug_prepare
  | hotplug_add (port : String)
  | hotplug_del (port : String)
  | config_init
  | reload (attr : blob_attr)
  deriving DecidableEq, Repr

/-- One operation; `none` when an assertion of `ovs.c` fails. -/
def step (env : Env) (op : Op) (w : World) : Option World :=
  match op with
  | .port_event port ev => ovs_port_cb env port ev w
  | .base_event r ev => some (ovs_base_cb env r ev w)
  | .dev_active a => some { w with ost := { w.ost with dev := { w.ost.dev with active := a } } }
  | .set_state up => some (ovs_set_state env up w).1
  | .hotplug_prepare => some (ovs_hotplug_prepare w).1
  | .hotplug_add port => (ovs_hotplug_add env port w).map fun r => r.1
  | .hotplug_del port => some (ovs_hotplug_del env port w).1
  | .config_init => ovs_config_init env w
  | .reload attr => (ovs_reload env attr w).map fun r => r.1

/-- A sequence of operations. -/
def run (env : Env) : List Op → World → Option World
  | [], w => some w
  | op :: rest, w => (step env op w).bind (run env rest)

/-- The number of ports of the port set whose `present` flag is set. -/
def count_present (nodes : List ovs_port) : Int :=
  (nodes.filter fun op => op.present).length

/-- The presence values reported for the device `dev`, oldest first. -/
def reported_presence (dev : String) (tr : Trace) : List Bool :=
  tr.filterMap fun e =>
    match e.1 with
    | .device_set_present d p => if d = dev then some p else none
    | _ => none

/-! ## Definitions used by the statements -/

/-- The keys of the nodes of a tree. -/
def keys (nodes : List ovs_port) : List String := nodes.map fun n => n.name

/-- One for a set flag, zero otherwise. -/
def b2i (b : Bool) : Int := if b then 1 else 0

/-- The counter `n_present` agrees with the port set, whose keys are distinct. -/
def Inv (w : World) : Prop :=
  w.ost.n_present = count_present w.ost.ports.nodes ∧ (keys w.ost.ports.nodes).Nodup

/-- The world `w'` differs from `w` at most in the base links, in `force_active`
and in the trace. -/
def same_ports (w w' : World) : Prop :=
  w'.ost.ports = w.ost.ports ∧ w'.ost.n_present = w.ost.n_present ∧
  w'.ost.dev = w.ost.dev ∧ w'.ost.config = w.ost.config ∧
  w'.ost.ifnames = w.ost.ifnames ∧ w'.ost.config_data = w.ost.config_data

/-- An environment in which every collaborator succeeds: `device_get` finds its
device, every other call returns 0, no member device is present yet and
`iface-to-br` prints nothing. -/
def env_ok : Env :=
  { ret := fun _ c => match c with
      | .device_get _ => 1
      | _ => 0,
    out := fun _ _ => none,
    DEV_ATTR_MAX := 8 }

/-- A configuration message that declares only the member list `ifname`. -/
def attr_ifname (l : List String) : blob_attr :=
  { tb_dev := [], tb_br := [some (.array l)] }

/-- A run: initialise, member `a` appears, the bridge is brought up, `b` is
hot-plugged and appears, `a` disappears. -/
def c1_ops : List Op :=
  [.config_init, .port_event "a" .DEV_EVENT_ADD, .dev_active true, .set_state true,
    .hotplug_add "b", .port_event "b" .DEV_EVENT_ADD, .port_event "a" .DEV_EVENT_REMOVE]

/-- The bridge `br0` as `ovs_create` leaves it for the member list `[a]`. -/
def c1_start : World :=
  { ost := { dev := { ifname := "br0" }, config_data := some (attr_ifname ["a"]),
             ifnames := some (.array ["a"]) },
    trace := [(.device_init "br0", 0), (.device_init_settings "br0", 0)] }

/-- The bridge after the run `c1_ops`. -/
def c1_final : World := (run env_ok c1_ops c1_start).getD c1_start

/-- The presence formula of section 3 of the specification. -/
def spec_present (ost : ovs_state) : Bool :=
  (match ost.base with
    | some ob => ob.present
    | none => true) &&
  (ost.config.empty || ost.force_active || decide (0 < ost.n_present))

/-- The bridge `c1_start` (fresh, no port present, `config.empty` false, no base)
at the point where `ovs_hotplug_prepare` calls `ovs_set_present`: `force_active`
has just been set. -/
def c2_world : World :=
  { c1_start with ost := { c1_start.ost with force_active := true } }

/-- A configuration message with a member list and a tag on the base `br1`. -/
def attr_tagged (l : List String) (tag : Nat) : blob_attr :=
  { tb_dev := [],
    tb_br := [some (.array l), some (.string "br1"), some (.int32 tag)] }

/-- The trace `tr'` extends the trace `tr` by calls that all satisfy `P`. -/
def emits (P : Call → Prop) (tr tr' : Trace) : Prop :=
  ∃ suf, tr' = tr ++ suf ∧ ∀ e ∈ suf, P e.1

/-- The calls that `ovs_enable_port` can make. -/
def attach_call (c : Call) : Prop :=
  (∃ d, c = .device_claim d) ∨ (∃ d, c = .system_set_disable_ipv6 d "1") ∨
  (∃ s, c = .popen s) ∨ (∃ s, c = .netifd_log_message s) ∨
  (∃ a, c = .run_prog ("add-port" :: a)) ∨ (∃ a, c = .run_prog ("set" :: a))

/-- The calls that `ovs_disable_port` and `ovs_disable_base` can make. -/
def detach_call (c : Call) : Prop :=
  (∃ d, c = .system_set_disable_ipv6 d "0") ∨ (∃ a, c = .run_prog ("del-port" :: a)) ∨
  (∃ d, c = .device_release d)

/-- The calls of the activation path of `ovs_set_up`, up to and including the
activation signal. -/
def up_call (c : Call) : Prop :=
  attach_call c ∨ (∃ a, c = .run_prog ("add-br" :: a)) ∨ c = .set_state true

/-- A call that takes the bridge apart: a control-plane detach, a release of a
claim, or the deletion of the bridge. -/
def is_teardown : Call → Bool
  | .device_release _ => true
  | .run_prog (cmd :: _) => cmd == "del-port" || cmd == "del-br"
  | _ => false

/-- The bridge `c1_start` after initialisation, with its member `a` present and
the bridge device held active by the framework; not yet brought up. -/
def c4_idle : World :=
  (run env_ok [.config_init, .port_event "a" .DEV_EVENT_ADD, .dev_active true] c1_start).getD
    c1_start

/-- The bridge `c4_idle` after a successful `ovs_set_up`. -/
def c4_up : World := (ovs_set_up env_ok c4_idle).1

/-- The calls that an operation added to the trace. -/
def new_calls (w w' : World) : List Call :=
  (w'.trace.drop w.trace.length).map fun e => e.1

/-- The result of the `system_ovs_addbr` call of `ovs_set_up`. -/
def ovs_set_up_addbr (env : Env) (w : World) : Trace × Int :=
  system_ovs_addbr env (ovs_set_up_base env w).ost.dev.ifname (ovs_set_up_base env w).ost.config
    (ovs_set_up_base env w).trace

/-- The bridge after the attach loop of `ovs_set_up`. -/
def ovs_set_up_attached (env : Env) (w : World) : World :=
  ovs_set_up_ports env { ovs_set_up_base env w with trace := (ovs_set_up_addbr env w).1 }

/-- An environment in which every device claim fails and everything else succeeds. -/
def env_claim_fails : Env :=
  { ret := fun _ c => match c with
      | .device_get _ => 1
      | .device_claim _ => -1
      | _ => 0,
    out := fun _ _ => none,
    DEV_ATTR_MAX := 8 }

/-- The calls by which `ovs_disable_port` detaches the port `dev` from the bridge
`ovs` and releases its claim; `r` is the result of `del-port`. -/
def detach_events (ovs dev : String) (r : Int) : Trace :=
  [(Call.system_set_disable_ipv6 dev "0", 0), (Call.run_prog ["del-port", ovs, dev], r),
    (Call.device_release dev, 0)]

/-- An environment in which the activation signal `set_state(dev, true)` is
refused and everything else succeeds. -/
def env_state_fails : Env :=
  { ret := fun _ c => match c with
      | .device_get _ => 1
      | .set_state true => -1
      | _ => 0,
    out := fun _ _ => none,
    DEV_ATTR_MAX := 8 }

/-- An environment in which every device claim succeeds and `ovs-vsctl add-port`
fails (exit status 1); everything else succeeds. -/
def env_attach_fails : Env :=
  { ret := fun _ c => match c with
      | .device_get _ => 1
      | .run_prog ("add-port" :: _) => 1
      | _ => 0,
    out := fun _ _ => none,
    DEV_ATTR_MAX := 8 }

/-- The port `a` of the bridge `c4_idle`: declared, present. -/
def c7_port : ovs_port := { name := "a", version := 2, present := true }

/-- The keys of a tree with the versions of their nodes. -/
def view (nodes : List ovs_port) : List (String × Int) :=
  nodes.map fun n => (n.name, n.version)

/-- Whether `vlist_flush` keeps a node of version `nv` in a tree of version `v`. -/
def flush_keeps (v nv : Int) : Prop :=
  (nv = v ∨ nv = -1) ∧ v ≠ -1

/-- The port tree is well formed: its version is at least 1 (`vlist_init` sets 1
and `vlist_update` increments), its keys are distinct, and every node carries
the hot-plug mark `-1` or a version that the tree has already reached. -/
def vlist_wf (t : vlist_tree) : Prop :=
  1 ≤ t.version ∧ (keys t.nodes).Nodup ∧
  ∀ n ∈ t.nodes, n.version = -1 ∨ n.version ≤ t.version

/-- The world `w'` has the configuration and the bridge device of `w`. -/
def same_config (w w' : World) : Prop :=
  w'.ost.config = w.ost.config ∧ w'.ost.ifnames = w.ost.ifnames ∧ w'.ost.dev = w.ost.dev

/-- The effect of adding the names `P` to a tree in a round of version `v`: the
keys stay distinct, a node of `ns'` either has a name of `P` and version `v` or
is a node of `ns` with its version, no key of `ns` is lost, and every name of `P`
is in the tree with version `v`. -/
def adds (P : List String) (v : Int) (ns ns' : List ovs_port) : Prop :=
  (keys ns').Nodup ∧
  (∀ k ver, (k, ver) ∈ view ns' → (k ∈ P ∧ ver = v) ∨ (k ∉ P ∧ (k, ver) ∈ view ns)) ∧
  (∀ k, k ∈ keys ns → k ∈ keys ns') ∧
  (∀ k ∈ P, (k, v) ∈ view ns')

/-- The first statements of `ovs_config_init`, before `vlist_update`: the forced
activation of an empty-capable bridge and the creation of the base link. -/
def ovs_config_init_head (env : Env) (w : World) : World :=
  let w1 := if w.ost.config.empty then
      ovs_set_present { w with ost := { w.ost with force_active := true } }
    else w
  match w1.ost.config.base with
  | some base => ovs_add_base env base w1
  | none => w1

/-- The bridge when `ovs_config_init` has opened the reconciliation round with
`vlist_update`. -/
def ovs_config_init_round (env : Env) (w : World) : World :=
  { ovs_config_init_head env w with
    ost := { (ovs_config_init_head env w).ost with
      ports := vlist_update (ovs_config_init_head env w).ost.ports } }

/-- The calls that `ovs_config_init` makes for a bridge `br` with the configured
base device `base` before it turns to the ports (the presence report, the
registration of the base link and the handling of its add event), and the
`device_get` of each declared name. -/
def idle_call (br : String) (base : Option String) (c : Call) : Prop :=
  (∃ n, c = .device_get n) ∨ (∃ p, c = .device_set_present br p) ∨
  (∃ d, base = some d ∧
    (c = .device_add_user d ∨ c = .device_claim d ∨ c = .device_release d))

/-- A node with its version set to `v` when its name is one of `L`. -/
def refresh (L : List String) (v : Int) (n : ovs_port) : ovs_port :=
  if n.name ∈ L then { n with version := v } else n

/-- The bridge `c1_final` (declared port `a`, hot-plugged port `b`) after one
reconciliation to its declared list `[a]`. -/
def c8_pass1 : World := (ovs_config_init env_ok c1_final).getD c1_final

/-- The bridge `br0`, created with the member list `[a]`, `ovs_base = br1` and
`ovs_tag = 10`, after `ovs_config_init` and the appearance of the member `a`;
the base device `br1` has delivered no event. -/
def c10_world : World :=
  (((ovs_create env_ok "br0" (attr_tagged ["a"] 10)).bind
    (run env_ok [.config_init, .port_event "a" .DEV_EVENT_ADD]))).getD c1_start

/-- Whether the bridge has a base link (`ost->base`) that is not present. -/
def base_absent (ost : ovs_state) : Bool :=
  match ost.base with
  | some ob => !ob.present
  | none => false

/-- The bridge `w`, whose only port is `op`, as the add event of `op` leaves it
when the bridge is not active: the port is present, `n_present` is 1 and the
bridge has been reported present. -/
def member_available (w : World) (op : ovs_port) : World :=
  { w with
    ost := { w.ost with
      n_present := 1, force_active := false,
      ports := { w.ost.ports with nodes := [{ op with present := true }] } },
    trace := w.trace ++ [(Call.device_set_present w.ost.dev.ifname true, 0)] }

/-- The bridge `w` with `dev.active` as the framework sets it. -/
def with_active (act : Bool) (w : World) : World :=
  { w with ost := { w.ost with dev := { w.ost.dev with active := act } } }

/-- The bridge `c1_start` after `ovs_config_init`: its declared member `a` has a
port, which is not present. -/
def c13_world : World := (ovs_config_init env_claim_fails c1_start).getD c1_start

/-- The port of the member `a` as `ovs_config_init` creates it on `c1_start`. -/
def c13_port : ovs_port := { name := "a", version := 2 }

/-- The `device_claim` call of `ovs_enable_port`: the trace after it and its result. -/
def ovs_enable_port_claim (env : Env) (op : ovs_port) (w : World) : Trace × Int :=
  call env (.device_claim op.name) w.trace

/-- The `system_ovs_addport` call of `ovs_enable_port`, made after a successful
claim: the trace after it and its result. -/
def ovs_enable_port_attach (env : Env) (op : ovs_port) (w : World) : Trace × Int :=
  system_ovs_addport env w.ost.dev.ifname op.name (ovs_enable_port_claim env op w).1

/-- A call `ovs-vsctl set ...`, as `system_ovs_settype` and
`system_ovs_setoptions` make it. -/
def is_set_call : Call → Bool
  | .run_prog (cmd :: _) => cmd == "set"
  | _ => false

/-- An environment in which every `ovs-vsctl set` fails (exit status 1) and
everything else succeeds. -/
def env_set_fails : Env :=
  { ret := fun _ c => match c with
      | .device_get _ => 1
      | .run_prog ("set" :: _) => 1
      | _ => 0,
    out := fun _ _ => none,
    DEV_ATTR_MAX := 8 }

/-- The bridge `c4_idle` with a port type and port options configured. -/
def c16_world : World :=
  { c4_idle with ost := { c4_idle.ost with
      config := { type := some "internal", options := some "key=1" } } }

/-- The calls that detach the ports of the list from the bridge `br`, in tree
order: for a present port the control-plane detach (`system_ovs_delport`: IPv6
switched back on, `del-port`) and then the release of its claim; nothing for a
port that is not present. -/
def detach_calls (br : String) : List ovs_port → List Call
  | [] => []
  | op :: rest =>
    if op.present then
      [Call.system_set_disable_ipv6 op.name "0", Call.run_prog ["del-port", br, op.name],
        Call.device_release op.name] ++ detach_calls br rest
    else detach_calls br rest

/-- The release of the base link `ost->base`, if there is one and it is present. -/
def base_release_calls (base : Option ovs_base) : List Call :=
  match base with
  | some ob => if ob.present then [Call.device_release ob.dev] else []
  | none => []

/-- The calls of a deactivation of the bridge `w`, in order. -/
def ovs_set_down_calls (w : World) : List Call :=
  [Call.set_state false] ++ detach_calls w.ost.dev.ifname w.ost.ports.nodes ++
    base_release_calls w.ost.base ++ [Call.run_prog ["del-br", w.ost.dev.ifname]]

/-- The bridge `w` with the port counter incremented, as the add event of a port
leaves it before it turns to the attach or to the presence. -/
def counted (w : World) : World :=
  { w with ost := { w.ost with n_present := w.ost.n_present + 1 } }

/-- A bridge `br0` created without declared members, initialised, to which the
device `x` has been hot-plugged; the bridge is down and `x` is not yet present. -/
def c18_world : World :=
  ((ovs_create env_ok "br0" (attr_ifname [])).bind
    (run env_ok [.config_init, .hotplug_add "x"])).getD c1_start

/-- The hot-plugged port `x` of `c18_world`. -/
def c18_port : ovs_port := { name := "x", version := -1, hotplug := true }

/-- Scenario C: the bridge `br0` with the declared members `a` and `b`, both
present, brought up and active; no base. -/
def c19_world : World :=
  ((ovs_create env_ok "br0" (attr_ifname ["a", "b"])).bind
    (run env_ok [.config_init, .port_event "a" .DEV_EVENT_ADD, .port_event "b" .DEV_EVENT_ADD,
      .dev_active true, .set_state true])).getD c1_start

/-- The bridge `br0` as `ovs_create` leaves it for the member list `[a]`,
`ovs_base = br1` and `ovs_tag = 10`. -/
def c20_start : World :=
  (ovs_create env_ok "br0" (attr_tagged ["a"] 10)).getD c1_start

/-- The calls of `ovs_enable_port` that the attach loop makes over the ports `l`
from the bridge `w`, in order: the port each call was made on and its result. -/
def ovs_enable_ports_results (env : Env) : List ovs_port → World → List (ovs_port × Int)
  | [], _ => []
  | op :: rest, w =>
    (op, (ovs_enable_port env op w).2) ::
      ovs_enable_ports_results env rest (ovs_enable_port env op w).1.2

/-- The calls of `ovs_enable_port` in the attach loop of this `ovs_set_up`: the
loop runs over the port tree after the base statement and `system_ovs_addbr`. -/
def ovs_set_up_results (env : Env) (w : World) : List (ovs_port × Int) :=
  ovs_enable_ports_results env (ovs_set_up_base env w).ost.ports.nodes
    { ovs_set_up_base env w with trace := (ovs_set_up_addbr env w).1 }

/-- An environment in which every device claim succeeds, `iface-to-br` prints the
bridge `br9` for every device, and `ovs-vsctl add-port` fails (exit status 1);
everything else succeeds. -/
def env_attach_elsewhere : Env :=
  { ret := fun _ c => match c with
      | .device_get _ => 1
      | .run_prog ("add-port" :: _) => 1
      | _ => 0,
    out := fun _ _ => some "br9\n",
    DEV_ATTR_MAX := 8 }

theorem ovs_set_present_frame (w : World) :
    ∃ fa tr, ovs_set_present w =
      { w with ost := { w.ost with force_active := fa }, trace := tr } := by
  unfold ovs_set_present ovs_set_present_out
  dsimp only
  split <;> split_ifs <;> exact ⟨_, _, rfl⟩

theorem ovs_disable_port_frame (env : Env) (op : ovs_port) (w : World) :
    ∃ tr, (ovs_disable_port env op w).1 = { w with trace := tr } := by
  unfold ovs_disable_port
  split_ifs <;> exact ⟨_, rfl⟩

theorem ovs_enable_port_cases (env : Env) (op : ovs_port) (w : World) :
    (∃ tr, ovs_enable_port env op w = ((op, { w with trace := tr }), 0)) ∨
    (op.present = true ∧ ∃ tr ret, ret < 0 ∧ ovs_enable_port env op w =
      (({ op with present := false },
        { w with ost := { w.ost with n_present := w.ost.n_present - 1 }, trace := tr }), ret)) := by
  unfold ovs_enable_port ovs_enable_port_error
  by_cases hp : op.present = true
  · simp only [hp, Bool.not_true, Bool.false_eq_true, if_false]
    split_ifs with h1 h2
    · exact Or.inr ⟨trivial, _, _, h1, rfl⟩
    · exact Or.inr ⟨trivial, _, _, h2, rfl⟩
    · exact Or.inl ⟨_, rfl⟩
  · simp only [hp, Bool.not_false, if_true]
    exact Or.inl ⟨w.trace, rfl⟩

theorem ovs_remove_port_cases (env : Env) (op : ovs_port) (w : World) :
    (op.present = false ∧ ovs_remove_port env op w = (op, w)) ∨
    (op.present = true ∧ ∃ fa tr, ovs_remove_port env op w =
      ({ op with present := false },
        { w with ost := { w.ost with n_present := w.ost.n_present - 1, force_active := fa },
                 trace := tr })) := by
  unfold ovs_remove_port
  cases hp : op.present
  · simp
  · simp only [Bool.not_true, Bool.false_eq_true, if_false]
    right
    refine ⟨trivial, ?_⟩
    split_ifs with ha
    · obtain ⟨tr, h⟩ := ovs_disable_port_frame env op w
      rw [h]
      obtain ⟨fa, tr2, h2⟩ := ovs_set_present_frame
        { ({ w with trace := tr } : World) with ost := { w.ost with n_present := w.ost.n_present - 1 } }
      exact ⟨fa, tr2, by rw [h2]⟩
    · obtain ⟨fa, tr2, h2⟩ := ovs_set_present_frame
        { w with ost := { w.ost with n_present := w.ost.n_present - 1 } }
      exact ⟨fa, tr2, by rw [h2]⟩

theorem ovs_free_port_cases (env : Env) (op : ovs_port) (w : World) :
    (op.present = false ∧ ∃ tr, ovs_free_port env op w = { w with trace := tr }) ∨
    (op.present = true ∧ ∃ fa tr, ovs_free_port env op w =
        { w with ost := { w.ost with n_present := w.ost.n_present - 1, force_active := fa },
                 trace := tr }) := by
  unfold ovs_free_port
  rcases ovs_remove_port_cases env op w with ⟨hp, h⟩ | ⟨hp, fa, tr, h⟩
  · left
    refine ⟨hp, ?_⟩
    rw [h]
    dsimp only
    split_ifs <;> exact ⟨_, rfl⟩
  · right
    refine ⟨hp, fa, ?_⟩
    rw [h]
    dsimp only
    split_ifs <;> exact ⟨_, rfl⟩

theorem avl_find_some {nodes : List ovs_port} {key : String} {op : ovs_port}
    (h : avl_find nodes key = some op) : op ∈ nodes ∧ op.name = key := by
  unfold avl_find at h
  exact ⟨List.mem_of_find?_eq_some h, by simpa using List.find?_some h⟩

theorem avl_find_none {nodes : List ovs_port} {key : String}
    (h : avl_find nodes key = none) : key ∉ keys nodes := by
  unfold avl_find at h
  rw [List.find?_eq_none] at h
  intro hk
  simp only [keys, List.mem_map] at hk
  obtain ⟨m, hm, rfl⟩ := hk
  exact h m hm (by simp)

theorem avl_find_of_mem {nodes : List ovs_port} {op : ovs_port}
    (hn : (keys nodes).Nodup) (hm : op ∈ nodes) : avl_find nodes op.name = some op := by
  induction nodes with
  | nil => cases hm
  | cons m rest ih =>
    simp only [keys, List.map_cons, List.nodup_cons, List.mem_map, not_exists, not_and] at hn
    rcases List.mem_cons.mp hm with rfl | hm'
    · simp [avl_find]
    · have hne : m.name ≠ op.name := fun e => hn.1 op hm' e.symm
      have := ih hn.2 hm'
      simp only [avl_find] at this ⊢
      rw [List.find?_cons_of_neg _ (by simpa using hne)]
      exact this

theorem keys_store_port (op : ovs_port) (nodes : List ovs_port) :
    keys (store_port op nodes) = keys nodes := by
  induction nodes with
  | nil => rfl
  | cons m rest ih =>
    unfold store_port
    split_ifs with h
    · simp [keys, h]
    · simpa [keys] using ih

theorem count_present_cons (m : ovs_port) (rest : List ovs_port) :
    count_present (m :: rest) = b2i m.present + count_present rest := by
  unfold count_present b2i
  cases hm : m.present <;> simp [hm]
  omega

theorem count_present_store_port {nodes : List ovs_port} {key : String} {op op' : ovs_port}
    (hf : avl_find nodes key = some op) (hname : op'.name = key) :
    count_present (store_port op' nodes) =
      count_present nodes - b2i op.present + b2i op'.present := by
  induction nodes with
  | nil => simp [avl_find] at hf
  | cons m rest ih =>
    unfold store_port
    by_cases h : m.name = key
    · have : op = m := by
        simp only [avl_find, h, beq_self_eq_true, List.find?_cons_of_pos, Option.some.injEq] at hf
        exact hf.symm
      subst this
      rw [if_pos (h.trans hname.symm), count_present_cons, count_present_cons]
      omega
    · have hf' : avl_find rest key = some op := by
        simp only [avl_find] at hf ⊢
        rwa [List.find?_cons_of_neg _ (by simpa using h)] at hf
      rw [if_neg (fun e => h (e.trans hname)), count_present_cons, count_present_cons, ih hf']
      omega

theorem keys_avl_delete (key : String) (nodes : List ovs_port) :
    keys (avl_delete key nodes) = (keys nodes).erase key := by
  induction nodes with
  | nil => rfl
  | cons m rest ih =>
    unfold avl_delete
    by_cases h : m.name = key
    · simp [keys, h]
    · rw [if_neg h]
      simp only [keys, List.map_cons] at ih ⊢
      rw [List.erase_cons_tail (by simpa using h), ih]

theorem count_present_avl_delete {nodes : List ovs_port} {key : String} {op : ovs_port}
    (hf : avl_find nodes key = some op) :
    count_present (avl_delete key nodes) = count_present nodes - b2i op.present := by
  induction nodes with
  | nil => simp [avl_find] at hf
  | cons m rest ih =>
    unfold avl_delete
    by_cases h : m.name = key
    · have : op = m := by
        simp only [avl_find, h, beq_self_eq_true, List.find?_cons_of_pos, Option.some.injEq] at hf
        exact hf.symm
      subst this
      rw [if_pos h, count_present_cons]
      omega
    · have hf' : avl_find rest key = some op := by
        simp only [avl_find] at hf ⊢
        rwa [List.find?_cons_of_neg _ (by simpa using h)] at hf
      rw [if_neg h, count_present_cons, count_present_cons, ih hf']
      omega

theorem keys_avl_insert (n : ovs_port) (nodes : List ovs_port) :
    (keys (avl_insert n nodes)).Perm (n.name :: keys nodes) := by
  induction nodes with
  | nil => exact List.Perm.refl _
  | cons m rest ih =>
    unfold avl_insert
    split_ifs
    · exact List.Perm.refl _
    · simp only [keys, List.map_cons] at ih ⊢
      exact (List.Perm.cons _ ih).trans (List.Perm.swap _ _ _)

theorem count_present_avl_insert (n : ovs_port) (nodes : List ovs_port) :
    count_present (avl_insert n nodes) = count_present nodes + b2i n.present := by
  induction nodes with
  | nil =>
    have h := count_present_cons n []
    simp only [avl_insert]
    rw [h]
    omega
  | cons m rest ih =>
    unfold avl_insert
    split_ifs
    · rw [count_present_cons]; omega
    · rw [count_present_cons, count_present_cons, ih]; omega

theorem Inv_frame {w w' : World} (hI : Inv w) (hp : w'.ost.ports.nodes = w.ost.ports.nodes)
    (hn : w'.ost.n_present = w.ost.n_present) : Inv w' := by
  unfold Inv at *
  rw [hp, hn]
  exact hI

theorem Inv_store {w w' : World} {op op' : ovs_port} {key : String} (hI : Inv w)
    (hf : avl_find w.ost.ports.nodes key = some op) (hname : op'.name = key)
    (hp : w'.ost.ports.nodes = w.ost.ports.nodes)
    (hn : w'.ost.n_present = w.ost.n_present - b2i op.present + b2i op'.present) :
    Inv (w'.store op') := by
  unfold Inv at *
  simp only [World.store, hp, keys_store_port]
  rw [count_present_store_port hf hname, hn, hI.1]
  exact ⟨rfl, hI.2⟩

theorem vlist_delete_nodes (env : Env) (op : ovs_port) (w : World) :
    (vlist_delete env op w).ost.ports.nodes = avl_delete op.name w.ost.ports.nodes ∧
    (vlist_delete env op w).ost.ports.version = w.ost.ports.version ∧
    (vlist_delete env op w).ost.n_present = w.ost.n_present - b2i op.present := by
  unfold vlist_delete
  rcases ovs_free_port_cases env op { w with ost := { w.ost with ports := { w.ost.ports with
    nodes := avl_delete op.name w.ost.ports.nodes } } } with ⟨hp, tr, h⟩ | ⟨hp, fa, tr, h⟩
  · rw [h]; simp [hp, b2i]
  · rw [h]; simp [hp, b2i]

theorem Inv_vlist_delete (env : Env) {w : World} {op : ovs_port} (hI : Inv w)
    (hf : avl_find w.ost.ports.nodes op.name = some op) : Inv (vlist_delete env op w) := by
  obtain ⟨h1, _, h3⟩ := vlist_delete_nodes env op w
  unfold Inv at *
  rw [h1, h3, keys_avl_delete, count_present_avl_delete hf, hI.1]
  exact ⟨rfl, hI.2.erase _⟩

theorem Inv_ovs_port_cb (env : Env) (name : String) (ev : device_event) {w w' : World}
    (hI : Inv w) (h : ovs_port_cb env name ev w = some w') : Inv w' := by
  unfold ovs_port_cb at h
  cases hf : avl_find w.ost.ports.nodes name with
  | none =>
    rw [hf] at h
    simp only [Option.some.injEq] at h
    exact h ▸ hI
  | some op =>
    rw [hf] at h
    have hname := (avl_find_some hf).2
    cases ev with
    | DEV_EVENT_ADD =>
      dsimp only at h
      cases hp : op.present with
      | true => simp [hp] at h
      | false =>
        simp only [hp, Bool.false_eq_true, if_false] at h
        split_ifs at h with ha h1
        · simp only [Option.some.injEq] at h
          subst h
          rcases ovs_enable_port_cases env { op with present := true }
            { w with ost := { w.ost with n_present := w.ost.n_present + 1 } }
            with ⟨tr, he⟩ | ⟨_, tr, ret, _, he⟩
          · rw [he]
            refine Inv_store hI hf hname rfl ?_
            simp [hp, b2i]
          · rw [he]
            refine Inv_store hI hf hname rfl ?_
            simp [hp, b2i]
        · simp only [Option.some.injEq] at h
          subst h
          obtain ⟨fa, tr, hs⟩ := ovs_set_present_frame
            { w with ost := { w.ost with n_present := w.ost.n_present + 1 } }
          rw [hs]
          refine Inv_store hI hf hname rfl ?_
          simp [hp, b2i]
        · simp only [Option.some.injEq] at h
          subst h
          refine Inv_store hI hf hname rfl ?_
          simp [hp, b2i]
    | DEV_EVENT_REMOVE =>
      dsimp only at h
      split_ifs at h with hh hp
      · simp only [Option.some.injEq] at h
        subst h
        exact Inv_vlist_delete env hI (hname ▸ hf)
      · simp only [Option.some.injEq] at h
        subst h
        rcases ovs_remove_port_cases env op w with ⟨hp', _⟩ | ⟨_, fa, tr, hr⟩
        · simp [hp] at hp'
        · rw [hr]
          refine Inv_store hI hf hname rfl ?_
          simp [hp, b2i]
      · simp only [Option.some.injEq] at h
        exact h ▸ hI
    | DEV_EVENT_SETUP => simp only [Option.some.injEq] at h; exact h ▸ hI
    | DEV_EVENT_UP => simp only [Option.some.injEq] at h; exact h ▸ hI
    | DEV_EVENT_TEARDOWN => simp only [Option.some.injEq] at h; exact h ▸ hI
    | DEV_EVENT_DOWN => simp only [Option.some.injEq] at h; exact h ▸ hI

theorem same_ports_refl (w : World) : same_ports w w :=
  ⟨rfl, rfl, rfl, rfl, rfl, rfl⟩

theorem same_ports_trans {a b c : World} (h1 : same_ports a b) (h2 : same_ports b c) :
    same_ports a c := by
  unfold same_ports at *
  obtain ⟨a1, a2, a3, a4, a5, a6⟩ := h1
  obtain ⟨b1, b2, b3, b4, b5, b6⟩ := h2
  exact ⟨b1.trans a1, b2.trans a2, b3.trans a3, b4.trans a4, b5.trans a5, b6.trans a6⟩

theorem Inv_same_ports {w w' : World} (hI : Inv w) (h : same_ports w w') : Inv w' :=
  Inv_frame hI (by rw [h.1]) h.2.1

theorem same_ports_set_present (w : World) : same_ports w (ovs_set_present w) := by
  obtain ⟨fa, tr, h⟩ := ovs_set_present_frame w
  rw [h]
  exact ⟨rfl, rfl, rfl, rfl, rfl, rfl⟩

theorem same_ports_set_base (w : World) (r : base_ref) (ob : ovs_base) :
    same_ports w (w.set_base r ob) := by
  cases r <;> exact ⟨rfl, rfl, rfl, rfl, rfl, rfl⟩

theorem same_ports_disable_base (ob : ovs_base) (w : World) :
    same_ports w (ovs_disable_base ob w).1 := by
  unfold ovs_disable_base
  split_ifs <;> exact ⟨rfl, rfl, rfl, rfl, rfl, rfl⟩

theorem same_ports_enable_base (env : Env) (ob : ovs_base) (w : World) :
    same_ports w (ovs_enable_base env ob w).1.2 := by
  unfold ovs_enable_base
  dsimp only
  split_ifs <;> exact ⟨rfl, rfl, rfl, rfl, rfl, rfl⟩

theorem same_ports_remove_base (r : base_ref) (w : World) :
    same_ports w (ovs_remove_base r w) := by
  unfold ovs_remove_base
  split
  · exact same_ports_refl w
  · dsimp only
    split_ifs
    · exact same_ports_refl w
    · exact same_ports_trans (same_ports_trans (same_ports_disable_base _ w)
        (same_ports_set_base _ r _)) (same_ports_set_present _)
    · exact same_ports_trans (same_ports_set_base _ r _) (same_ports_set_present _)

theorem same_ports_base_cb (env : Env) (r : base_ref) (ev : device_event) (w : World) :
    same_ports w (ovs_base_cb env r ev w) := by
  unfold ovs_base_cb
  cases ev <;> dsimp only
  · split
    · exact same_ports_refl w
    · rename_i ob _
      have h1 := same_ports_trans (same_ports_trans
        (same_ports_enable_base env { ob with present := true } w)
        (same_ports_set_base _ r (ovs_enable_base env { ob with present := true } w).1.1))
        (same_ports_set_present _)
      split_ifs
      · exact same_ports_trans h1 (same_ports_remove_base r _)
      · exact h1
  · split
    · exact same_ports_refl w
    · split_ifs
      · exact same_ports_remove_base r w
      · exact same_ports_refl w
  all_goals exact same_ports_refl w

theorem same_ports_add_base (env : Env) (name : String) (w : World) :
    same_ports w (ovs_add_base env name w) := by
  unfold ovs_add_base ovs_create_base
  dsimp only
  split_ifs
  · exact ⟨rfl, rfl, rfl, rfl, rfl, rfl⟩
  · exact same_ports_trans (b := { w with links := w.links ++ [{ dev := name }] })
      ⟨rfl, rfl, rfl, rfl, rfl, rfl⟩
      (same_ports_trans (b := _) ⟨rfl, rfl, rfl, rfl, rfl, rfl⟩ (same_ports_base_cb env _ _ _))
  · exact ⟨rfl, rfl, rfl, rfl, rfl, rfl⟩

theorem ovs_disable_ports_frame (env : Env) (l : List ovs_port) (w : World) :
    ∃ tr, ovs_disable_ports env l w = { w with trace := tr } := by
  induction l generalizing w with
  | nil => exact ⟨w.trace, rfl⟩
  | cons op rest ih =>
    unfold ovs_disable_ports
    obtain ⟨tr, h⟩ := ovs_disable_port_frame env op w
    rw [h]
    obtain ⟨tr2, h2⟩ := ih { w with trace := tr }
    exact ⟨tr2, h2⟩

theorem ovs_set_down_base_frame (w : World) :
    ∃ tr, ovs_set_down_base w = { w with trace := tr } := by
  unfold ovs_set_down_base ovs_disable_base
  split
  · split_ifs <;> exact ⟨_, rfl⟩
  · exact ⟨_, rfl⟩

theorem ovs_set_down_frame (env : Env) (w : World) :
    ∃ tr, ovs_set_down env w = ({ w with trace := tr }, 0) := by
  unfold ovs_set_down
  dsimp only
  obtain ⟨tr, h⟩ := ovs_disable_ports_frame env w.ost.ports.nodes
    { w with trace := (call env (Call.set_state false) w.trace).1 }
  rw [h]
  obtain ⟨tr2, h2⟩ := ovs_set_down_base_frame
    { ({ w with trace := (call env (Call.set_state false) w.trace).1 } : World) with trace := tr }
  rw [h2]
  exact ⟨_, rfl⟩

theorem ovs_enable_ports_spec (env : Env) (l : List ovs_port) (w : World) :
    keys (ovs_enable_ports env l w).1 = keys l ∧
    (ovs_enable_ports env l w).2.ost.n_present - count_present (ovs_enable_ports env l w).1 =
      w.ost.n_present - count_present l ∧
    ∃ n tr, (ovs_enable_ports env l w).2 =
      { w with ost := { w.ost with n_present := n }, trace := tr } := by
  induction l generalizing w with
  | nil => exact ⟨rfl, rfl, w.ost.n_present, w.trace, rfl⟩
  | cons op rest ih =>
    unfold ovs_enable_ports
    dsimp only
    rcases ovs_enable_port_cases env op w with ⟨tr, he⟩ | ⟨hp, tr, ret, _, he⟩
    · rw [he]
      dsimp only
      obtain ⟨h1, h2, n, tr2, h3⟩ := ih { w with trace := tr }
      refine ⟨by simpa [keys] using h1, ?_, n, tr2, by rw [h3]⟩
      rw [count_present_cons, count_present_cons]
      simp only at h2
      omega
    · rw [he]
      dsimp only
      obtain ⟨h1, h2, n, tr2, h3⟩ :=
        ih { w with ost := { w.ost with n_present := w.ost.n_present - 1 }, trace := tr }
      refine ⟨by simpa [keys] using h1, ?_, n, tr2, by rw [h3]⟩
      rw [count_present_cons, count_present_cons]
      simp only [hp, b2i] at h2 ⊢
      simp only [Bool.false_eq_true, if_false, if_true]
      omega

theorem same_ports_set_up_base (env : Env) (w : World) :
    same_ports w (ovs_set_up_base env w) := by
  unfold ovs_set_up_base
  split
  · exact same_ports_trans (same_ports_enable_base env _ w) ⟨rfl, rfl, rfl, rfl, rfl, rfl⟩
  · exact same_ports_refl w

theorem Inv_set_up_ports (env : Env) {w : World} (hI : Inv w) :
    Inv (ovs_set_up_ports env w) := by
  obtain ⟨h1, h2, n, tr, h3⟩ := ovs_enable_ports_spec env w.ost.ports.nodes w
  unfold ovs_set_up_ports Inv at *
  dsimp only at h2 ⊢
  rw [h1]
  refine ⟨?_, hI.2⟩
  have := hI.1
  omega

theorem Inv_trace {w : World} (hI : Inv w) (tr : Trace) : Inv { w with trace := tr } :=
  Inv_frame hI rfl rfl

theorem Inv_set_present {w : World} (hI : Inv w) : Inv (ovs_set_present w) :=
  Inv_same_ports hI (same_ports_set_present w)

theorem Inv_set_down (env : Env) {w : World} (hI : Inv w) : Inv (ovs_set_down env w).1 := by
  obtain ⟨tr, hd⟩ := ovs_set_down_frame env w
  rw [hd]
  exact Inv_trace hI tr

theorem Inv_set_up (env : Env) {w : World} (hI : Inv w) : Inv (ovs_set_up env w).1 := by
  unfold ovs_set_up
  dsimp only
  have hI1 : Inv (ovs_set_up_base env w) := Inv_same_ports hI (same_ports_set_up_base env w)
  split_ifs with h0 hb hf hs
  · exact hI
  · exact Inv_trace hI1 _
  · apply Inv_set_present
    apply Inv_trace
    exact Inv_set_up_ports env (Inv_trace hI1 _)
  · apply Inv_set_down
    apply Inv_trace
    exact Inv_set_up_ports env (Inv_trace hI1 _)
  · apply Inv_trace
    exact Inv_set_up_ports env (Inv_trace hI1 _)

theorem Inv_vlist_add (env : Env) (node : ovs_port) {w w' : World} (hI : Inv w)
    (hp : node.present = false) (h : vlist_add env node w = some w') : Inv w' := by
  unfold vlist_add at h
  dsimp only at h
  cases hf : avl_find w.ost.ports.nodes node.name with
  | some old =>
    rw [hf] at h
    simp only [ovs_port_update, Option.some.injEq] at h
    subst h
    refine Inv_store hI hf (avl_find_some hf).2 rfl ?_
    simp
  | none =>
    rw [hf] at h
    have hI1 : Inv ({ w with ost := { w.ost with ports := { w.ost.ports with
        nodes := avl_insert { node with version := w.ost.ports.version }
          w.ost.ports.nodes } } } : World) := by
      unfold Inv at hI ⊢
      dsimp only
      rw [count_present_avl_insert]
      refine ⟨by simp [hp, b2i, hI.1], ?_⟩
      rw [(keys_avl_insert _ _).nodup_iff]
      exact List.nodup_cons.mpr ⟨avl_find_none hf, hI.2⟩
    simp only [ovs_port_update] at h
    split_ifs at h with hr
    · refine Inv_ovs_port_cb env _ _ ?_ h
      exact Inv_same_ports hI1 ⟨rfl, rfl, rfl, rfl, rfl, rfl⟩
    · simp only [Option.some.injEq] at h
      subst h
      exact Inv_same_ports hI1 ⟨rfl, rfl, rfl, rfl, rfl, rfl⟩

theorem Inv_create_port (env : Env) (dev : String) (hotplug : Bool) {w w' : World}
    (hI : Inv w) (h : ovs_create_port env dev hotplug w = some w') : Inv w' := by
  unfold ovs_create_port at h
  dsimp only at h
  split at h
  · exact Inv_vlist_add env _ hI rfl h
  · simp only [Option.map_eq_some'] at h
    obtain ⟨w1, h1, h2⟩ := h
    have hI1 := Inv_vlist_add env _ hI rfl h1
    subst h2
    split_ifs
    · split
      · rename_i cur hc
        refine Inv_store hI1 hc (avl_find_some hc).2 rfl ?_
        simp
      · exact hI1
    · exact hI1

theorem Inv_add_port (env : Env) (name : String) {w w' : World}
    (hI : Inv w) (h : ovs_add_port env name w = some w') : Inv w' := by
  unfold ovs_add_port at h
  dsimp only at h
  split_ifs at h
  · simp only [Option.some.injEq] at h
    subst h
    exact Inv_same_ports hI ⟨rfl, rfl, rfl, rfl, rfl, rfl⟩
  · refine Inv_create_port env _ _ ?_ h
    exact Inv_same_ports hI ⟨rfl, rfl, rfl, rfl, rfl, rfl⟩

theorem Inv_add_ports (env : Env) (l : List String) {w w' : World}
    (hI : Inv w) (h : ovs_add_ports env l w = some w') : Inv w' := by
  induction l generalizing w with
  | nil =>
    simp only [ovs_add_ports, Option.some.injEq] at h
    exact h ▸ hI
  | cons name rest ih =>
    simp only [ovs_add_ports, Option.bind_eq_some] at h
    obtain ⟨w1, h1, h2⟩ := h
    exact ih (Inv_add_port env name hI h1) h2

theorem mem_avl_delete {nodes : List ovs_port} {n : ovs_port} {key : String}
    (hm : n ∈ nodes) (hne : n.name ≠ key) : n ∈ avl_delete key nodes := by
  induction nodes with
  | nil => cases hm
  | cons m rest ih =>
    unfold avl_delete
    rcases List.mem_cons.mp hm with rfl | hm'
    · rw [if_neg hne]
      exact List.mem_cons_self _ _
    · split_ifs
      · exact hm'
      · exact List.mem_cons_of_mem _ (ih hm')

theorem Inv_flush_nodes (env : Env) (l : List ovs_port) {w : World} (hI : Inv w)
    (hsub : ∀ n ∈ l, n ∈ w.ost.ports.nodes) (hnd : (keys l).Nodup) :
    Inv (vlist_flush_nodes env l w) := by
  induction l generalizing w with
  | nil => exact hI
  | cons node rest ih =>
    simp only [keys, List.map_cons, List.nodup_cons, List.mem_map, not_exists, not_and] at hnd
    unfold vlist_flush_nodes
    split_ifs
    · exact ih hI (fun n hn => hsub n (List.mem_cons_of_mem _ hn)) hnd.2
    · have hfind := avl_find_of_mem hI.2 (hsub node (List.mem_cons_self _ _))
      refine ih (Inv_vlist_delete env hI hfind) ?_ hnd.2
      intro n hn
      rw [(vlist_delete_nodes env node w).1]
      exact mem_avl_delete (hsub n (List.mem_cons_of_mem _ hn)) (fun e => hnd.1 n hn e)

theorem Inv_flush (env : Env) {w : World} (hI : Inv w) : Inv (vlist_flush env w) :=
  Inv_flush_nodes env _ hI (fun _ h => h) hI.2

theorem Inv_config_init (env : Env) {w w' : World} (hI : Inv w)
    (h : ovs_config_init env w = some w') : Inv w' := by
  unfold ovs_config_init at h
  simp only [Option.map_eq_some'] at h
  obtain ⟨w4, h4, rfl⟩ := h
  refine Inv_flush env (Inv_add_ports env _ ?_ h4)
  have h1 : same_ports w (if w.ost.config.empty = true then
      ovs_set_present { w with ost := { w.ost with force_active := true } } else w) := by
    split_ifs
    · exact same_ports_trans (b := _) ⟨rfl, rfl, rfl, rfl, rfl, rfl⟩ (same_ports_set_present _)
    · exact same_ports_refl w
  generalize (if w.ost.config.empty = true then
      ovs_set_present { w with ost := { w.ost with force_active := true } } else w) = w1 at h1 ⊢
  have h2 : same_ports w1 (match w1.ost.config.base with
      | some base => ovs_add_base env base w1
      | none => w1) := by
    split
    · exact same_ports_add_base env _ w1
    · exact same_ports_refl w1
  generalize (match w1.ost.config.base with
      | some base => ovs_add_base env base w1
      | none => w1) = w2 at h2 ⊢
  exact Inv_frame (Inv_same_ports hI (same_ports_trans h1 h2)) rfl rfl

theorem Inv_reload (env : Env) (attr : blob_attr) {w : World} {r : World × dev_change_type}
    (hI : Inv w) (h : ovs_reload env attr w = some r) : Inv r.1 := by
  unfold ovs_reload ovs_reload_settings at h
  dsimp only at h
  split at h
  · simp only [Option.map_eq_some'] at h
    obtain ⟨w2, h2, rfl⟩ := h
    have : Inv w2 := by
      refine Inv_config_init env ?_ h2
      exact Inv_frame hI rfl rfl
    exact Inv_frame this rfl rfl
  · simp only [Option.some.injEq] at h
    subst h
    exact Inv_frame hI rfl rfl

theorem Inv_create (env : Env) (name : String) (attr : blob_attr) {w : World}
    (h : ovs_create env name attr = some w) : Inv w := by
  unfold ovs_create at h
  simp only [Option.map_eq_some'] at h
  obtain ⟨r, hr, rfl⟩ := h
  refine Inv_reload env attr ?_ hr
  exact ⟨rfl, List.nodup_nil⟩

theorem Inv_step (env : Env) (op : Op) {w w' : World} (hI : Inv w)
    (h : step env op w = some w') : Inv w' := by
  cases op with
  | port_event port ev => exact Inv_ovs_port_cb env port ev hI h
  | base_event r ev =>
    simp only [step, Option.some.injEq] at h
    exact h ▸ Inv_same_ports hI (same_ports_base_cb env r ev w)
  | dev_active a =>
    simp only [step, Option.some.injEq] at h
    exact h ▸ Inv_frame hI rfl rfl
  | set_state up =>
    simp only [step, Option.some.injEq] at h
    subst h
    unfold ovs_set_state
    split_ifs
    · exact Inv_set_up env hI
    · obtain ⟨tr, hd⟩ := ovs_set_down_frame env w
      rw [hd]
      exact Inv_frame hI rfl rfl
  | hotplug_prepare =>
    simp only [step, Option.some.injEq, ovs_hotplug_prepare] at h
    subst h
    exact Inv_same_ports hI (same_ports_trans (b := _) ⟨rfl, rfl, rfl, rfl, rfl, rfl⟩
      (same_ports_set_present _))
  | hotplug_add port =>
    simp only [step, ovs_hotplug_add, Option.map_map, Option.map_eq_some'] at h
    obtain ⟨w1, h1, rfl⟩ := h
    exact Inv_create_port env port true hI h1
  | hotplug_del port =>
    simp only [step, Option.some.injEq, ovs_hotplug_del] at h
    subst h
    split
    · exact hI
    · rename_i op hf
      exact Inv_vlist_delete env hI ((avl_find_some hf).2 ▸ hf)
  | config_init => exact Inv_config_init env hI h
  | reload attr =>
    simp only [step, Option.map_eq_some'] at h
    obtain ⟨r, hr, rfl⟩ := h
    exact Inv_reload env attr hI hr

theorem Inv_run (env : Env) (ops : List Op) {w w' : World} (hI : Inv w)
    (h : run env ops w = some w') : Inv w' := by
  induction ops generalizing w with
  | nil =>
    simp only [run, Option.some.injEq] at h
    exact h ▸ hI
  | cons op rest ih =>
    simp only [run, Option.bind_eq_some] at h
    obtain ⟨w1, h1, h2⟩ := h
    exact ih (Inv_step env op hI h1) h2

/-- C1: from a freshly created bridge, after every sequence of operations (port
and base events, `set_state` up and down, hot-plug prepare, add and remove,
`ovs_config_init`, reload, changes of `dev.active`) in which no assertion of
`ovs.c` fails, `n_present` equals the number of ports of the port set whose
`present` flag is set, and so is not negative, whatever the collaborators return. -/
theorem n_present_counts_present_ports (env : Env) (name : String) (attr : blob_attr)
    (ops : List Op) (w0 w : World) (h0 : ovs_create env name attr = some w0)
    (h : run env ops w0 = some w) :
    w.ost.n_present = count_present w.ost.ports.nodes ∧ 0 ≤ w.ost.n_present := by
  have hI := Inv_run env ops (Inv_create env name attr h0) h
  refine ⟨hI.1, ?_⟩
  rw [hI.1]
  exact Int.natCast_nonneg _

/-- The run `c1_ops` from the freshly created bridge `c1_start` ends with one
present port among two. -/
theorem n_present_counts_present_ports_witness :
    ovs_create env_ok "br0" (attr_ifname ["a"]) = some c1_start ∧
      run env_ok c1_ops c1_start = some c1_final ∧
      c1_final.ost.n_present = 1 ∧ keys c1_final.ost.ports.nodes = ["a", "b"] ∧
      (c1_final.ost.n_present = count_present c1_final.ost.ports.nodes ∧
        0 ≤ c1_final.ost.n_present) :=
  ⟨by decide, by decide, by decide, by decide,
    n_present_counts_present_ports env_ok "br0" (attr_ifname ["a"]) c1_ops c1_start c1_final
      (by decide) (by decide)⟩

/-- What `ovs_set_present` appends to the trace and leaves in `force_active`. -/
theorem ovs_set_present_spec (w : World) :
    (ovs_set_present w).trace = w.trace ++
      [(Call.device_set_present w.ost.dev.ifname
        ((match w.ost.base with
          | some ob => ob.present
          | none => true) &&
         (w.ost.config.empty || decide (w.ost.n_present ≠ 0))), 0)] ∧
    (ovs_set_present w).ost.force_active =
      (((match w.ost.base with
          | some ob => !ob.present
          | none => false) || w.ost.config.empty) && w.ost.force_active) := by
  unfold ovs_set_present ovs_set_present_out call_void
  cases hb : w.ost.base with
  | none =>
    dsimp only
    split_ifs with h1 h2 <;> simp_all
  | some ob =>
    dsimp only
    split_ifs with h0 h1 h2 <;> simp_all

/-- C2: `ovs_set_present` leaves `force_active` out of the value it reports. For
every bridge state the value is (no base link, or the base link present) and
(`config.empty` or `n_present` not 0), and `force_active` is cleared unless the
base link is absent or `config.empty` is set. On the bridge `c2_world`, the state
in which `ovs_hotplug_prepare` calls `ovs_set_present` on the fresh bridge
`c1_start`, `force_active` is set and the formula of the specification is true,
and `ovs_set_present` reports not-present. -/
theorem ovs_set_present_ignores_force_active :
    (∀ w : World,
      (ovs_set_present w).trace = w.trace ++
        [(Call.device_set_present w.ost.dev.ifname
          ((match w.ost.base with
            | some ob => ob.present
            | none => true) &&
           (w.ost.config.empty || decide (w.ost.n_present ≠ 0))), 0)] ∧
      (ovs_set_present w).ost.force_active =
        (((match w.ost.base with
            | some ob => !ob.present
            | none => false) || w.ost.config.empty) && w.ost.force_active)) ∧
    (ovs_hotplug_prepare c1_start).1 = ovs_set_present c2_world ∧
    c2_world.ost.force_active = true ∧ c2_world.ost.config.empty = false ∧
    c2_world.ost.n_present = 0 ∧ c2_world.ost.base = none ∧
    spec_present c2_world.ost = true ∧
    new_calls c2_world (ovs_set_present c2_world) = [Call.device_set_present "br0" false] ∧
    (ovs_set_present c2_world).ost.force_active = false :=
  ⟨ovs_set_present_spec, by decide, by decide, by decide, by decide, by decide, by decide,
    by decide, by decide⟩

theorem avl_find_avl_insert {nodes : List ovs_port} {n : ovs_port}
    (h : avl_find nodes n.name = none) : avl_find (avl_insert n nodes) n.name = some n := by
  induction nodes with
  | nil => simp [avl_insert, avl_find]
  | cons m rest ih =>
    have hm : m.name ≠ n.name := by
      intro e
      simp [avl_find, e] at h
    have hr : avl_find rest n.name = none := by
      simp only [avl_find] at h ⊢
      rwa [List.find?_cons_of_neg _ (by simpa using hm)] at h
    unfold avl_insert
    split_ifs
    · simp [avl_find]
    · simp only [avl_find]
      rw [List.find?_cons_of_neg _ (by simpa using hm)]
      exact ih hr

theorem ovs_port_cb_add_some (env : Env) {name : String} {op : ovs_port} {w : World}
    (hf : avl_find w.ost.ports.nodes name = some op) (hp : op.present = false) :
    ∃ w', ovs_port_cb env name .DEV_EVENT_ADD w = some w' := by
  unfold ovs_port_cb
  rw [hf]
  dsimp only
  simp only [hp, Bool.false_eq_true, if_false]
  split_ifs <;> exact ⟨_, rfl⟩

theorem vlist_add_some (env : Env) (node : ovs_port) (w : World)
    (hp : node.present = false) : ∃ w', vlist_add env node w = some w' := by
  unfold vlist_add
  dsimp only
  cases hf : avl_find w.ost.ports.nodes node.name with
  | some old => exact ⟨_, rfl⟩
  | none =>
    simp only [ovs_port_update]
    split_ifs
    · have hins := avl_find_avl_insert (n := { node with version := w.ost.ports.version }) hf
      exact ovs_port_cb_add_some env hins hp
    · exact ⟨_, rfl⟩

theorem ovs_create_port_some (env : Env) (dev : String) (hotplug : Bool) (w : World) :
    ∃ w', ovs_create_port env dev hotplug w = some w' := by
  unfold ovs_create_port
  dsimp only
  obtain ⟨w1, h1⟩ := vlist_add_some env { name := dev, hotplug := hotplug } w rfl
  split
  · exact ⟨w1, h1⟩
  · rw [h1]
    exact ⟨_, rfl⟩

theorem ovs_add_port_some (env : Env) (name : String) (w : World) :
    ∃ w', ovs_add_port env name w = some w' := by
  unfold ovs_add_port
  dsimp only
  split_ifs
  · exact ⟨_, rfl⟩
  · exact ovs_create_port_some env name false _

theorem ovs_add_ports_some (env : Env) (l : List String) (w : World) :
    ∃ w', ovs_add_ports env l w = some w' := by
  induction l generalizing w with
  | nil => exact ⟨w, rfl⟩
  | cons name rest ih =>
    obtain ⟨w1, h1⟩ := ovs_add_port_some env name w
    obtain ⟨w2, h2⟩ := ih w1
    exact ⟨w2, by simp [ovs_add_ports, h1, h2]⟩

theorem ovs_config_init_some (env : Env) (w : World) :
    ∃ w', ovs_config_init env w = some w' := by
  unfold ovs_config_init
  dsimp only
  obtain ⟨w4, h4⟩ := ovs_add_ports_some env _ _
  rw [h4]
  exact ⟨_, rfl⟩

theorem uci_blob_diff_testBit (tb1 tb2 : List (Option blobmsg)) (n : Nat)
    (hn : n ≤ BITS_PER_LONG) (i : Nat) :
    (uci_blob_diff tb1 tb2 n 0).testBit i =
      decide (i < n ∧ tb_get tb1 i ≠ tb_get tb2 i) := by
  induction n with
  | zero => simp [uci_blob_diff]
  | succ k ih =>
    have ih' := ih (Nat.le_of_succ_le hn)
    unfold uci_blob_diff
    dsimp only
    have hk : k < BITS_PER_LONG := hn
    split_ifs with hd
    · rw [Nat.testBit_mod_two_pow, Nat.testBit_or, ih', Nat.one_shiftLeft, Nat.testBit_two_pow]
      by_cases hik : i = k
      · subst hik
        simp [hd, hk]
      · by_cases hlt : i < k
        · have : i < BITS_PER_LONG := by omega
          have h2 : i < k + 1 := by omega
          have hki : k ≠ i := fun e => hik e.symm
          simp [hlt, this, h2, hki]
        · have h2 : ¬ i < k + 1 := by omega
          simp [hlt, h2, Ne.symm hik]
    · rw [ih']
      by_cases hik : i = k
      · subst hik
        simp at hd
        simp [hd]
      · have : (i < k + 1) = (i < k) := by
          apply propext
          omega
        simp only [this]

theorem uci_blob_diff_ne_zero (tb1 tb2 : List (Option blobmsg)) (n : Nat)
    (hn : n ≤ BITS_PER_LONG) :
    uci_blob_diff tb1 tb2 n 0 ≠ 0 ↔ ∃ i, i < n ∧ tb_get tb1 i ≠ tb_get tb2 i := by
  constructor
  · intro h
    obtain ⟨i, hi⟩ := Nat.ne_zero_implies_bit_true h
    rw [uci_blob_diff_testBit tb1 tb2 n hn] at hi
    exact ⟨i, by simpa using hi⟩
  · rintro ⟨i, hi⟩ h0
    have := uci_blob_diff_testBit tb1 tb2 n hn i
    rw [h0, Nat.zero_testBit] at this
    simp [hi.1, hi.2] at this

theorem ulong_not_ifname_testBit (i : Nat) :
    (ulong_not (1 <<< OVS_ATTR_IFNAME)).testBit i =
      decide (i ≠ OVS_ATTR_IFNAME ∧ i < BITS_PER_LONG) := by
  have h : ulong_not (1 <<< OVS_ATTR_IFNAME) = 2 ^ 64 - (1 + 1) := by decide
  rw [h, Nat.testBit_two_pow_sub_succ (by decide)]
  by_cases hi : i = 0
  · subst hi
    simp [OVS_ATTR_IFNAME]
  · have h1 : Nat.testBit 1 i = false := by
      cases hb : Nat.testBit 1 i
      · rfl
      · exact absurd (Nat.testBit_one_eq_true_iff_self_eq_zero.mp hb) hi
    simp [h1, hi, OVS_ATTR_IFNAME, BITS_PER_LONG]

theorem uci_blob_diff_masked (tb1 tb2 : List (Option blobmsg)) :
    uci_blob_diff tb1 tb2 __OVS_ATTR_MAX 0 &&& ulong_not (1 <<< OVS_ATTR_IFNAME) ≠ 0 ↔
      ∃ i, i < __OVS_ATTR_MAX ∧ i ≠ OVS_ATTR_IFNAME ∧ tb_get tb1 i ≠ tb_get tb2 i := by
  have hn : __OVS_ATTR_MAX ≤ BITS_PER_LONG := by decide
  constructor
  · intro h
    obtain ⟨i, hi⟩ := Nat.ne_zero_implies_bit_true h
    rw [Nat.testBit_and, uci_blob_diff_testBit tb1 tb2 _ hn, ulong_not_ifname_testBit] at hi
    simp only [Bool.and_eq_true, decide_eq_true_eq] at hi
    exact ⟨i, hi.1.1, hi.2.1, hi.1.2⟩
  · rintro ⟨i, h1, h2, h3⟩ h0
    have := Nat.testBit_and (uci_blob_diff tb1 tb2 __OVS_ATTR_MAX 0)
      (ulong_not (1 <<< OVS_ATTR_IFNAME)) i
    rw [h0, Nat.zero_testBit, uci_blob_diff_testBit tb1 tb2 _ hn, ulong_not_ifname_testBit] at this
    have h4 : i < BITS_PER_LONG := Nat.lt_of_lt_of_le h1 hn
    simp [h1, h2, h3, h4] at this

/-- C3: a reload of a bridge that holds a stored configuration returns, and it
returns `DEV_CONFIG_RESTART` exactly when a generic device attribute differs or a
bridge attribute other than `ifname` (`ovs_base`, `ovs_tag`, `ovs_empty`,
`ovs_type`, `ovs_options`) differs, and `DEV_CONFIG_APPLIED` otherwise. -/
theorem ovs_reload_restart_iff (env : Env) (attr old : blob_attr) (w : World)
    (hold : w.ost.config_data = some old) (hmax : env.DEV_ATTR_MAX ≤ BITS_PER_LONG) :
    ∃ w' ret, ovs_reload env attr w = some (w', ret) ∧
      (ret = dev_change_type.DEV_CONFIG_RESTART ↔
        ((∃ i, i < env.DEV_ATTR_MAX ∧ tb_get attr.tb_dev i ≠ tb_get old.tb_dev i) ∨
         (∃ i, i < __OVS_ATTR_MAX ∧ i ≠ OVS_ATTR_IFNAME ∧
            tb_get attr.tb_br i ≠ tb_get old.tb_br i))) ∧
      (ret ≠ dev_change_type.DEV_CONFIG_RESTART → ret = dev_change_type.DEV_CONFIG_APPLIED) := by
  unfold ovs_reload
  dsimp only
  have hcd : (ovs_reload_settings attr w).ost.config_data = some old := hold
  rw [hcd]
  dsimp only
  obtain ⟨w2, h2⟩ := ovs_config_init_some env (ovs_reload_settings attr w)
  rw [h2]
  refine ⟨_, _, rfl, ?_, ?_⟩
  · unfold ovs_reload_ret
    dsimp only
    rw [← uci_blob_diff_ne_zero _ _ _ hmax, ← uci_blob_diff_masked]
    split_ifs with h1 h2 <;> simp_all
  · unfold ovs_reload_ret
    dsimp only
    split_ifs <;> simp

/-- On the bridge `c1_start`, whose stored configuration declares the member list
`[a]`, a reload that changes only the member list is applied in place, and one
that also sets a base and a tag asks for a restart. -/
theorem ovs_reload_restart_iff_witness :
    c1_start.ost.config_data = some (attr_ifname ["a"]) ∧
    env_ok.DEV_ATTR_MAX ≤ BITS_PER_LONG ∧
    (ovs_reload env_ok (attr_ifname ["a", "b"]) c1_start).map (fun r => r.2) =
      some dev_change_type.DEV_CONFIG_APPLIED ∧
    (ovs_reload env_ok (attr_tagged ["a", "b"] 10) c1_start).map (fun r => r.2) =
      some dev_change_type.DEV_CONFIG_RESTART ∧
    (∃ w' ret, ovs_reload env_ok (attr_ifname ["a", "b"]) c1_start = some (w', ret) ∧
      (ret = dev_change_type.DEV_CONFIG_RESTART ↔
        ((∃ i, i < env_ok.DEV_ATTR_MAX ∧
            tb_get (attr_ifname ["a", "b"]).tb_dev i ≠ tb_get (attr_ifname ["a"]).tb_dev i) ∨
         (∃ i, i < __OVS_ATTR_MAX ∧ i ≠ OVS_ATTR_IFNAME ∧
            tb_get (attr_ifname ["a", "b"]).tb_br i ≠ tb_get (attr_ifname ["a"]).tb_br i))) ∧
      (ret ≠ dev_change_type.DEV_CONFIG_RESTART → ret = dev_change_type.DEV_CONFIG_APPLIED)) :=
  ⟨by decide, by decide, by decide, by decide,
    ovs_reload_restart_iff env_ok (attr_ifname ["a", "b"]) (attr_ifname ["a"]) c1_start
      (by decide) (by decide)⟩

theorem emits_refl (P : Call → Prop) (tr : Trace) : emits P tr tr :=
  ⟨[], by simp, by simp⟩

theorem emits_trans {P : Call → Prop} {a b c : Trace} (h1 : emits P a b) (h2 : emits P b c) :
    emits P a c := by
  obtain ⟨s1, rfl, p1⟩ := h1
  obtain ⟨s2, rfl, p2⟩ := h2
  refine ⟨s1 ++ s2, by simp, ?_⟩
  intro e he
  rcases List.mem_append.mp he with h | h
  · exact p1 e h
  · exact p2 e h

theorem emits_mono {P Q : Call → Prop} {a b : Trace} (hPQ : ∀ c, P c → Q c)
    (h : emits P a b) : emits Q a b := by
  obtain ⟨s, rfl, p⟩ := h
  exact ⟨s, rfl, fun e he => hPQ _ (p e he)⟩

theorem emits_extends {P : Call → Prop} {a b : Trace} (h : emits P a b) : a <+: b := by
  obtain ⟨s, rfl, _⟩ := h
  exact List.prefix_append a s

theorem emits_call {P : Call → Prop} (env : Env) {c : Call} (hc : P c) (tr : Trace) :
    emits P tr (call env c tr).1 :=
  ⟨[(c, env.ret tr c)], rfl, by simpa using hc⟩

theorem emits_call_void {P : Call → Prop} {c : Call} (hc : P c) (tr : Trace) :
    emits P tr (call_void c tr) :=
  ⟨[(c, 0)], rfl, by simpa using hc⟩

theorem emits_get_ovs (env : Env) (name : String) (tr : Trace) :
    emits attach_call tr (system_get_ovs env name tr).1 := by
  unfold system_get_ovs
  dsimp only
  split_ifs
  · exact emits_call_void (Or.inr (Or.inr (Or.inr (Or.inl ⟨_, rfl⟩)))) tr
  · exact emits_call_void (Or.inr (Or.inr (Or.inl ⟨_, rfl⟩))) tr

theorem emits_addport (env : Env) (ovs dev : String) (tr : Trace) :
    emits attach_call tr (system_ovs_addport env ovs dev tr).1 := by
  unfold system_ovs_addport
  dsimp only
  have h1 : emits attach_call tr (call_void (Call.system_set_disable_ipv6 dev "1") tr) :=
    emits_call_void (Or.inr (Or.inl ⟨_, rfl⟩)) tr
  have h2 := emits_trans h1 (emits_get_ovs env dev _)
  split_ifs
  · exact h2
  · exact emits_trans h2 (emits_call env (Or.inr (Or.inr (Or.inr (Or.inr (Or.inl ⟨_, rfl⟩))))) _)
  · exact emits_trans h2 (emits_call env (Or.inr (Or.inr (Or.inr (Or.inr (Or.inl ⟨_, rfl⟩))))) _)

theorem emits_settype (env : Env) (dev : String) (cfg : ovs_config) (tr : Trace) :
    emits attach_call tr (system_ovs_settype env dev cfg tr).1 := by
  unfold system_ovs_settype
  split
  · exact emits_refl _ _
  · dsimp only
    split_ifs <;>
      exact emits_call env (Or.inr (Or.inr (Or.inr (Or.inr (Or.inr ⟨_, rfl⟩))))) _

theorem emits_setoptions (env : Env) (dev : String) (cfg : ovs_config) (tr : Trace) :
    emits attach_call tr (system_ovs_setoptions env dev cfg tr).1 := by
  unfold system_ovs_setoptions
  split
  · exact emits_refl _ _
  · dsimp only
    split_ifs <;>
      exact emits_call env (Or.inr (Or.inr (Or.inr (Or.inr (Or.inr ⟨_, rfl⟩))))) _

theorem emits_enable_port (env : Env) (op : ovs_port) (w : World) :
    emits attach_call w.trace (ovs_enable_port env op w).1.2.trace := by
  unfold ovs_enable_port ovs_enable_port_error
  dsimp only
  have h1 : emits attach_call w.trace (call env (Call.device_claim op.name) w.trace).1 :=
    emits_call env (Or.inl ⟨_, rfl⟩) _
  have h2 := emits_trans h1 (emits_addport env w.ost.dev.ifname op.name _)
  split_ifs
  · exact emits_refl _ _
  · exact h1
  · exact h2
  · exact emits_trans (emits_trans h2 (emits_settype env op.name w.ost.config _))
      (emits_setoptions env op.name w.ost.config _)

theorem emits_enable_ports (env : Env) (l : List ovs_port) (w : World) :
    emits attach_call w.trace (ovs_enable_ports env l w).2.trace := by
  induction l generalizing w with
  | nil => exact emits_refl _ _
  | cons op rest ih =>
    unfold ovs_enable_ports
    exact emits_trans (emits_enable_port env op w) (ih _)

theorem emits_set_up_ports (env : Env) (w : World) :
    emits attach_call w.trace (ovs_set_up_ports env w).trace :=
  emits_enable_ports env _ w

theorem emits_set_up_base (env : Env) (w : World) :
    emits attach_call w.trace (ovs_set_up_base env w).trace := by
  unfold ovs_set_up_base ovs_enable_base
  split
  · dsimp only
    split_ifs
    · exact emits_refl _ _
    · exact emits_call env (Or.inl ⟨_, rfl⟩) _
    · exact emits_call env (Or.inl ⟨_, rfl⟩) _
  · exact emits_refl _ _

theorem addbr_event (env : Env) (ovs : String) (cfg : ovs_config) (tr : Trace) :
    ∃ a r, (system_ovs_addbr env ovs cfg tr).1 = tr ++ [(Call.run_prog ("add-br" :: ovs :: a), r)] := by
  unfold system_ovs_addbr call
  split
  · dsimp only
    split_ifs <;> exact ⟨_, _, rfl⟩
  · dsimp only
    split_ifs <;> exact ⟨_, _, rfl⟩

theorem delbr_event (env : Env) (ovs : String) (tr : Trace) :
    ∃ r, (system_ovs_delbr env ovs tr).1 = tr ++ [(Call.run_prog ["del-br", ovs], r)] := by
  unfold system_ovs_delbr call
  dsimp only
  split_ifs <;> exact ⟨_, rfl⟩

theorem delport_events (env : Env) (ovs dev : String) (tr : Trace) :
    ∃ r, (system_ovs_delport env ovs dev tr).1 =
      tr ++ [(Call.system_set_disable_ipv6 dev "0", 0), (Call.run_prog ["del-port", ovs, dev], r)] := by
  unfold system_ovs_delport call call_void
  dsimp only
  split_ifs <;> exact ⟨_, List.append_assoc _ _ _⟩

theorem up_call_not_teardown {c : Call} (h : up_call c) : is_teardown c = false := by
  rcases h with (⟨d, rfl⟩ | ⟨d, rfl⟩ | ⟨s, rfl⟩ | ⟨s, rfl⟩ | ⟨a, rfl⟩ | ⟨a, rfl⟩) | ⟨a, rfl⟩ | rfl <;>
    simp [is_teardown]

theorem attach_call_ne_set_state {c : Call} (h : attach_call c) (up : Bool) :
    c ≠ Call.set_state up := by
  rcases h with ⟨d, rfl⟩ | ⟨d, rfl⟩ | ⟨s, rfl⟩ | ⟨s, rfl⟩ | ⟨a, rfl⟩ | ⟨a, rfl⟩ <;> simp

theorem emits_disable_port (env : Env) (op : ovs_port) (w : World) :
    emits detach_call w.trace (ovs_disable_port env op w).1.trace := by
  unfold ovs_disable_port
  dsimp only
  split_ifs
  · exact emits_refl _ _
  · obtain ⟨r, h⟩ := delport_events env w.ost.dev.ifname op.name w.trace
    rw [h]
    refine ⟨[(Call.system_set_disable_ipv6 op.name "0", 0),
      (Call.run_prog ["del-port", w.ost.dev.ifname, op.name], r),
      (Call.device_release op.name, 0)], by simp [call_void], ?_⟩
    intro e he
    simp only [List.mem_cons, List.mem_singleton, List.not_mem_nil, or_false] at he
    rcases he with rfl | rfl | rfl
    · exact Or.inl ⟨_, rfl⟩
    · exact Or.inr (Or.inl ⟨_, rfl⟩)
    · exact Or.inr (Or.inr ⟨_, rfl⟩)

theorem emits_disable_ports (env : Env) (l : List ovs_port) (w : World) :
    emits detach_call w.trace (ovs_disable_ports env l w).trace := by
  induction l generalizing w with
  | nil => exact emits_refl _ _
  | cons op rest ih =>
    unfold ovs_disable_ports
    exact emits_trans (emits_disable_port env op w) (ih _)

theorem emits_disable_base (ob : ovs_base) (w : World) :
    emits detach_call w.trace (ovs_disable_base ob w).1.trace := by
  unfold ovs_disable_base
  split_ifs
  · exact emits_refl _ _
  · exact emits_call_void (Or.inr (Or.inr ⟨_, rfl⟩)) _

theorem emits_set_down_base (w : World) :
    emits detach_call w.trace (ovs_set_down_base w).trace := by
  unfold ovs_set_down_base
  split
  · exact emits_disable_base _ _
  · exact emits_refl _ _

theorem ovs_set_down_trace (env : Env) (w : World) :
    ∃ r0 mid r1, (ovs_set_down env w).1.trace =
      w.trace ++ (Call.set_state false, r0) :: mid ++
        [(Call.run_prog ["del-br", w.ost.dev.ifname], r1)] ∧
      ∀ e ∈ mid, detach_call e.1 := by
  unfold ovs_set_down
  dsimp only
  have h1 := emits_disable_ports env w.ost.ports.nodes
    { w with trace := (call env (Call.set_state false) w.trace).1 }
  obtain ⟨tr, htr⟩ := ovs_disable_ports_frame env w.ost.ports.nodes
    { w with trace := (call env (Call.set_state false) w.trace).1 }
  rw [htr] at h1 ⊢
  have h2 := emits_set_down_base
    { ({ w with trace := (call env (Call.set_state false) w.trace).1 } : World) with trace := tr }
  obtain ⟨tr2, htr2⟩ := ovs_set_down_base_frame
    { ({ w with trace := (call env (Call.set_state false) w.trace).1 } : World) with trace := tr }
  rw [htr2] at h2 ⊢
  dsimp only at h1 h2 ⊢
  obtain ⟨mid, hmid, hp⟩ := emits_trans h1 h2
  obtain ⟨r1, hd⟩ := delbr_event env w.ost.dev.ifname tr2
  refine ⟨env.ret w.trace (Call.set_state false), mid, r1, ?_, hp⟩
  rw [hd, hmid]
  simp [call]

theorem ovs_set_up_eq (env : Env) (w : World) :
    ovs_set_up env w =
      if !w.ost.force_active && w.ost.n_present == 0 then (w, -ENOENT)
      else if (ovs_set_up_addbr env w).2 < 0 then
        ({ ovs_set_up_base env w with trace := (ovs_set_up_addbr env w).1 },
          (ovs_set_up_addbr env w).2)
      else if !(ovs_set_up_attached env w).ost.force_active &&
          (ovs_set_up_attached env w).ost.n_present == 0 then
        (ovs_set_present { ovs_set_up_attached env w with
          trace := (system_ovs_delbr env (ovs_set_up_attached env w).ost.dev.ifname
            (ovs_set_up_attached env w).trace).1 }, -ENOENT)
      else if (call env (Call.set_state true) (ovs_set_up_attached env w).trace).2 < 0 then
        ((ovs_set_down env { ovs_set_up_attached env w with
            trace := (call env (Call.set_state true) (ovs_set_up_attached env w).trace).1 }).1,
          (call env (Call.set_state true) (ovs_set_up_attached env w).trace).2)
      else
        ({ ovs_set_up_attached env w with
            trace := (call env (Call.set_state true) (ovs_set_up_attached env w).trace).1 },
          (call env (Call.set_state true) (ovs_set_up_attached env w).trace).2) := by
  rfl

theorem ovs_set_up_base_frame (env : Env) (w : World) :
    ∃ b tr, ovs_set_up_base env w = { w with ost := { w.ost with base := b }, trace := tr } ∧
      emits attach_call w.trace tr := by
  have h := emits_set_up_base env w
  unfold ovs_set_up_base ovs_enable_base at *
  split at h
  · rename_i ob hb
    dsimp only at h ⊢
    split_ifs at h ⊢
    · exact ⟨some ob, _, by rw [← hb], h⟩
    · exact ⟨_, _, rfl, h⟩
    · exact ⟨some ob, _, by rw [← hb], h⟩
  · rename_i hb
    exact ⟨none, _, by rw [← hb], h⟩

theorem ovs_set_up_ports_frame (env : Env) (w : World) :
    ∃ n l tr, ovs_set_up_ports env w =
        { w with ost := { w.ost with n_present := n, ports := { w.ost.ports with nodes := l } },
                 trace := tr } ∧
      emits attach_call w.trace tr ∧ keys l = keys w.ost.ports.nodes ∧
      n - count_present l = w.ost.n_present - count_present w.ost.ports.nodes := by
  obtain ⟨h1, h2, n, tr, h3⟩ := ovs_enable_ports_spec env w.ost.ports.nodes w
  have h4 := emits_set_up_ports env w
  unfold ovs_set_up_ports at *
  dsimp only at h4 ⊢
  rw [h3] at h2 h4 ⊢
  exact ⟨n, _, tr, rfl, h4, h1, h2⟩

theorem ovs_set_up_attached_frame (env : Env) (w : World) :
    ∃ b n l tr a r, ovs_set_up_attached env w =
        { w with ost := { w.ost with base := b, n_present := n,
                                      ports := { w.ost.ports with nodes := l } },
                 trace := tr } ∧
      (∃ pre, emits attach_call w.trace pre ∧
        (ovs_set_up_addbr env w).1 = pre ++ [(Call.run_prog ("add-br" :: w.ost.dev.ifname :: a), r)] ∧
        emits attach_call (pre ++ [(Call.run_prog ("add-br" :: w.ost.dev.ifname :: a), r)]) tr) ∧
      keys l = keys w.ost.ports.nodes ∧
      n - count_present l = w.ost.n_present - count_present w.ost.ports.nodes := by
  unfold ovs_set_up_attached ovs_set_up_addbr
  obtain ⟨b, tr1, h1, e1⟩ := ovs_set_up_base_frame env w
  rw [h1]
  dsimp only
  obtain ⟨a, r, hb⟩ := addbr_event env w.ost.dev.ifname w.ost.config tr1
  obtain ⟨n, l, tr2, h2, e2, hk, hc⟩ := ovs_set_up_ports_frame env
    { ost := { w.ost with base := b }, links := w.links,
      trace := (system_ovs_addbr env w.ost.dev.ifname w.ost.config tr1).1 }
  rw [h2]
  dsimp only at e2 hk hc ⊢
  rw [hb] at e2
  exact ⟨b, n, l, tr2, a, r, rfl, ⟨tr1, e1, hb, e2⟩, hk, hc⟩

theorem set_present_trace_extends (w : World) : w.trace <+: (ovs_set_present w).trace := by
  rw [(ovs_set_present_spec w).1]
  exact List.prefix_append _ _

theorem set_down_trace_extends (env : Env) (w : World) :
    w.trace <+: (ovs_set_down env w).1.trace := by
  obtain ⟨r0, mid, r1, h, _⟩ := ovs_set_down_trace env w
  rw [h, List.append_assoc]
  exact List.prefix_append _ _

theorem ovs_set_up_attached_extends (env : Env) (w : World)
    (h0 : ¬ (w.ost.force_active = false ∧ w.ost.n_present = 0))
    (hbr : ¬ (ovs_set_up_addbr env w).2 < 0) :
    (ovs_set_up_attached env w).trace <+: (ovs_set_up env w).1.trace := by
  rw [ovs_set_up_eq]
  have hc : ¬ ((!w.ost.force_active && w.ost.n_present == 0) = true) := by
    simpa using h0
  rw [if_neg hc, if_neg hbr]
  split_ifs
  · refine List.IsPrefix.trans ?_ (set_present_trace_extends _)
    obtain ⟨r, hd⟩ := delbr_event env (ovs_set_up_attached env w).ost.dev.ifname
      (ovs_set_up_attached env w).trace
    dsimp only
    rw [hd]
    exact List.prefix_append _ _
  · refine List.IsPrefix.trans ?_ (set_down_trace_extends env _)
    exact List.prefix_append _ _
  · exact List.prefix_append _ _

/-- C4, as amended: `ovs_set_down` and `ovs_set_up` are not guarded against
repetition. In every state `ovs_set_down` leaves the bridge unchanged, returns 0
and calls `set_state(dev, false)` first and `del-br` last; `ovs_set_up` makes no
call and changes nothing when `force_active` is false and `n_present` is 0, and
in every other state it issues `add-br`. -/
theorem ovs_set_up_down_unguarded (env : Env) (w : World) :
    (∃ tr, ovs_set_down env w = ({ w with trace := tr }, 0)) ∧
    (∃ r0 mid r1, (ovs_set_down env w).1.trace =
      w.trace ++ (Call.set_state false, r0) :: mid ++
        [(Call.run_prog ["del-br", w.ost.dev.ifname], r1)]) ∧
    (w.ost.force_active = false ∧ w.ost.n_present = 0 → ovs_set_up env w = (w, -ENOENT)) ∧
    (¬ (w.ost.force_active = false ∧ w.ost.n_present = 0) →
      ∃ pre a r, emits attach_call w.trace pre ∧
        pre ++ [(Call.run_prog ("add-br" :: w.ost.dev.ifname :: a), r)] <+:
          (ovs_set_up env w).1.trace) := by
  refine ⟨ovs_set_down_frame env w, ?_, ?_, ?_⟩
  · obtain ⟨r0, mid, r1, h, _⟩ := ovs_set_down_trace env w
    exact ⟨r0, mid, r1, h⟩
  · rintro ⟨h1, h2⟩
    rw [ovs_set_up_eq, if_pos (by simp [h1, h2])]
  · intro h0
    obtain ⟨b, n, l, tr, a, r, hw, ⟨pre, hpre, hadd, hext⟩, _, _⟩ :=
      ovs_set_up_attached_frame env w
    refine ⟨pre, a, r, hpre, ?_⟩
    by_cases hbr : (ovs_set_up_addbr env w).2 < 0
    · have hc : ¬ ((!w.ost.force_active && w.ost.n_present == 0) = true) := by
        simpa using h0
      rw [ovs_set_up_eq, if_neg hc, if_pos hbr]
      dsimp only
      rw [hadd]
    · refine List.IsPrefix.trans ?_ (ovs_set_up_attached_extends env w h0 hbr)
      rw [hw]
      exact emits_extends hext

/-- C4 fails as stated: on the bridge `c4_up`, reached by a successful
`ovs_set_up`, a second `ovs_set_up` issues `add-br` and `add-port` again; on the
bridge `c1_start`, which was never activated, `ovs_set_down` issues `del-br`; and
a second `ovs_set_down` after a first one detaches the port and deletes the
bridge again. -/
theorem ovs_set_up_down_not_idempotent :
    (ovs_set_up env_ok c4_idle).2 = 0 ∧
    new_calls c4_up (ovs_set_up env_ok c4_up).1 =
      [.run_prog ["add-br", "br0"], .device_claim "a", .system_set_disable_ipv6 "a" "1",
        .popen "/usr/bin/ovs-vsctl --verbose=vsctl:syslog:emer iface-to-br a",
        .run_prog ["add-port", "br0", "a"], .set_state true] ∧
    new_calls c1_start (ovs_set_down env_ok c1_start).1 =
      [.set_state false, .run_prog ["del-br", "br0"]] ∧
    new_calls (ovs_set_down env_ok c4_up).1
        (ovs_set_down env_ok (ovs_set_down env_ok c4_up).1).1 =
      [.set_state false, .system_set_disable_ipv6 "a" "0", .run_prog ["del-port", "br0", "a"],
        .device_release "a", .run_prog ["del-br", "br0"]] := by
  decide

theorem enable_ports_all_fail (env : Env) (l : List ovs_port) (w : World)
    (hfail : ∀ p ∈ ovs_enable_ports_results env l w, p.1.present = true → p.2 < 0) :
    ∀ op ∈ (ovs_enable_ports env l w).1, op.present = false := by
  induction l generalizing w with
  | nil => intro op h; cases h
  | cons op rest ih =>
    unfold ovs_enable_ports_results at hfail
    unfold ovs_enable_ports
    dsimp only
    intro op' h'
    rcases List.mem_cons.mp h' with rfl | hr
    · rcases ovs_enable_port_cases env op w with ⟨tr, he⟩ | ⟨hp, tr, ret, _, he⟩
      · rw [he]
        cases hp : op.present
        · rfl
        · have := hfail (op, (ovs_enable_port env op w).2) (List.mem_cons_self _ _) hp
          rw [he] at this
          exact absurd this (lt_irrefl _)
      · rw [he]
    · exact ih _ (fun p hp => hfail p (List.mem_cons_of_mem _ hp)) op' hr

theorem count_present_eq_zero {l : List ovs_port} (h : ∀ op ∈ l, op.present = false) :
    count_present l = 0 := by
  induction l with
  | nil => rfl
  | cons m rest ih =>
    rw [count_present_cons, ih (fun o ho => h o (List.mem_cons_of_mem _ ho)),
      h m (List.mem_cons_self _ _)]
    rfl

theorem count_present_nonneg (l : List ovs_port) : 0 ≤ count_present l :=
  Int.natCast_nonneg _

theorem count_present_pos {l : List ovs_port} {op : ovs_port} (hm : op ∈ l)
    (hp : op.present = true) : 0 < count_present l := by
  induction l with
  | nil => cases hm
  | cons m rest ih =>
    rw [count_present_cons]
    rcases List.mem_cons.mp hm with rfl | hr
    · have := count_present_nonneg rest
      simp only [hp, b2i, if_true]
      omega
    · have := ih hr
      have h2 : 0 ≤ b2i m.present := by
        unfold b2i
        split_ifs <;> decide
      omega

theorem enable_ports_n_present_le (env : Env) (l : List ovs_port) (w : World) :
    (ovs_enable_ports env l w).2.ost.n_present ≤ w.ost.n_present := by
  induction l generalizing w with
  | nil => exact le_refl _
  | cons op rest ih =>
    unfold ovs_enable_ports
    dsimp only
    rcases ovs_enable_port_cases env op w with ⟨tr, he⟩ | ⟨hp, tr, ret, _, he⟩
    · rw [he]
      exact ih _
    · rw [he]
      have := ih { w with ost := { w.ost with n_present := w.ost.n_present - 1 }, trace := tr }
      dsimp only at this ⊢
      omega

theorem ovs_set_up_attached_n_present_le (env : Env) (w : World) :
    (ovs_set_up_attached env w).ost.n_present ≤ w.ost.n_present := by
  unfold ovs_set_up_attached ovs_set_up_ports
  dsimp only
  refine le_trans (enable_ports_n_present_le env _ _) ?_
  dsimp only
  rw [(same_ports_set_up_base env w).2.1]

theorem ovs_set_up_attached_all_fail (env : Env) (w : World)
    (hfail : ∀ p ∈ ovs_set_up_results env w, p.1.present = true → p.2 < 0) :
    ∀ op ∈ (ovs_set_up_attached env w).ost.ports.nodes, op.present = false := by
  unfold ovs_set_up_attached ovs_set_up_ports
  dsimp only
  exact enable_ports_all_fail env _ _ hfail

theorem ovs_set_present_value (w : World) :
    ∃ v, (ovs_set_present w).trace =
        w.trace ++ [(Call.device_set_present w.ost.dev.ifname v, 0)] ∧
      (w.ost.config.empty = false → w.ost.n_present = 0 → v = false) := by
  refine ⟨_, (ovs_set_present_spec w).1, ?_⟩
  intro h1 h2
  simp [h1, h2]

/-- C5: on a bridge whose `n_present` agrees with its port set and whose bridge
creation succeeds: when `force_active` is false, a port is present and every
present port fails to claim or attach in this activation (each call of
`ovs_enable_port` that the attach loop makes on a present port fails), then
`ovs_set_up` returns `-ENOENT`, leaves no port present, issues `del-br` after
`add-br` and then reports presence (not-present when `config.empty` is false), and
never calls `set_state(dev, true)`; conversely, when `force_active` is set or a
port is still present after the attach loop, the call after the loop is
`set_state(dev, true)` and its result is what `ovs_set_up` returns. -/
theorem ovs_set_up_total_failure (env : Env) (w : World)
    (hI : w.ost.n_present = count_present w.ost.ports.nodes)
    (hbr : 0 ≤ (ovs_set_up_addbr env w).2) :
    (w.ost.force_active = false → 0 < w.ost.n_present →
      (∀ p ∈ ovs_set_up_results env w, p.1.present = true → p.2 < 0) →
      (ovs_set_up env w).2 = -ENOENT ∧
      (∀ op ∈ (ovs_set_up env w).1.ost.ports.nodes, op.present = false) ∧
      (ovs_set_up env w).1.ost.n_present = 0 ∧
      ∃ suf r v, (ovs_set_up env w).1.trace =
          w.trace ++ suf ++ [(Call.run_prog ["del-br", w.ost.dev.ifname], r),
            (Call.device_set_present w.ost.dev.ifname v, 0)] ∧
        (∀ e ∈ suf, e.1 ≠ Call.set_state true) ∧
        (∃ a r', (Call.run_prog ("add-br" :: w.ost.dev.ifname :: a), r') ∈ suf) ∧
        (w.ost.config.empty = false → v = false)) ∧
    ((w.ost.force_active = true ∨
        ∃ op ∈ (ovs_set_up_attached env w).ost.ports.nodes, op.present = true) →
      (ovs_set_up env w).2 = env.ret (ovs_set_up_attached env w).trace (Call.set_state true) ∧
      (ovs_set_up_attached env w).trace ++ [(Call.set_state true,
          env.ret (ovs_set_up_attached env w).trace (Call.set_state true))] <+:
        (ovs_set_up env w).1.trace) := by
  have hbr' : ¬ (ovs_set_up_addbr env w).2 < 0 := not_lt.mpr hbr
  have hall := ovs_set_up_attached_all_fail env w
  have hle := ovs_set_up_attached_n_present_le env w
  obtain ⟨b, n, l, tr, a, r, hw, ⟨pre, ⟨suf1, rfl, hs1⟩, hadd, ⟨suf2, rfl, hs2⟩⟩, hk, hc⟩ :=
    ovs_set_up_attached_frame env w
  rw [ovs_set_up_eq, if_neg hbr']
  rw [hw] at hall hle ⊢
  dsimp only at hall hle ⊢
  constructor
  · intro hf hpos hfail
    have hl := hall hfail
    have hn : n = 0 := by
      have := count_present_eq_zero hl
      omega
    have hc1 : ¬ ((!w.ost.force_active && w.ost.n_present == 0) = true) := by
      have : w.ost.n_present ≠ 0 := by omega
      simp [hf, this]
    rw [if_neg hc1, if_pos (by simp [hf, hn])]
    dsimp only
    obtain ⟨rd, hd⟩ := delbr_event env w.ost.dev.ifname
      (w.trace ++ suf1 ++ [(Call.run_prog ("add-br" :: w.ost.dev.ifname :: a), r)] ++ suf2)
    rw [hd]
    obtain ⟨fa, tr2, hsp⟩ := ovs_set_present_frame
      { ost := { w.ost with base := b, n_present := n, ports := { w.ost.ports with nodes := l } },
        links := w.links,
        trace := w.trace ++ suf1 ++ [(Call.run_prog ("add-br" :: w.ost.dev.ifname :: a), r)] ++
          suf2 ++ [(Call.run_prog ["del-br", w.ost.dev.ifname], rd)] }
    obtain ⟨v, hrep, hv⟩ := ovs_set_present_value
      { ost := { w.ost with base := b, n_present := n, ports := { w.ost.ports with nodes := l } },
        links := w.links,
        trace := w.trace ++ suf1 ++ [(Call.run_prog ("add-br" :: w.ost.dev.ifname :: a), r)] ++
          suf2 ++ [(Call.run_prog ["del-br", w.ost.dev.ifname], rd)] }
    refine ⟨rfl, ?_, ?_, ?_⟩
    · rw [hsp]
      exact hl
    · rw [hsp]
      exact hn
    · refine ⟨suf1 ++ [(Call.run_prog ("add-br" :: w.ost.dev.ifname :: a), r)] ++ suf2, rd, v,
        ?_, ?_, ⟨a, r, by simp⟩, ?_⟩
      · refine hrep.trans ?_
        simp only [List.append_assoc, List.cons_append, List.nil_append]
      · intro e he
        simp only [List.mem_append, List.mem_singleton] at he
        rcases he with (h | rfl) | h
        · exact attach_call_ne_set_state (hs1 e h) true
        · simp
        · exact attach_call_ne_set_state (hs2 e h) true
      · intro he
        exact hv he hn
  · intro h
    have hpos : w.ost.force_active = true ∨ 0 < n := by
      rcases h with h | ⟨op, hm, hp⟩
      · exact Or.inl h
      · right
        have := count_present_pos hm hp
        omega
    have hc1 : ¬ ((!w.ost.force_active && w.ost.n_present == 0) = true) := by
      rcases hpos with h | h
      · simp [h]
      · have : w.ost.n_present ≠ 0 := by omega
        simp [this]
    have hc2 : ¬ ((!w.ost.force_active && n == 0) = true) := by
      rcases hpos with h | h
      · simp [h]
      · have : n ≠ 0 := by omega
        simp [this]
    rw [if_neg hc1, if_neg hc2]
    split_ifs
    · refine ⟨rfl, ?_⟩
      refine List.IsPrefix.trans ?_ (set_down_trace_extends env _)
      exact List.prefix_refl _
    · exact ⟨rfl, List.prefix_refl _⟩

/-- On the bridge `c4_idle` (one present port `a`) in the environment
`env_attach_elsewhere`: the claim of `a` succeeds, `a` is reported on another
bridge and `add-port` fails, so the one call of `ovs_enable_port` of this
activation fails; `ovs_set_up` deletes the bridge, reports not-present and returns
`-ENOENT`. -/
theorem ovs_set_up_total_failure_witness :
    c4_idle.ost.n_present = count_present c4_idle.ost.ports.nodes ∧
    0 ≤ (ovs_set_up_addbr env_attach_elsewhere c4_idle).2 ∧
    c4_idle.ost.force_active = false ∧ 0 < c4_idle.ost.n_present ∧
    ovs_set_up_results env_attach_elsewhere c4_idle = [(c7_port, -1)] ∧
    new_calls c4_idle (ovs_set_up env_attach_elsewhere c4_idle).1 =
      [.run_prog ["add-br", "br0"], .device_claim "a", .system_set_disable_ipv6 "a" "1",
        .popen "/usr/bin/ovs-vsctl --verbose=vsctl:syslog:emer iface-to-br a",
        .run_prog ["add-port", "br0", "a"], .run_prog ["del-br", "br0"],
        .device_set_present "br0" false] ∧
    ((ovs_set_up env_attach_elsewhere c4_idle).2 = -ENOENT ∧
      (∀ op ∈ (ovs_set_up env_attach_elsewhere c4_idle).1.ost.ports.nodes,
        op.present = false) ∧
      (ovs_set_up env_attach_elsewhere c4_idle).1.ost.n_present = 0 ∧
      ∃ suf r v, (ovs_set_up env_attach_elsewhere c4_idle).1.trace =
          c4_idle.trace ++ suf ++ [(Call.run_prog ["del-br", c4_idle.ost.dev.ifname], r),
            (Call.device_set_present c4_idle.ost.dev.ifname v, 0)] ∧
        (∀ e ∈ suf, e.1 ≠ Call.set_state true) ∧
        (∃ a r', (Call.run_prog ("add-br" :: c4_idle.ost.dev.ifname :: a), r') ∈ suf) ∧
        (c4_idle.ost.config.empty = false → v = false)) :=
  ⟨by decide, by decide, by decide, by decide, by decide, by decide,
    (ovs_set_up_total_failure env_attach_elsewhere c4_idle (by decide) (by decide)).1
      (by decide) (by decide) (by decide)⟩

theorem detach_events_detach_call (ovs dev : String) (r : Int) :
    ∀ e ∈ detach_events ovs dev r, detach_call e.1 := by
  intro e he
  simp only [detach_events, List.mem_cons, List.mem_singleton, List.not_mem_nil, or_false] at he
  rcases he with rfl | rfl | rfl
  · exact Or.inl ⟨_, rfl⟩
  · exact Or.inr (Or.inl ⟨_, rfl⟩)
  · exact Or.inr (Or.inr ⟨_, rfl⟩)

theorem ovs_disable_port_events (env : Env) (op : ovs_port) (w : World)
    (hp : op.present = true) :
    ∃ r, ovs_disable_port env op w =
      ({ w with trace := w.trace ++ detach_events w.ost.dev.ifname op.name r }, 0) := by
  unfold ovs_disable_port
  obtain ⟨r, h⟩ := delport_events env w.ost.dev.ifname op.name w.trace
  refine ⟨r, ?_⟩
  simp only [hp, Bool.not_true, Bool.false_eq_true, if_false]
  rw [h]
  simp [call_void, detach_events]

theorem ovs_disable_ports_detaches (env : Env) (l : List ovs_port) (w : World) :
    ∃ suf, ovs_disable_ports env l w = { w with trace := w.trace ++ suf } ∧
      (∀ e ∈ suf, detach_call e.1) ∧
      ∀ op ∈ l, op.present = true →
        ∃ r, detach_events w.ost.dev.ifname op.name r <:+: suf := by
  induction l generalizing w with
  | nil => exact ⟨[], by simp [ovs_disable_ports], by simp, by simp⟩
  | cons op rest ih =>
    unfold ovs_disable_ports
    cases hp : op.present with
    | false =>
      have h0 : ovs_disable_port env op w = (w, 0) := by
        simp [ovs_disable_port, hp]
      rw [h0]
      obtain ⟨suf, h1, h2, h3⟩ := ih w
      refine ⟨suf, h1, h2, ?_⟩
      intro o ho hpo
      rcases List.mem_cons.mp ho with rfl | hr
      · rw [hp] at hpo
        cases hpo
      · exact h3 o hr hpo
    | true =>
      obtain ⟨r, h0⟩ := ovs_disable_port_events env op w hp
      rw [h0]
      obtain ⟨suf, h1, h2, h3⟩ :=
        ih { w with trace := w.trace ++ detach_events w.ost.dev.ifname op.name r }
      refine ⟨detach_events w.ost.dev.ifname op.name r ++ suf, ?_, ?_, ?_⟩
      · rw [h1]
        simp
      · intro e he
        rcases List.mem_append.mp he with h | h
        · exact detach_events_detach_call _ _ _ e h
        · exact h2 e h
      · intro o ho hpo
        rcases List.mem_cons.mp ho with rfl | hr
        · exact ⟨r, (List.prefix_append _ _).isInfix⟩
        · obtain ⟨r', hr'⟩ := h3 o hr hpo
          exact ⟨r', hr'.trans (List.suffix_append _ _).isInfix⟩

theorem ovs_set_down_detaches (env : Env) (w : World) :
    ∃ r0 mid r1, ovs_set_down env w =
        ({ w with trace := w.trace ++ (Call.set_state false, r0) :: mid ++
            [(Call.run_prog ["del-br", w.ost.dev.ifname], r1)] }, 0) ∧
      (∀ e ∈ mid, detach_call e.1) ∧
      ∀ op ∈ w.ost.ports.nodes, op.present = true →
        ∃ r, detach_events w.ost.dev.ifname op.name r <:+: mid := by
  unfold ovs_set_down
  dsimp only
  obtain ⟨suf, h1, h2, h3⟩ := ovs_disable_ports_detaches env w.ost.ports.nodes
    { w with trace := (call env (Call.set_state false) w.trace).1 }
  rw [h1]
  have hb := emits_set_down_base
    { ({ w with trace := (call env (Call.set_state false) w.trace).1 } : World) with
      trace := (call env (Call.set_state false) w.trace).1 ++ suf }
  obtain ⟨tr2, htr2⟩ := ovs_set_down_base_frame
    { ({ w with trace := (call env (Call.set_state false) w.trace).1 } : World) with
      trace := (call env (Call.set_state false) w.trace).1 ++ suf }
  rw [htr2] at hb ⊢
  dsimp only at hb h3 ⊢
  obtain ⟨suf2, rfl, hs2⟩ := hb
  obtain ⟨r1, hd⟩ := delbr_event env w.ost.dev.ifname
    ((call env (Call.set_state false) w.trace).1 ++ suf ++ suf2)
  refine ⟨env.ret w.trace (Call.set_state false), suf ++ suf2, r1, ?_, ?_, ?_⟩
  · rw [hd]
    simp [call]
  · intro e he
    rcases List.mem_append.mp he with h | h
    · exact h2 e h
    · exact hs2 e h
  · intro op ho hp
    obtain ⟨r, hr⟩ := h3 op ho hp
    exact ⟨r, hr.trans (List.prefix_append _ _).isInfix⟩

/-- C6: on a bridge whose `n_present` agrees with its port set, whose bridge
creation succeeds and on which the total-failure path is not taken: when
`set_state(dev, true)` returns a negative value, `ovs_set_up` returns that value
after the calls of `ovs_set_down` (`set_state(dev, false)`, for every port still
present the detach and the release of its claim, `del-br` last), with the bridge
state as the attach loop left it; when `set_state(dev, true)` does not fail,
`ovs_set_up` returns its value and no detach, release or `del-br` call is made. -/
theorem ovs_set_up_rollback (env : Env) (w : World)
    (hI : w.ost.n_present = count_present w.ost.ports.nodes)
    (hbr : 0 ≤ (ovs_set_up_addbr env w).2)
    (hnf : w.ost.force_active = true ∨ (ovs_set_up_attached env w).ost.n_present ≠ 0) :
    (env.ret (ovs_set_up_attached env w).trace (Call.set_state true) < 0 →
      (ovs_set_up env w).2 = env.ret (ovs_set_up_attached env w).trace (Call.set_state true) ∧
      ∃ r0 mid r1, (ovs_set_up env w).1 =
          { ovs_set_up_attached env w with
            trace := (ovs_set_up_attached env w).trace ++
              [(Call.set_state true,
                  env.ret (ovs_set_up_attached env w).trace (Call.set_state true)),
                (Call.set_state false, r0)] ++ mid ++
              [(Call.run_prog ["del-br", w.ost.dev.ifname], r1)] } ∧
        (∀ e ∈ mid, detach_call e.1) ∧
        ∀ op ∈ (ovs_set_up_attached env w).ost.ports.nodes, op.present = true →
          ∃ r, detach_events w.ost.dev.ifname op.name r <:+: mid) ∧
    (¬ env.ret (ovs_set_up_attached env w).trace (Call.set_state true) < 0 →
      (ovs_set_up env w).2 = env.ret (ovs_set_up_attached env w).trace (Call.set_state true) ∧
      ∃ suf, (ovs_set_up env w).1 =
          { ovs_set_up_attached env w with trace := w.trace ++ suf } ∧
        ∀ e ∈ suf, is_teardown e.1 = false) := by
  have hbr' : ¬ (ovs_set_up_addbr env w).2 < 0 := not_lt.mpr hbr
  have hle := ovs_set_up_attached_n_present_le env w
  obtain ⟨b, n, l, tr, a, r, hw, ⟨pre, ⟨suf1, rfl, hs1⟩, hadd, ⟨suf2, rfl, hs2⟩⟩, hk, hc⟩ :=
    ovs_set_up_attached_frame env w
  rw [ovs_set_up_eq, if_neg hbr']
  rw [hw] at hle hnf ⊢
  dsimp only at hle hnf ⊢
  have hn0 := count_present_nonneg l
  have hc1 : ¬ ((!w.ost.force_active && w.ost.n_present == 0) = true) := by
    rcases hnf with h | h
    · simp [h]
    · have : w.ost.n_present ≠ 0 := by omega
      simp [this]
  have hc2 : ¬ ((!w.ost.force_active && n == 0) = true) := by
    rcases hnf with h | h
    · simp [h]
    · simp [h]
  rw [if_neg hc1, if_neg hc2]
  unfold call
  dsimp only
  constructor
  · intro hneg
    rw [if_pos hneg]
    refine ⟨rfl, ?_⟩
    obtain ⟨r0, mid, r1, hd, hm, hdet⟩ := ovs_set_down_detaches env
      { ost := { w.ost with base := b, n_present := n, ports := { w.ost.ports with nodes := l } },
        links := w.links,
        trace := w.trace ++ suf1 ++ [(Call.run_prog ("add-br" :: w.ost.dev.ifname :: a), r)] ++
            suf2 ++ [(Call.set_state true, env.ret (w.trace ++ suf1 ++
              [(Call.run_prog ("add-br" :: w.ost.dev.ifname :: a), r)] ++ suf2)
              (Call.set_state true))] }
    refine ⟨r0, mid, r1, ?_, hm, hdet⟩
    rw [hd]
    simp
  · intro hpos
    rw [if_neg hpos]
    refine ⟨rfl, suf1 ++ [(Call.run_prog ("add-br" :: w.ost.dev.ifname :: a), r)] ++ suf2 ++
      [(Call.set_state true, env.ret (w.trace ++ suf1 ++
        [(Call.run_prog ("add-br" :: w.ost.dev.ifname :: a), r)] ++ suf2) (Call.set_state true))],
      by simp, ?_⟩
    intro e he
    simp only [List.mem_append, List.mem_singleton] at he
    rcases he with ((h | rfl) | h) | rfl
    · exact up_call_not_teardown (Or.inl (hs1 e h))
    · exact up_call_not_teardown (Or.inr (Or.inl ⟨_, rfl⟩))
    · exact up_call_not_teardown (Or.inl (hs2 e h))
    · exact up_call_not_teardown (Or.inr (Or.inr rfl))

/-- On the bridge `c4_idle` with the activation signal refused, `ovs_set_up`
attaches the port `a`, is refused, detaches and releases `a`, deletes the bridge
and returns the refusal. -/
theorem ovs_set_up_rollback_witness :
    c4_idle.ost.n_present = count_present c4_idle.ost.ports.nodes ∧
    0 ≤ (ovs_set_up_addbr env_state_fails c4_idle).2 ∧
    (c4_idle.ost.force_active = true ∨
      (ovs_set_up_attached env_state_fails c4_idle).ost.n_present ≠ 0) ∧
    env_state_fails.ret (ovs_set_up_attached env_state_fails c4_idle).trace
      (Call.set_state true) < 0 ∧
    new_calls c4_idle (ovs_set_up env_state_fails c4_idle).1 =
      [.run_prog ["add-br", "br0"], .device_claim "a", .system_set_disable_ipv6 "a" "1",
        .popen "/usr/bin/ovs-vsctl --verbose=vsctl:syslog:emer iface-to-br a",
        .run_prog ["add-port", "br0", "a"], .set_state true, .set_state false,
        .system_set_disable_ipv6 "a" "0", .run_prog ["del-port", "br0", "a"],
        .device_release "a", .run_prog ["del-br", "br0"]] ∧
    ((ovs_set_up env_state_fails c4_idle).2 =
        env_state_fails.ret (ovs_set_up_attached env_state_fails c4_idle).trace
          (Call.set_state true) ∧
      ∃ r0 mid r1, (ovs_set_up env_state_fails c4_idle).1 =
          { ovs_set_up_attached env_state_fails c4_idle with
            trace := (ovs_set_up_attached env_state_fails c4_idle).trace ++
              [(Call.set_state true,
                  env_state_fails.ret (ovs_set_up_attached env_state_fails c4_idle).trace
                    (Call.set_state true)),
                (Call.set_state false, r0)] ++ mid ++
              [(Call.run_prog ["del-br", c4_idle.ost.dev.ifname], r1)] } ∧
        (∀ e ∈ mid, detach_call e.1) ∧
        ∀ op ∈ (ovs_set_up_attached env_state_fails c4_idle).ost.ports.nodes,
          op.present = true →
          ∃ r, detach_events c4_idle.ost.dev.ifname op.name r <:+: mid) :=
  ⟨by decide, by decide, by decide, by decide, by decide,
    (ovs_set_up_rollback env_state_fails c4_idle (by decide) (by decide) (by decide)).1
      (by decide)⟩

/-- C7 fails on the code: on the bridge `c4_idle` the claim of the present port
`a` succeeds and `add-port` fails; `ovs_enable_port` returns -1 with the port
marked not-present and `n_present` decremented, and `device_release` was not
called for the claimed device. A following `ovs_set_down` does not release it
either, the port being no longer present. -/
theorem ovs_enable_port_leaves_claim :
    avl_find c4_idle.ost.ports.nodes "a" = some c7_port ∧
    (ovs_enable_port env_attach_fails c7_port c4_idle).2 = -1 ∧
    (ovs_enable_port env_attach_fails c7_port c4_idle).1.1.present = false ∧
    (ovs_enable_port env_attach_fails c7_port c4_idle).1.2.ost.n_present = 0 ∧
    (ovs_enable_port env_attach_fails c7_port c4_idle).1.2.trace.drop c4_idle.trace.length =
      [(.device_claim "a", 0), (.system_set_disable_ipv6 "a" "1", 0),
        (.popen "/usr/bin/ovs-vsctl --verbose=vsctl:syslog:emer iface-to-br a", 0),
        (.run_prog ["add-port", "br0", "a"], 1)] ∧
    new_calls c4_idle (ovs_set_down env_attach_fails
        ((ovs_enable_port env_attach_fails c7_port c4_idle).1.2.store
          (ovs_enable_port env_attach_fails c7_port c4_idle).1.1)).1 =
      [.device_claim "a", .system_set_disable_ipv6 "a" "1",
        .popen "/usr/bin/ovs-vsctl --verbose=vsctl:syslog:emer iface-to-br a",
        .run_prog ["add-port", "br0", "a"], .set_state false, .run_prog ["del-br", "br0"]] := by
  decide

theorem keys_eq_view (nodes : List ovs_port) : keys nodes = (view nodes).map Prod.fst := by
  simp [keys, view]

theorem mem_keys_of_mem {nodes : List ovs_port} {n : ovs_port} (h : n ∈ nodes) :
    n.name ∈ keys nodes :=
  List.mem_map.mpr ⟨n, h, rfl⟩

theorem mem_view_of_mem {nodes : List ovs_port} {n : ovs_port} (h : n ∈ nodes) :
    (n.name, n.version) ∈ view nodes :=
  List.mem_map.mpr ⟨n, h, rfl⟩

theorem mem_keys_of_mem_view {nodes : List ovs_port} {k : String} {v : Int}
    (h : (k, v) ∈ view nodes) : k ∈ keys nodes := by
  rw [keys_eq_view]
  exact List.mem_map.mpr ⟨(k, v), h, rfl⟩

theorem avl_find_of_mem_keys {nodes : List ovs_port} {k : String} (h : k ∈ keys nodes) :
    ∃ op, avl_find nodes k = some op := by
  cases hf : avl_find nodes k with
  | some op => exact ⟨op, rfl⟩
  | none => exact absurd h (avl_find_none hf)

theorem view_store_same {nodes : List ovs_port} {key : String} {op op' : ovs_port}
    (hf : avl_find nodes key = some op) (hname : op'.name = key)
    (hv : op'.version = op.version) : view (store_port op' nodes) = view nodes := by
  induction nodes with
  | nil => simp [avl_find] at hf
  | cons m rest ih =>
    unfold store_port
    by_cases h : m.name = key
    · have : op = m := by
        simp only [avl_find, h, beq_self_eq_true, List.find?_cons_of_pos, Option.some.injEq] at hf
        exact hf.symm
      subst this
      rw [if_pos (h.trans hname.symm)]
      simp [view, hname, h, hv]
    · have hf' : avl_find rest key = some op := by
        simp only [avl_find] at hf ⊢
        rwa [List.find?_cons_of_neg _ (by simpa using h)] at hf
      rw [if_neg (fun e => h (e.trans hname))]
      simp only [view, List.map_cons] at ih ⊢
      rw [ih hf']

theorem mem_view_store_refresh {nodes : List ovs_port} {key : String} {op : ovs_port} {v : Int}
    (hn : (keys nodes).Nodup) (hf : avl_find nodes key = some op) (k : String) (ver : Int) :
    (k, ver) ∈ view (store_port { op with version := v } nodes) ↔
      (k = key ∧ ver = v) ∨ (k ≠ key ∧ (k, ver) ∈ view nodes) := by
  induction nodes with
  | nil => simp [avl_find] at hf
  | cons m rest ih =>
    have hname := (avl_find_some hf).2
    simp only [keys, List.map_cons, List.nodup_cons, List.mem_map, not_exists, not_and] at hn
    unfold store_port
    by_cases h : m.name = key
    · have : op = m := by
        simp only [avl_find, h, beq_self_eq_true, List.find?_cons_of_pos, Option.some.injEq] at hf
        exact hf.symm
      subst this
      rw [if_pos rfl]
      simp only [view, List.map_cons, List.mem_cons, Prod.mk.injEq, List.mem_map]
      constructor
      · rintro (⟨rfl, rfl⟩ | ⟨n, hn', hk, hv⟩)
        · exact Or.inl ⟨h, rfl⟩
        · right
          have hne : k ≠ key := by
            rintro rfl
            exact hn.1 n hn' (hk.trans h.symm)
          exact ⟨hne, Or.inr ⟨n, hn', hk, hv⟩⟩
      · rintro (⟨rfl, rfl⟩ | ⟨hne, h2⟩)
        · exact Or.inl ⟨h.symm, rfl⟩
        · rcases h2 with ⟨rfl, rfl⟩ | h2
          · exact absurd h hne
          · exact Or.inr h2
    · have hf' : avl_find rest key = some op := by
        simp only [avl_find] at hf ⊢
        rwa [List.find?_cons_of_neg _ (by simpa using h)] at hf
      have hne : ¬ m.name = ({ op with version := v } : ovs_port).name := fun e => h (e.trans hname)
      rw [if_neg hne]
      have ih' := ih (by simpa [keys] using hn.2) hf'
      simp only [view, List.map_cons, List.mem_cons, Prod.mk.injEq] at ih' ⊢
      rw [ih']
      constructor
      · rintro (⟨rfl, rfl⟩ | h2 | h2)
        · exact Or.inr ⟨h, Or.inl ⟨rfl, rfl⟩⟩
        · exact Or.inl h2
        · exact Or.inr ⟨h2.1, Or.inr h2.2⟩
      · rintro (h2 | ⟨h2, ⟨rfl, rfl⟩ | h3⟩)
        · exact Or.inr (Or.inl h2)
        · exact Or.inl ⟨rfl, rfl⟩
        · exact Or.inr (Or.inr ⟨h2, h3⟩)

theorem mem_avl_insert (n m : ovs_port) (nodes : List ovs_port) :
    m ∈ avl_insert n nodes ↔ m = n ∨ m ∈ nodes := by
  induction nodes with
  | nil => simp [avl_insert]
  | cons x rest ih =>
    unfold avl_insert
    split_ifs
    · simp
    · simp only [List.mem_cons, ih]
      tauto

theorem mem_view_avl_insert (n : ovs_port) (nodes : List ovs_port) (k : String) (ver : Int) :
    (k, ver) ∈ view (avl_insert n nodes) ↔
      (k = n.name ∧ ver = n.version) ∨ (k, ver) ∈ view nodes := by
  simp only [view, List.mem_map, mem_avl_insert, Prod.mk.injEq]
  constructor
  · rintro ⟨m, rfl | hm, rfl, rfl⟩
    · exact Or.inl ⟨rfl, rfl⟩
    · exact Or.inr ⟨m, hm, rfl, rfl⟩
  · rintro (⟨rfl, rfl⟩ | ⟨m, hm, h1, h2⟩)
    · exact ⟨n, Or.inl rfl, rfl, rfl⟩
    · exact ⟨m, Or.inr hm, h1, h2⟩

theorem nodup_keys_avl_insert {n : ovs_port} {nodes : List ovs_port}
    (hn : (keys nodes).Nodup) (hf : avl_find nodes n.name = none) :
    (keys (avl_insert n nodes)).Nodup := by
  rw [(keys_avl_insert _ _).nodup_iff]
  exact List.nodup_cons.mpr ⟨avl_find_none hf, hn⟩

theorem mem_avl_delete_iff {nodes : List ovs_port} (hn : (keys nodes).Nodup) (key : String)
    (m : ovs_port) : m ∈ avl_delete key nodes ↔ m ∈ nodes ∧ m.name ≠ key := by
  induction nodes with
  | nil => simp [avl_delete]
  | cons x rest ih =>
    simp only [keys, List.map_cons, List.nodup_cons, List.mem_map, not_exists, not_and] at hn
    have ih' := ih (by simpa [keys] using hn.2)
    unfold avl_delete
    by_cases h : x.name = key
    · rw [if_pos h]
      constructor
      · intro hm
        exact ⟨List.mem_cons_of_mem _ hm, fun e => hn.1 m hm (e.trans h.symm)⟩
      · rintro ⟨hm, hne⟩
        rcases List.mem_cons.mp hm with rfl | hm'
        · exact absurd h hne
        · exact hm'
    · rw [if_neg h]
      simp only [List.mem_cons, ih']
      constructor
      · rintro (rfl | ⟨h1, h2⟩)
        · exact ⟨Or.inl rfl, h⟩
        · exact ⟨Or.inr h1, h2⟩
      · rintro ⟨rfl | h1, h2⟩
        · exact Or.inl rfl
        · exact Or.inr ⟨h1, h2⟩

theorem same_config_refl (w : World) : same_config w w := ⟨rfl, rfl, rfl⟩

theorem same_config_trans {a b c : World} (h1 : same_config a b) (h2 : same_config b c) :
    same_config a c :=
  ⟨h2.1.trans h1.1, h2.2.1.trans h1.2.1, h2.2.2.trans h1.2.2⟩

theorem same_config_of_same_ports {w w' : World} (h : same_ports w w') : same_config w w' :=
  ⟨h.2.2.2.1, h.2.2.2.2.1, h.2.2.1⟩

theorem ovs_port_cb_add_frame (env : Env) (name : String) {w w' : World}
    (h : ovs_port_cb env name .DEV_EVENT_ADD w = some w') :
    w'.ost.ports.version = w.ost.ports.version ∧
    view w'.ost.ports.nodes = view w.ost.ports.nodes ∧ same_config w w' := by
  unfold ovs_port_cb at h
  cases hf : avl_find w.ost.ports.nodes name with
  | none =>
    rw [hf] at h
    simp only [Option.some.injEq] at h
    subst h
    exact ⟨rfl, rfl, same_config_refl _⟩
  | some op =>
    rw [hf] at h
    have hname := (avl_find_some hf).2
    dsimp only at h
    cases hp : op.present with
    | true => simp [hp] at h
    | false =>
      simp only [hp, Bool.false_eq_true, if_false] at h
      split_ifs at h with ha h1
      · simp only [Option.some.injEq] at h
        subst h
        rcases ovs_enable_port_cases env { op with present := true }
          { w with ost := { w.ost with n_present := w.ost.n_present + 1 } }
          with ⟨tr, he⟩ | ⟨_, tr, ret, _, he⟩
        · rw [he]
          exact ⟨rfl, view_store_same hf hname rfl, rfl, rfl, rfl⟩
        · rw [he]
          exact ⟨rfl, view_store_same hf hname rfl, rfl, rfl, rfl⟩
      · simp only [Option.some.injEq] at h
        subst h
        obtain ⟨fa, tr, hs⟩ := ovs_set_present_frame
          { w with ost := { w.ost with n_present := w.ost.n_present + 1 } }
        rw [hs]
        exact ⟨rfl, view_store_same hf hname rfl, rfl, rfl, rfl⟩
      · simp only [Option.some.injEq] at h
        subst h
        exact ⟨rfl, view_store_same hf hname rfl, rfl, rfl, rfl⟩

theorem keys_of_view_eq {a b : List ovs_port} (h : view a = view b) : keys a = keys b := by
  rw [keys_eq_view, keys_eq_view, h]

theorem vlist_add_adds (env : Env) (node : ovs_port) {w w' : World}
    (hn : (keys w.ost.ports.nodes).Nodup) (h : vlist_add env node w = some w') :
    w'.ost.ports.version = w.ost.ports.version ∧
    adds [node.name] w.ost.ports.version w.ost.ports.nodes w'.ost.ports.nodes ∧
    same_config w w' := by
  unfold vlist_add at h
  dsimp only at h
  cases hf : avl_find w.ost.ports.nodes node.name with
  | some old =>
    rw [hf] at h
    simp only [ovs_port_update, Option.some.injEq] at h
    subst h
    refine ⟨rfl, ⟨?_, ?_, ?_, ?_⟩, rfl, rfl, rfl⟩
    · simp only [World.store, keys_store_port]
      exact hn
    · intro k ver hk
      simp only [World.store] at hk
      rw [mem_view_store_refresh hn hf] at hk
      rcases hk with ⟨rfl, rfl⟩ | ⟨h1, h2⟩
      · exact Or.inl ⟨List.mem_singleton.mpr rfl, rfl⟩
      · exact Or.inr ⟨by simpa using h1, h2⟩
    · intro k hk
      simp only [World.store, keys_store_port]
      exact hk
    · intro k hk
      simp only [World.store]
      rw [mem_view_store_refresh hn hf]
      exact Or.inl ⟨List.mem_singleton.mp hk, rfl⟩
  | none =>
    rw [hf] at h
    have key : ∀ w1 : World, w1.ost.ports.version = w.ost.ports.version →
        view w1.ost.ports.nodes = view (avl_insert
          { node with version := w.ost.ports.version } w.ost.ports.nodes) →
        adds [node.name] w.ost.ports.version w.ost.ports.nodes w1.ost.ports.nodes := by
      intro w1 _ hv
      refine ⟨?_, ?_, ?_, ?_⟩
      · rw [keys_of_view_eq hv]
        exact nodup_keys_avl_insert (n := { node with version := w.ost.ports.version }) hn hf
      · intro k ver hk
        rw [hv, mem_view_avl_insert] at hk
        rcases hk with ⟨rfl, rfl⟩ | hk
        · exact Or.inl ⟨List.mem_singleton.mpr rfl, rfl⟩
        · refine Or.inr ⟨?_, hk⟩
          intro hk'
          rw [List.mem_singleton] at hk'
          subst hk'
          exact avl_find_none hf (mem_keys_of_mem_view hk)
      · intro k hk
        rw [keys_of_view_eq hv]
        exact (keys_avl_insert _ _).mem_iff.mpr (List.mem_cons_of_mem _ hk)
      · intro k hk
        rw [List.mem_singleton] at hk
        subst hk
        rw [hv, mem_view_avl_insert]
        exact Or.inl ⟨rfl, rfl⟩
    simp only [ovs_port_update] at h
    split_ifs at h with hr
    · obtain ⟨h1, h2, h3⟩ := ovs_port_cb_add_frame env _ h
      exact ⟨h1, key w' h1 h2, h3⟩
    · simp only [Option.some.injEq] at h
      subst h
      exact ⟨rfl, key _ rfl rfl, rfl, rfl, rfl⟩

theorem ovs_add_port_adds (env : Env) (name : String) {w w' : World}
    (hn : (keys w.ost.ports.nodes).Nodup) (hg : env.ret w.trace (Call.device_get name) ≠ 0)
    (h : ovs_add_port env name w = some w') :
    w'.ost.ports.version = w.ost.ports.version ∧
    adds [name] w.ost.ports.version w.ost.ports.nodes w'.ost.ports.nodes ∧
    same_config w w' := by
  unfold ovs_add_port at h
  dsimp only at h
  have hg' : ¬ (call env (Call.device_get name) w.trace).2 = 0 := hg
  rw [if_neg hg'] at h
  unfold ovs_create_port at h
  dsimp only at h
  split at h
  · exact vlist_add_adds env { name := name, hotplug := false } (w := { w with
      trace := (call env (Call.device_get name) w.trace).1 }) hn h
  · simp only [Bool.false_eq_true, if_false, Option.map_eq_some'] at h
    obtain ⟨w1, h1, rfl⟩ := h
    exact vlist_add_adds env { name := name, hotplug := false } (w := { w with
      trace := (call env (Call.device_get name) w.trace).1 }) hn h1

theorem view_unique {ns : List ovs_port} (hn : (keys ns).Nodup) {k : String} {v1 v2 : Int}
    (h1 : (k, v1) ∈ view ns) (h2 : (k, v2) ∈ view ns) : v1 = v2 := by
  induction ns with
  | nil => simp [view] at h1
  | cons m rest ih =>
    simp only [keys, List.map_cons, List.nodup_cons] at hn
    simp only [view, List.map_cons, List.mem_cons, Prod.mk.injEq] at h1 h2
    rcases h1 with ⟨rfl, rfl⟩ | h1 <;> rcases h2 with ⟨e, rfl⟩ | h2
    · rfl
    · exact absurd (mem_keys_of_mem_view h2) hn.1
    · exact absurd (e ▸ mem_keys_of_mem_view h1) hn.1
    · exact ih hn.2 h1 h2

theorem adds_nil (v : Int) {ns : List ovs_port} (hn : (keys ns).Nodup) : adds [] v ns ns :=
  ⟨hn, fun k ver h => Or.inr ⟨by simp, h⟩, fun _ h => h, by simp⟩

theorem adds_trans {P Q : List String} {v : Int} {a b c : List ovs_port}
    (h1 : adds P v a b) (h2 : adds Q v b c) : adds (P ++ Q) v a c := by
  obtain ⟨a1, a2, a3, a4⟩ := h1
  obtain ⟨b1, b2, b3, b4⟩ := h2
  refine ⟨b1, ?_, fun k hk => b3 k (a3 k hk), ?_⟩
  · intro k ver hk
    rcases b2 k ver hk with ⟨hq, hv⟩ | ⟨hq, hb⟩
    · exact Or.inl ⟨List.mem_append_right _ hq, hv⟩
    · rcases a2 k ver hb with ⟨hp, hv⟩ | ⟨hp, ha⟩
      · exact Or.inl ⟨List.mem_append_left _ hp, hv⟩
      · refine Or.inr ⟨?_, ha⟩
        intro h
        rcases List.mem_append.mp h with h | h
        · exact hp h
        · exact hq h
  · intro k hk
    rcases List.mem_append.mp hk with h | h
    · by_cases hq : k ∈ Q
      · exact b4 k hq
      · have hb := a4 k h
        obtain ⟨op, hop⟩ := avl_find_of_mem_keys (b3 k (mem_keys_of_mem_view hb))
        have hm := (avl_find_some hop).1
        have hv := b2 k op.version (by
          have := mem_view_of_mem hm
          rwa [(avl_find_some hop).2] at this)
        rcases hv with ⟨hq', _⟩ | ⟨_, hb'⟩
        · exact absurd hq' hq
        · have hc := mem_view_of_mem hm
          rw [(avl_find_some hop).2] at hc
          rw [view_unique a1 hb hb']
          exact hc
    · exact b4 k h

theorem ovs_config_init_eq (env : Env) (w : World) :
    ovs_config_init env w =
      (ovs_add_ports env (blobmsg_elems (ovs_config_init_round env w).ost.ifnames)
        (ovs_config_init_round env w)).map (vlist_flush env) := by
  rfl

theorem same_ports_config_init_head (env : Env) (w : World) :
    same_ports w (ovs_config_init_head env w) := by
  unfold ovs_config_init_head
  dsimp only
  have h1 : same_ports w (if w.ost.config.empty = true then
      ovs_set_present { w with ost := { w.ost with force_active := true } } else w) := by
    split_ifs
    · exact same_ports_trans (b := _) ⟨rfl, rfl, rfl, rfl, rfl, rfl⟩ (same_ports_set_present _)
    · exact same_ports_refl w
  split
  · exact same_ports_trans h1 (same_ports_add_base env _ _)
  · exact h1

theorem ovs_config_init_round_spec (env : Env) (w : World) :
    (ovs_config_init_round env w).ost.ports.version = w.ost.ports.version + 1 ∧
    (ovs_config_init_round env w).ost.ports.nodes = w.ost.ports.nodes ∧
    (ovs_config_init_round env w).ost.n_present = w.ost.n_present ∧
    same_config w (ovs_config_init_round env w) := by
  have h := same_ports_config_init_head env w
  unfold ovs_config_init_round vlist_update
  dsimp only
  rw [h.1]
  exact ⟨rfl, rfl, h.2.1, h.2.2.2.1, h.2.2.2.2.1, h.2.2.1⟩

theorem ovs_add_ports_adds (env : Env) (L : List String) {w w' : World}
    (hn : (keys w.ost.ports.nodes).Nodup)
    (hg : ∀ tr, ∀ name ∈ L, env.ret tr (Call.device_get name) ≠ 0)
    (h : ovs_add_ports env L w = some w') :
    w'.ost.ports.version = w.ost.ports.version ∧
    adds L w.ost.ports.version w.ost.ports.nodes w'.ost.ports.nodes ∧
    same_config w w' := by
  induction L generalizing w with
  | nil =>
    simp only [ovs_add_ports, Option.some.injEq] at h
    subst h
    exact ⟨rfl, adds_nil _ hn, same_config_refl _⟩
  | cons name rest ih =>
    simp only [ovs_add_ports, Option.bind_eq_some] at h
    obtain ⟨w1, h1, h2⟩ := h
    obtain ⟨a1, a2, a3⟩ := ovs_add_port_adds env name hn
      (hg w.trace name (List.mem_cons_self _ _)) h1
    obtain ⟨b1, b2, b3⟩ := ih a2.1
      (fun tr n hn' => hg tr n (List.mem_cons_of_mem _ hn')) h2
    rw [a1] at b2
    exact ⟨b1.trans a1, adds_trans a2 b2, same_config_trans a3 b3⟩

theorem vlist_delete_config (env : Env) (op : ovs_port) (w : World) :
    same_config w (vlist_delete env op w) := by
  unfold vlist_delete
  rcases ovs_free_port_cases env op { w with ost := { w.ost with ports := { w.ost.ports with
    nodes := avl_delete op.name w.ost.ports.nodes } } } with ⟨hp, tr, h⟩ | ⟨hp, fa, tr, h⟩
  · rw [h]
    exact ⟨rfl, rfl, rfl⟩
  · rw [h]
    exact ⟨rfl, rfl, rfl⟩

theorem mem_unique_of_name {ns : List ovs_port} (hn : (keys ns).Nodup) {a b : ovs_port}
    (ha : a ∈ ns) (hb : b ∈ ns) (h : a.name = b.name) : a = b := by
  have h1 := avl_find_of_mem hn ha
  have h2 := avl_find_of_mem hn hb
  rw [h] at h1
  rw [h1] at h2
  exact Option.some.inj h2

theorem flush_nodes_spec (env : Env) (l : List ovs_port) (w : World)
    (hn : (keys w.ost.ports.nodes).Nodup) (hsub : ∀ n ∈ l, n ∈ w.ost.ports.nodes)
    (hl : l.Nodup) :
    (vlist_flush_nodes env l w).ost.ports.version = w.ost.ports.version ∧
    same_config w (vlist_flush_nodes env l w) ∧
    (keys (vlist_flush_nodes env l w).ost.ports.nodes).Nodup ∧
    ∀ m, m ∈ (vlist_flush_nodes env l w).ost.ports.nodes ↔
      m ∈ w.ost.ports.nodes ∧ (m ∈ l → flush_keeps w.ost.ports.version m.version) := by
  induction l generalizing w with
  | nil =>
    refine ⟨rfl, same_config_refl _, hn, fun m => ?_⟩
    simp [vlist_flush_nodes]
  | cons node rest ih =>
    rw [List.nodup_cons] at hl
    unfold vlist_flush_nodes
    by_cases hk : (node.version = w.ost.ports.version ∨ node.version = -1) ∧
        w.ost.ports.version ≠ -1
    · rw [if_pos hk]
      obtain ⟨h1, h2, h3, h4⟩ := ih w hn (fun n h => hsub n (List.mem_cons_of_mem _ h)) hl.2
      refine ⟨h1, h2, h3, fun m => ?_⟩
      rw [h4]
      constructor
      · rintro ⟨hm, hr⟩
        refine ⟨hm, fun hmem => ?_⟩
        rcases List.mem_cons.mp hmem with rfl | hmem
        · exact hk
        · exact hr hmem
      · rintro ⟨hm, hr⟩
        exact ⟨hm, fun hmem => hr (List.mem_cons_of_mem _ hmem)⟩
    · rw [if_neg hk]
      obtain ⟨d1, d2, _⟩ := vlist_delete_nodes env node w
      have hn1 : (keys (vlist_delete env node w).ost.ports.nodes).Nodup := by
        rw [d1, keys_avl_delete]
        exact hn.erase _
      have hnode := hsub node (List.mem_cons_self _ _)
      obtain ⟨h1, h2, h3, h4⟩ := ih (vlist_delete env node w) hn1 (by
        intro n h
        rw [d1, mem_avl_delete_iff hn]
        refine ⟨hsub n (List.mem_cons_of_mem _ h), fun e => ?_⟩
        have : n = node := mem_unique_of_name hn (hsub n (List.mem_cons_of_mem _ h)) hnode e
        exact hl.1 (this ▸ h)) hl.2
      refine ⟨h1.trans d2, same_config_trans (vlist_delete_config env node w) h2, h3,
        fun m => ?_⟩
      rw [h4, d1, mem_avl_delete_iff hn, d2]
      constructor
      · rintro ⟨⟨hm, hne⟩, hr⟩
        refine ⟨hm, fun hmem => ?_⟩
        rcases List.mem_cons.mp hmem with rfl | hmem
        · exact absurd rfl hne
        · exact hr hmem
      · rintro ⟨hm, hr⟩
        refine ⟨⟨hm, fun e => ?_⟩, fun hmem => hr (List.mem_cons_of_mem _ hmem)⟩
        have : m = node := mem_unique_of_name hn hm hnode e
        subst this
        exact hk (hr (List.mem_cons_self _ _))

theorem flush_spec (env : Env) (w : World) (hn : (keys w.ost.ports.nodes).Nodup) :
    (vlist_flush env w).ost.ports.version = w.ost.ports.version ∧
    same_config w (vlist_flush env w) ∧
    (keys (vlist_flush env w).ost.ports.nodes).Nodup ∧
    ∀ m, m ∈ (vlist_flush env w).ost.ports.nodes ↔
      m ∈ w.ost.ports.nodes ∧ flush_keeps w.ost.ports.version m.version := by
  obtain ⟨h1, h2, h3, h4⟩ := flush_nodes_spec env w.ost.ports.nodes w hn (fun _ h => h)
    (List.Nodup.of_map _ hn)
  refine ⟨h1, h2, h3, fun m => ?_⟩
  unfold vlist_flush
  rw [h4]
  constructor
  · rintro ⟨a, b⟩
    exact ⟨a, b a⟩
  · rintro ⟨a, b⟩
    exact ⟨a, fun _ => b⟩

theorem mem_view_iff {ns : List ovs_port} {k : String} {ver : Int} :
    (k, ver) ∈ view ns ↔ ∃ m ∈ ns, m.name = k ∧ m.version = ver := by
  simp [view]

/-- What one reconciliation pass does to the port tree. -/
theorem config_init_spec (env : Env) {w w1 : World} (hwf : vlist_wf w.ost.ports)
    (hg : ∀ tr, ∀ name ∈ blobmsg_elems w.ost.ifnames, env.ret tr (Call.device_get name) ≠ 0)
    (h : ovs_config_init env w = some w1) :
    w1.ost.ports.version = w.ost.ports.version + 1 ∧ same_config w w1 ∧
    (keys w1.ost.ports.nodes).Nodup ∧
    (∀ k ver, (k, ver) ∈ view w1.ost.ports.nodes →
      (k ∈ blobmsg_elems w.ost.ifnames ∧ ver = w.ost.ports.version + 1) ∨
      (k ∉ blobmsg_elems w.ost.ifnames ∧ ver = -1 ∧ (k, -1) ∈ view w.ost.ports.nodes)) ∧
    (∀ k ∈ blobmsg_elems w.ost.ifnames,
      (k, w.ost.ports.version + 1) ∈ view w1.ost.ports.nodes) ∧
    (∀ k, (k, -1) ∈ view w.ost.ports.nodes → k ∈ keys w1.ost.ports.nodes) ∧
    (∀ k ver, (k, ver) ∈ view w.ost.ports.nodes → ver ≠ -1 →
      k ∉ blobmsg_elems w.ost.ifnames → k ∉ keys w1.ost.ports.nodes) := by
  obtain ⟨hv0, hnd, hver⟩ := hwf
  rw [ovs_config_init_eq] at h
  simp only [Option.map_eq_some'] at h
  obtain ⟨w4, h4, rfl⟩ := h
  obtain ⟨r1, r2, _, r4⟩ := ovs_config_init_round_spec env w
  rw [r4.2.1] at h4
  obtain ⟨a1, ⟨a2, a3, a4, a5⟩, a6⟩ := ovs_add_ports_adds env _ (by rw [r2]; exact hnd) hg h4
  rw [r1] at a1 a3 a5
  rw [r2] at a3 a4
  obtain ⟨f1, f2, f3, f4⟩ := flush_spec env w4 a2
  rw [a1] at f4
  have hv1 : w.ost.ports.version + 1 ≠ -1 := by omega
  have hcfg : same_config w w4 := same_config_trans r4 a6
  refine ⟨f1.trans a1, same_config_trans hcfg f2, f3, ?_, ?_, ?_, ?_⟩
  · intro k ver hk
    obtain ⟨m, hm, rfl, rfl⟩ := mem_view_iff.mp hk
    obtain ⟨hm4, hkeep⟩ := (f4 m).mp hm
    rcases a3 m.name m.version (mem_view_of_mem hm4) with h | ⟨h1, h2⟩
    · exact Or.inl h
    · right
      obtain ⟨m0, hm0, e1, e2⟩ := mem_view_iff.mp h2
      have hb := hver m0 hm0
      rw [e2] at hb
      have hm1 : m.version = -1 := by
        rcases hkeep.1 with h | h
        · rcases hb with hb | hb
          · exact hb
          · omega
        · exact h
      refine ⟨h1, hm1, ?_⟩
      rw [← hm1]
      exact h2
  · intro k hk
    obtain ⟨m, hm, e1, e2⟩ := mem_view_iff.mp (a5 k hk)
    exact mem_view_iff.mpr ⟨m, (f4 m).mpr ⟨hm, Or.inl e2, hv1⟩, e1, e2⟩
  · intro k hk
    obtain ⟨op, hop⟩ := avl_find_of_mem_keys (a4 k (mem_keys_of_mem_view hk))
    obtain ⟨hm, hname⟩ := avl_find_some hop
    have hkeep : flush_keeps (w.ost.ports.version + 1) op.version := by
      rcases a3 op.name op.version (mem_view_of_mem hm) with ⟨_, h⟩ | ⟨_, h⟩
      · exact ⟨Or.inl h, hv1⟩
      · rw [hname] at h
        exact ⟨Or.inr (view_unique hnd h hk), hv1⟩
    have := mem_keys_of_mem ((f4 op).mpr ⟨hm, hkeep⟩)
    rwa [hname] at this
  · intro k ver hk hne hL hmem
    obtain ⟨op, hop⟩ := avl_find_of_mem_keys hmem
    obtain ⟨hm, hname⟩ := avl_find_some hop
    obtain ⟨hm4, hkeep⟩ := (f4 op).mp hm
    rcases a3 op.name op.version (mem_view_of_mem hm4) with ⟨h, _⟩ | ⟨_, h⟩
    · exact hL (hname ▸ h)
    · rw [hname] at h
      have hv := view_unique hnd h hk
      obtain ⟨m0, hm0, _, e2⟩ := mem_view_iff.mp hk
      have hb := hver m0 hm0
      rw [e2] at hb
      rcases hkeep.1 with h' | h'
      · rcases hb with hb | hb
        · exact hne hb
        · omega
      · exact hne (hv ▸ h')

theorem emits_set_present (w : World) (base : Option String) :
    emits (idle_call w.ost.dev.ifname base) w.trace (ovs_set_present w).trace := by
  rw [(ovs_set_present_spec w).1]
  exact ⟨_, rfl, by
    intro e he
    rw [List.mem_singleton] at he
    subst he
    exact Or.inr (Or.inl ⟨_, rfl⟩)⟩

theorem get_base_set_base (w : World) (r : base_ref) (ob ob' : ovs_base)
    (h : (w.set_base r ob).get_base r = some ob') : ob' = ob := by
  cases r with
  | owned =>
    simp only [World.set_base, World.get_base] at h
    cases hb : w.ost.base with
    | none => simp [hb] at h
    | some x =>
      simp only [hb, Option.map_some', Option.some.injEq] at h
      exact h.symm
  | link i =>
    simp only [World.set_base, World.get_base] at h
    by_cases hi : i < w.links.length
    · rw [List.get?_eq_getElem?, List.getElem?_set_eq_of_lt _ (by simpa using hi)] at h
      exact (Option.some.inj h).symm
    · rw [List.get?_eq_getElem?, List.getElem?_eq_none (by simpa using hi)] at h
      cases h

theorem emits_remove_base (r : base_ref) (w : World) (d : String)
    (hd : ∀ ob, w.get_base r = some ob → ob.dev = d) :
    emits (idle_call w.ost.dev.ifname (some d)) w.trace (ovs_remove_base r w).trace := by
  unfold ovs_remove_base
  cases hb : w.get_base r with
  | none => exact emits_refl _ _
  | some ob =>
    dsimp only
    have hdev := hd ob hb
    split_ifs with hp ha
    · exact emits_refl _ _
    · have h1 : emits (idle_call w.ost.dev.ifname (some d)) w.trace
          (ovs_disable_base ob w).1.trace := by
        unfold ovs_disable_base
        rw [if_neg hp]
        exact emits_call_void (Or.inr (Or.inr ⟨d, rfl, Or.inr (Or.inr (hdev ▸ rfl))⟩)) _
      have h2 := emits_set_present (((ovs_disable_base ob w).1).set_base r
        { ob with present := false }) (some d)
      have hi : ((((ovs_disable_base ob w).1).set_base r
          { ob with present := false })).ost.dev = w.ost.dev :=
        (same_ports_trans (same_ports_disable_base ob w) (same_ports_set_base _ r _)).2.2.1
      rw [hi] at h2
      have ht : (((ovs_disable_base ob w).1).set_base r { ob with present := false }).trace =
          (ovs_disable_base ob w).1.trace := by
        cases r <;> rfl
      rw [ht] at h2
      exact emits_trans h1 h2
    · have h2 := emits_set_present (w.set_base r { ob with present := false }) (some d)
      have hi : (w.set_base r { ob with present := false }).ost.dev = w.ost.dev :=
        (same_ports_set_base w r _).2.2.1
      have ht : (w.set_base r { ob with present := false }).trace = w.trace := by
        cases r <;> rfl
      rw [hi, ht] at h2
      exact h2

theorem emits_base_cb (env : Env) (r : base_ref) (ev : device_event) (w : World) (d : String)
    (hd : ∀ ob, w.get_base r = some ob → ob.dev = d) :
    emits (idle_call w.ost.dev.ifname (some d)) w.trace (ovs_base_cb env r ev w).trace := by
  unfold ovs_base_cb
  cases ev <;> dsimp only
  · cases hb : w.get_base r with
    | none => exact emits_refl _ _
    | some ob =>
      dsimp only
      have hdev := hd ob hb
      have h1 : emits (idle_call w.ost.dev.ifname (some d)) w.trace
          (ovs_enable_base env { ob with present := true } w).1.2.trace := by
        unfold ovs_enable_base
        dsimp only
        simp only [Bool.not_true, Bool.false_eq_true, if_false]
        split_ifs <;>
          exact emits_call env (Or.inr (Or.inr ⟨d, rfl, Or.inr (Or.inl (hdev ▸ rfl))⟩)) _
      have hsp1 := same_ports_trans (same_ports_enable_base env { ob with present := true } w)
        (same_ports_set_base _ r (ovs_enable_base env { ob with present := true } w).1.1)
      have ht : (((ovs_enable_base env { ob with present := true } w).1.2).set_base r
          (ovs_enable_base env { ob with present := true } w).1.1).trace =
          (ovs_enable_base env { ob with present := true } w).1.2.trace := by
        cases r <;> rfl
      have h2 := emits_set_present (((ovs_enable_base env { ob with present := true } w).1.2).set_base r
          (ovs_enable_base env { ob with present := true } w).1.1) (some d)
      rw [hsp1.2.2.1, ht] at h2
      have h12 := emits_trans h1 h2
      split_ifs
      · have hsp2 := same_ports_trans hsp1 (same_ports_set_present _)
        have h3 := emits_remove_base r (ovs_set_present
          (((ovs_enable_base env { ob with present := true } w).1.2).set_base r
            (ovs_enable_base env { ob with present := true } w).1.1)) d (by
          intro ob' hob'
          obtain ⟨fa, tr, hs⟩ := ovs_set_present_frame
            (((ovs_enable_base env { ob with present := true } w).1.2).set_base r
              (ovs_enable_base env { ob with present := true } w).1.1)
          rw [hs] at hob'
          have hob2 : ((((ovs_enable_base env { ob with present := true } w).1.2).set_base r
              (ovs_enable_base env { ob with present := true } w).1.1)).get_base r = some ob' := by
            cases r <;> exact hob'
          rw [get_base_set_base _ _ _ _ hob2]
          unfold ovs_enable_base
          dsimp only
          split_ifs <;> exact hdev)
        rw [hsp2.2.2.1] at h3
        exact emits_trans h12 h3
      · exact h12
  · cases hb : w.get_base r with
    | none => exact emits_refl _ _
    | some ob =>
      dsimp only
      split_ifs
      · exact emits_remove_base r w d hd
      · exact emits_refl _ _
  all_goals exact emits_refl _ _

theorem emits_add_base (env : Env) (d : String) (w : World) :
    emits (idle_call w.ost.dev.ifname (some d)) w.trace (ovs_add_base env d w).trace := by
  unfold ovs_add_base ovs_create_base
  dsimp only
  have h1 : emits (idle_call w.ost.dev.ifname (some d)) w.trace
      (call env (Call.device_get d) w.trace).1 := emits_call env (Or.inl ⟨_, rfl⟩) _
  have h2 : emits (idle_call w.ost.dev.ifname (some d)) (call env (Call.device_get d) w.trace).1
      (call env (Call.device_add_user d) (call env (Call.device_get d) w.trace).1).1 :=
    emits_call env (Or.inr (Or.inr ⟨d, rfl, Or.inl rfl⟩)) _
  split_ifs
  · exact h1
  · refine emits_trans (emits_trans h1 h2) ?_
    refine emits_base_cb env (.link w.links.length) .DEV_EVENT_ADD
      { ost := w.ost, links := w.links ++ [{ dev := d }],
        trace := (call env (Call.device_add_user d) (call env (Call.device_get d) w.trace).1).1 }
      d ?_
    intro ob hob
    simp only [World.get_base, List.get?_eq_getElem?, List.getElem?_append_right (le_refl _),
      Nat.sub_self, List.getElem?_cons_zero, Option.some.injEq] at hob
    rw [← hob]
  · exact emits_trans h1 h2

theorem emits_config_init_head (env : Env) (w : World) :
    emits (idle_call w.ost.dev.ifname w.ost.config.base) w.trace
      (ovs_config_init_head env w).trace := by
  unfold ovs_config_init_head
  dsimp only
  have h1 : emits (idle_call w.ost.dev.ifname w.ost.config.base) w.trace
      (if w.ost.config.empty = true then
        ovs_set_present { w with ost := { w.ost with force_active := true } } else w).trace := by
    split_ifs
    · exact emits_set_present { w with ost := { w.ost with force_active := true } } _
    · exact emits_refl _ _
  have hsp : same_ports w (if w.ost.config.empty = true then
      ovs_set_present { w with ost := { w.ost with force_active := true } } else w) := by
    split_ifs
    · exact same_ports_trans (b := _) ⟨rfl, rfl, rfl, rfl, rfl, rfl⟩ (same_ports_set_present _)
    · exact same_ports_refl w
  generalize (if w.ost.config.empty = true then
      ovs_set_present { w with ost := { w.ost with force_active := true } } else w) = w1 at h1 hsp ⊢
  cases hb : w1.ost.config.base with
  | none => exact h1
  | some d =>
    dsimp only
    have h2 := emits_add_base env d w1
    rw [hsp.2.2.1] at h2
    rw [← hsp.2.2.2.1, hb]
    rw [← hsp.2.2.2.1, hb] at h1
    exact emits_trans h1 h2

theorem store_refresh_eq {nodes : List ovs_port} {key : String} {op : ovs_port} (v : Int)
    (hn : (keys nodes).Nodup) (hf : avl_find nodes key = some op) :
    store_port { op with version := v } nodes = nodes.map (refresh [key] v) := by
  induction nodes with
  | nil => simp [avl_find] at hf
  | cons m rest ih =>
    have hname := (avl_find_some hf).2
    simp only [keys, List.map_cons, List.nodup_cons] at hn
    unfold store_port
    by_cases h : m.name = key
    · have : op = m := by
        simp only [avl_find, h, beq_self_eq_true, List.find?_cons_of_pos, Option.some.injEq] at hf
        exact hf.symm
      subst this
      rw [if_pos rfl]
      have hrest : rest.map (refresh [key] v) = rest := by
        conv_rhs => rw [← List.map_id rest]
        apply List.map_congr_left
        intro n hn'
        have : n.name ≠ key := fun e => hn.1 (h ▸ e ▸ mem_keys_of_mem hn')
        simp [refresh, this]
      simp only [List.map_cons, hrest]
      simp [refresh, h]
    · have hf' : avl_find rest key = some op := by
        simp only [avl_find] at hf ⊢
        rwa [List.find?_cons_of_neg _ (by simpa using h)] at hf
      have hne : ¬ m.name = ({ op with version := v } : ovs_port).name := fun e => h (e.trans hname)
      rw [if_neg hne, ih hn.2 hf']
      simp [refresh, h]

theorem keys_map_refresh (L : List String) (v : Int) (nodes : List ovs_port) :
    keys (nodes.map (refresh L v)) = keys nodes := by
  simp only [keys, List.map_map]
  apply List.map_congr_left
  intro n _
  simp only [Function.comp, refresh]
  split_ifs <;> rfl

theorem refresh_refresh (k : String) (rest : List String) (v : Int) (n : ovs_port) :
    refresh rest v (refresh [k] v n) = refresh (k :: rest) v n := by
  by_cases h1 : n.name = k <;> by_cases h2 : n.name ∈ rest <;> simp [refresh, h1, h2]

theorem add_port_refresh (env : Env) (name : String) (w : World)
    (hn : (keys w.ost.ports.nodes).Nodup) (hk : name ∈ keys w.ost.ports.nodes)
    (hg : env.ret w.trace (Call.device_get name) ≠ 0) :
    ovs_add_port env name w = some
      { w with ost := { w.ost with ports := { w.ost.ports with
                  nodes := w.ost.ports.nodes.map (refresh [name] w.ost.ports.version) } },
               trace := w.trace ++ [(Call.device_get name, env.ret w.trace (Call.device_get name))] } := by
  obtain ⟨old, hold⟩ := avl_find_of_mem_keys hk
  unfold ovs_add_port
  dsimp only
  have hg' : ¬ (call env (Call.device_get name) w.trace).2 = 0 := hg
  rw [if_neg hg']
  unfold ovs_create_port
  dsimp only
  rw [hold]
  dsimp only
  unfold vlist_add
  dsimp only
  rw [hold]
  simp only [ovs_port_update, World.store]
  rw [store_refresh_eq _ hn hold]
  rfl

theorem add_ports_refresh (env : Env) (L : List String) (w : World)
    (hn : (keys w.ost.ports.nodes).Nodup) (hL : ∀ k ∈ L, k ∈ keys w.ost.ports.nodes)
    (hg : ∀ tr, ∀ name ∈ L, env.ret tr (Call.device_get name) ≠ 0) :
    ∃ tr, ovs_add_ports env L w = some
        { w with ost := { w.ost with ports := { w.ost.ports with
                    nodes := w.ost.ports.nodes.map (refresh L w.ost.ports.version) } },
                 trace := tr } ∧
      emits (fun c => ∃ n, c = Call.device_get n) w.trace tr := by
  induction L generalizing w with
  | nil =>
    refine ⟨w.trace, ?_, emits_refl _ _⟩
    have : w.ost.ports.nodes.map (refresh [] w.ost.ports.version) = w.ost.ports.nodes := by
      conv_rhs => rw [← List.map_id w.ost.ports.nodes]
      apply List.map_congr_left
      intro n _
      simp [refresh]
    rw [this]
    rfl
  | cons name rest ih =>
    have h1 := add_port_refresh env name w hn (hL name (List.mem_cons_self _ _))
      (hg w.trace name (List.mem_cons_self _ _))
    obtain ⟨tr, h2, h3⟩ := ih
      { w with ost := { w.ost with ports := { w.ost.ports with
                  nodes := w.ost.ports.nodes.map (refresh [name] w.ost.ports.version) } },
               trace := w.trace ++ [(Call.device_get name, env.ret w.trace (Call.device_get name))] }
      (by rw [keys_map_refresh]; exact hn)
      (by
        intro k hk
        rw [keys_map_refresh]
        exact hL k (List.mem_cons_of_mem _ hk))
      (fun tr n hn' => hg tr n (List.mem_cons_of_mem _ hn'))
    refine ⟨tr, ?_, ?_⟩
    · simp only [ovs_add_ports, h1, Option.some_bind]
      rw [h2]
      dsimp only
      rw [List.map_map]
      have : (refresh rest w.ost.ports.version ∘ refresh [name] w.ost.ports.version) =
          refresh (name :: rest) w.ost.ports.version := by
        funext n
        exact refresh_refresh name rest _ n
      rw [this]
    · refine emits_trans ?_ h3
      exact ⟨[(Call.device_get name, env.ret w.trace (Call.device_get name))], rfl, by
        intro e he
        rw [List.mem_singleton] at he
        subst he
        exact ⟨_, rfl⟩⟩

theorem add_ports_refresh_fields (env : Env) (L : List String) (w : World)
    (hn : (keys w.ost.ports.nodes).Nodup) (hL : ∀ k ∈ L, k ∈ keys w.ost.ports.nodes)
    (hg : ∀ tr, ∀ name ∈ L, env.ret tr (Call.device_get name) ≠ 0) :
    ∃ x, ovs_add_ports env L w = some x ∧
      x.ost.ports.nodes = w.ost.ports.nodes.map (refresh L w.ost.ports.version) ∧
      x.ost.ports.version = w.ost.ports.version ∧ x.ost.n_present = w.ost.n_present ∧
      emits (fun c => ∃ n, c = Call.device_get n) w.trace x.trace := by
  obtain ⟨tr, h1, h2⟩ := add_ports_refresh env L w hn hL hg
  exact ⟨_, h1, rfl, rfl, rfl, h2⟩

theorem flush_nodes_noop (env : Env) (l : List ovs_port) (w : World)
    (h : ∀ n ∈ l, flush_keeps w.ost.ports.version n.version) :
    vlist_flush_nodes env l w = w := by
  induction l with
  | nil => rfl
  | cons node rest ih =>
    unfold vlist_flush_nodes
    have hk : (node.version = w.ost.ports.version ∨ node.version = -1) ∧
        w.ost.ports.version ≠ -1 := h node (List.mem_cons_self _ _)
    rw [if_pos hk]
    exact ih (fun n hn => h n (List.mem_cons_of_mem _ hn))

/-- C8: on a well-formed port tree, with every declared name resolving to a
device, a second reconciliation to the same declared list creates no port and
deletes none and makes no control-plane call: its only calls are `device_get`
for the declared names, the presence report of the bridge and the registration
(and event handling) of the configured base device; the keys of the port set,
the `hotplug` and `present` flags of every port and `n_present` are unchanged. -/
theorem reconcile_twice_idle (env : Env) (w w1 : World) (hwf : vlist_wf w.ost.ports)
    (hg : ∀ tr, ∀ name ∈ blobmsg_elems w.ost.ifnames, env.ret tr (Call.device_get name) ≠ 0)
    (h1 : ovs_config_init env w = some w1) :
    ∃ w2 suf, ovs_config_init env w1 = some w2 ∧
      w2.trace = w1.trace ++ suf ∧
      (∀ e ∈ suf, idle_call w.ost.dev.ifname w.ost.config.base e.1) ∧
      w2.ost.ports.nodes.map (fun n => (n.name, n.hotplug, n.present)) =
        w1.ost.ports.nodes.map (fun n => (n.name, n.hotplug, n.present)) ∧
      w2.ost.n_present = w1.ost.n_present := by
  obtain ⟨s1, s2, s3, s4, s5, _, _⟩ := config_init_spec env hwf hg h1
  obtain ⟨r1, r2, r3, r4⟩ := ovs_config_init_round_spec env w1
  have hL : (ovs_config_init_round env w1).ost.ifnames = w.ost.ifnames := r4.2.1.trans s2.2.1
  obtain ⟨x, a1, xn, xv, xp, a2⟩ := add_ports_refresh_fields env (blobmsg_elems w.ost.ifnames)
    (ovs_config_init_round env w1) (by rw [r2]; exact s3)
    (by
      intro k hk
      rw [r2]
      exact mem_keys_of_mem_view (s5 k hk))
    hg
  have hv0 := hwf.1
  have hflush : vlist_flush env x = x := by
    unfold vlist_flush
    apply flush_nodes_noop
    intro n hn
    rw [xn, List.mem_map] at hn
    obtain ⟨m, hm, rfl⟩ := hn
    rw [r2] at hm
    rw [xv, r1, s1]
    have hne : w.ost.ports.version + 1 + 1 ≠ -1 := by omega
    unfold refresh
    split_ifs with hmem
    · exact ⟨Or.inl rfl, hne⟩
    · rcases s4 m.name m.version (mem_view_of_mem hm) with ⟨h, _⟩ | ⟨_, h, _⟩
      · exact absurd h hmem
      · exact ⟨Or.inr h, hne⟩
  obtain ⟨suf1, hs1, hp1⟩ := emits_config_init_head env w1
  obtain ⟨suf2, hs2, hp2⟩ := a2
  refine ⟨x, suf1 ++ suf2, ?_, ?_, ?_, ?_, ?_⟩
  · rw [ovs_config_init_eq, hL, a1, Option.map_some', hflush]
  · rw [hs2]
    show (ovs_config_init_head env w1).trace ++ suf2 = _
    rw [hs1, List.append_assoc]
  · intro e he
    rcases List.mem_append.mp he with h | h
    · have := hp1 e h
      rwa [s2.2.2, s2.1] at this
    · obtain ⟨n, hn⟩ := hp2 e h
      exact Or.inl ⟨n, hn⟩
  · rw [xn, r2, List.map_map]
    apply List.map_congr_left
    intro n _
    simp only [Function.comp, refresh]
    split_ifs <;> rfl
  · exact xp.trans r3

theorem env_ok_device_get (tr : Trace) (name : String) :
    env_ok.ret tr (Call.device_get name) ≠ 0 := by
  simp [env_ok]

/-- On the bridge `c1_final` the second reconciliation to `[a]` only looks the
device `a` up. -/
theorem reconcile_twice_idle_witness :
    vlist_wf c1_final.ost.ports ∧
    (∀ tr, ∀ name ∈ blobmsg_elems c1_final.ost.ifnames,
      env_ok.ret tr (Call.device_get name) ≠ 0) ∧
    ovs_config_init env_ok c1_final = some c8_pass1 ∧
    (ovs_config_init env_ok c8_pass1).map (new_calls c8_pass1) = some [.device_get "a"] ∧
    (∃ w2 suf, ovs_config_init env_ok c8_pass1 = some w2 ∧
      w2.trace = c8_pass1.trace ++ suf ∧
      (∀ e ∈ suf, idle_call c1_final.ost.dev.ifname c1_final.ost.config.base e.1) ∧
      w2.ost.ports.nodes.map (fun n => (n.name, n.hotplug, n.present)) =
        c8_pass1.ost.ports.nodes.map (fun n => (n.name, n.hotplug, n.present)) ∧
      w2.ost.n_present = c8_pass1.ost.n_present) :=
  ⟨⟨by decide, by decide, by decide⟩, fun tr name _ => env_ok_device_get tr name,
    by decide, by decide,
    reconcile_twice_idle env_ok c1_final c8_pass1 ⟨by decide, by decide, by decide⟩
      (fun tr name _ => env_ok_device_get tr name) (by decide)⟩

theorem vlist_wf_of_view {t t' : vlist_tree} (h : vlist_wf t) (hv : t'.version = t.version)
    (hview : ∀ k ver, (k, ver) ∈ view t'.nodes → (k, ver) ∈ view t.nodes ∨ ver = t.version ∨ ver = -1)
    (hn : (keys t'.nodes).Nodup) : vlist_wf t' := by
  obtain ⟨h1, _, h3⟩ := h
  refine ⟨hv ▸ h1, hn, fun n hn' => ?_⟩
  rw [hv]
  rcases hview n.name n.version (mem_view_of_mem hn') with h | h | h
  · obtain ⟨m, hm, _, e⟩ := mem_view_iff.mp h
    rw [← e]
    exact h3 m hm
  · exact Or.inr (le_of_eq h)
  · exact Or.inl h

theorem vlist_wf_same_view {t t' : vlist_tree} (h : vlist_wf t) (hv : t'.version = t.version)
    (hview : view t'.nodes = view t.nodes) : vlist_wf t' :=
  vlist_wf_of_view h hv (fun k ver hk => Or.inl (hview ▸ hk))
    (by rw [keys_of_view_eq hview]; exact h.2.1)

theorem vlist_wf_same_ports {w w' : World} (h : vlist_wf w.ost.ports)
    (hp : w'.ost.ports = w.ost.ports) : vlist_wf w'.ost.ports := by
  rw [hp]
  exact h

theorem vlist_wf_delete (env : Env) (op : ovs_port) {w : World} (h : vlist_wf w.ost.ports) :
    vlist_wf (vlist_delete env op w).ost.ports := by
  obtain ⟨d1, d2, _⟩ := vlist_delete_nodes env op w
  refine vlist_wf_of_view h d2 ?_ ?_
  · intro k ver hk
    left
    rw [d1] at hk
    obtain ⟨m, hm, e1, e2⟩ := mem_view_iff.mp hk
    exact mem_view_iff.mpr ⟨m, ((mem_avl_delete_iff h.2.1 _ m).mp hm).1, e1, e2⟩
  · rw [d1, keys_avl_delete]
    exact h.2.1.erase _

theorem view_enable_ports (env : Env) (l : List ovs_port) (w : World) :
    view (ovs_enable_ports env l w).1 = view l := by
  induction l generalizing w with
  | nil => rfl
  | cons op rest ih =>
    unfold ovs_enable_ports
    dsimp only
    rcases ovs_enable_port_cases env op w with ⟨tr, he⟩ | ⟨hp, tr, ret, _, he⟩
    · rw [he]
      simp only [view, List.map_cons] at ih ⊢
      rw [ih]
    · rw [he]
      simp only [view, List.map_cons] at ih ⊢
      rw [ih]

theorem vlist_wf_port_cb (env : Env) (name : String) (ev : device_event) {w w' : World}
    (hwf : vlist_wf w.ost.ports) (h : ovs_port_cb env name ev w = some w') :
    vlist_wf w'.ost.ports := by
  cases ev with
  | DEV_EVENT_ADD =>
    obtain ⟨h1, h2, _⟩ := ovs_port_cb_add_frame env name h
    exact vlist_wf_same_view hwf h1 h2
  | DEV_EVENT_REMOVE =>
    unfold ovs_port_cb at h
    cases hf : avl_find w.ost.ports.nodes name with
    | none =>
      rw [hf] at h
      simp only [Option.some.injEq] at h
      exact h ▸ hwf
    | some op =>
      rw [hf] at h
      dsimp only at h
      split_ifs at h with hh hp
      · simp only [Option.some.injEq] at h
        exact h ▸ vlist_wf_delete env op hwf
      · simp only [Option.some.injEq] at h
        subst h
        rcases ovs_remove_port_cases env op w with ⟨hp', _⟩ | ⟨_, fa, tr, hr⟩
        · simp [hp] at hp'
        · rw [hr]
          exact vlist_wf_same_view hwf rfl (view_store_same hf (avl_find_some hf).2 rfl)
      · simp only [Option.some.injEq] at h
        exact h ▸ hwf
  | DEV_EVENT_SETUP | DEV_EVENT_UP | DEV_EVENT_TEARDOWN | DEV_EVENT_DOWN =>
    unfold ovs_port_cb at h
    split at h <;> simp only [Option.some.injEq] at h <;> exact h ▸ hwf

theorem vlist_wf_vlist_add (env : Env) (node : ovs_port) {w w' : World}
    (hwf : vlist_wf w.ost.ports) (h : vlist_add env node w = some w') :
    vlist_wf w'.ost.ports := by
  obtain ⟨a1, ⟨a2, a3, _, _⟩, _⟩ := vlist_add_adds env node hwf.2.1 h
  refine vlist_wf_of_view hwf a1 ?_ a2
  intro k ver hk
  rcases a3 k ver hk with ⟨_, h⟩ | ⟨_, h⟩
  · exact Or.inr (Or.inl h)
  · exact Or.inl h

theorem vlist_wf_create_port (env : Env) (dev : String) (hotplug : Bool) {w w' : World}
    (hwf : vlist_wf w.ost.ports) (h : ovs_create_port env dev hotplug w = some w') :
    vlist_wf w'.ost.ports := by
  unfold ovs_create_port at h
  dsimp only at h
  split at h
  · exact vlist_wf_vlist_add env _ hwf h
  · simp only [Option.map_eq_some'] at h
    obtain ⟨w1, h1, rfl⟩ := h
    have hwf1 := vlist_wf_vlist_add env _ hwf h1
    split_ifs
    · split
      · rename_i cur hc
        refine vlist_wf_of_view hwf1 rfl ?_ ?_
        · intro k ver hk
          simp only [World.store] at hk
          rw [mem_view_store_refresh hwf1.2.1 hc] at hk
          rcases hk with ⟨_, h⟩ | ⟨_, h⟩
          · exact Or.inr (Or.inr h)
          · exact Or.inl h
        · simp only [World.store, keys_store_port]
          exact hwf1.2.1
      · exact hwf1
    · exact hwf1

theorem vlist_wf_add_ports (env : Env) (l : List String) {w w' : World}
    (hwf : vlist_wf w.ost.ports) (h : ovs_add_ports env l w = some w') :
    vlist_wf w'.ost.ports := by
  induction l generalizing w with
  | nil =>
    simp only [ovs_add_ports, Option.some.injEq] at h
    exact h ▸ hwf
  | cons name rest ih =>
    simp only [ovs_add_ports, Option.bind_eq_some] at h
    obtain ⟨w1, h1, h2⟩ := h
    refine ih ?_ h2
    unfold ovs_add_port at h1
    dsimp only at h1
    split_ifs at h1
    · simp only [Option.some.injEq] at h1
      exact h1 ▸ hwf
    · exact vlist_wf_create_port env name false (w := { w with
        trace := (call env (Call.device_get name) w.trace).1 }) hwf h1

theorem vlist_wf_config_init (env : Env) {w w' : World} (hwf : vlist_wf w.ost.ports)
    (h : ovs_config_init env w = some w') : vlist_wf w'.ost.ports := by
  rw [ovs_config_init_eq] at h
  simp only [Option.map_eq_some'] at h
  obtain ⟨w4, h4, rfl⟩ := h
  obtain ⟨r1, r2, _, _⟩ := ovs_config_init_round_spec env w
  have hwf3 : vlist_wf (ovs_config_init_round env w).ost.ports := by
    obtain ⟨h1, h2, h3⟩ := hwf
    refine ⟨by omega, by rw [r2]; exact h2, fun n hn => ?_⟩
    rw [r2] at hn
    rw [r1]
    rcases h3 n hn with h | h
    · exact Or.inl h
    · exact Or.inr (by omega)
  have hwf4 := vlist_wf_add_ports env _ hwf3 h4
  obtain ⟨f1, _, f3, f4⟩ := flush_spec env w4 hwf4.2.1
  refine vlist_wf_of_view hwf4 f1 ?_ f3
  intro k ver hk
  obtain ⟨m, hm, e1, e2⟩ := mem_view_iff.mp hk
  exact Or.inl (mem_view_iff.mpr ⟨m, ((f4 m).mp hm).1, e1, e2⟩)

theorem vlist_wf_step (env : Env) (op : Op) {w w' : World} (hwf : vlist_wf w.ost.ports)
    (h : step env op w = some w') : vlist_wf w'.ost.ports := by
  cases op with
  | port_event port ev => exact vlist_wf_port_cb env port ev hwf h
  | base_event r ev =>
    simp only [step, Option.some.injEq] at h
    exact h ▸ vlist_wf_same_ports hwf (same_ports_base_cb env r ev w).1
  | dev_active a =>
    simp only [step, Option.some.injEq] at h
    exact h ▸ hwf
  | set_state up =>
    simp only [step, Option.some.injEq] at h
    subst h
    unfold ovs_set_state
    split_ifs
    · rw [ovs_set_up_eq]
      have hb := (same_ports_set_up_base env w).1
      have hatt : vlist_wf (ovs_set_up_attached env w).ost.ports := by
        unfold ovs_set_up_attached ovs_set_up_ports
        dsimp only
        refine vlist_wf_same_view hwf ?_ ?_
        · obtain ⟨_, _, n, tr, h3⟩ := ovs_enable_ports_spec env (ovs_set_up_base env w).ost.ports.nodes
            { ovs_set_up_base env w with trace := (ovs_set_up_addbr env w).1 }
          rw [h3]
          dsimp only
          rw [hb]
        · dsimp only
          rw [view_enable_ports, hb]
      split_ifs
      · exact hwf
      · exact vlist_wf_same_ports hwf hb
      · exact vlist_wf_same_ports hatt (same_ports_set_present _).1
      · obtain ⟨tr, hd⟩ := ovs_set_down_frame env { ovs_set_up_attached env w with
          trace := (call env (Call.set_state true) (ovs_set_up_attached env w).trace).1 }
        rw [hd]
        exact hatt
      · exact hatt
    · obtain ⟨tr, hd⟩ := ovs_set_down_frame env w
      rw [hd]
      exact hwf
  | hotplug_prepare =>
    simp only [step, Option.some.injEq, ovs_hotplug_prepare] at h
    exact h ▸ vlist_wf_same_ports hwf (same_ports_set_present _).1
  | hotplug_add port =>
    simp only [step, ovs_hotplug_add, Option.map_map, Option.map_eq_some'] at h
    obtain ⟨w1, h1, rfl⟩ := h
    exact vlist_wf_create_port env port true hwf h1
  | hotplug_del port =>
    simp only [step, Option.some.injEq, ovs_hotplug_del] at h
    subst h
    split
    · exact hwf
    · exact vlist_wf_delete env _ hwf
  | config_init => exact vlist_wf_config_init env hwf h
  | reload attr =>
    simp only [step, Option.map_eq_some'] at h
    obtain ⟨r, hr, rfl⟩ := h
    unfold ovs_reload at hr
    dsimp only at hr
    split at hr
    · simp only [Option.map_eq_some'] at hr
      obtain ⟨w2, h2, rfl⟩ := hr
      have := vlist_wf_config_init env (w := ovs_reload_settings attr w) hwf h2
      exact this
    · simp only [Option.some.injEq] at hr
      subst hr
      exact hwf

/-- Every port tree reached from `ovs_create` is well formed. -/
theorem vlist_wf_reachable (env : Env) (name : String) (attr : blob_attr) (ops : List Op)
    (w0 w : World) (h0 : ovs_create env name attr = some w0) (h : run env ops w0 = some w) :
    vlist_wf w.ost.ports := by
  have hw0 : vlist_wf w0.ost.ports := by
    unfold ovs_create ovs_reload at h0
    simp only [Option.map_eq_some'] at h0
    obtain ⟨r, hr, rfl⟩ := h0
    have hcd : (ovs_reload_settings attr
        { ost := { dev := { ifname := name } },
          trace := call_void (Call.device_init name) [] }).ost.config_data = none := rfl
    rw [hcd] at hr
    simp only [Option.some.injEq] at hr
    subst hr
    exact ⟨le_refl _, List.nodup_nil, fun n hn => by cases hn⟩
  clear h0
  induction ops generalizing w0 with
  | nil =>
    simp only [run, Option.some.injEq] at h
    exact h ▸ hw0
  | cons op rest ih =>
    simp only [run, Option.bind_eq_some] at h
    obtain ⟨w1, h1, h2⟩ := h
    exact ih w1 h2 (vlist_wf_step env op hw0 h1)

/-- C10 fails on the code: on the bridge `c10_world` the base `br1` and the tag 10
are configured, the base link is registered with the framework and not present,
`ost->base` is still `NULL` because `ovs_add_base` drops the link, and the one
presence value that the bridge has reported is true. -/
theorem base_gating_missing :
    ((ovs_create env_ok "br0" (attr_tagged ["a"] 10)).bind
      (run env_ok [.config_init, .port_event "a" .DEV_EVENT_ADD])) = some c10_world ∧
    c10_world.ost.config.base = some "br1" ∧ c10_world.ost.config.tag = 10 ∧
    c10_world.links = [{ dev := "br1", present := false }] ∧
    c10_world.ost.base = none ∧
    c10_world.ost.n_present = 1 ∧
    reported_presence "br0" c10_world.trace = [true] := by
  decide

/-- C11: `ovs_hotplug_prepare` returns 0 and reports presence once, but the
`force_active` it sets does not survive the `ovs_set_present` it calls: on return
`force_active` is set only when the bridge may be empty or its base link is
absent, and the reported value is that of a bridge without forced activation.
On the fresh bridge `c1_start` (one declared member, nothing present,
`config.empty` false, no base) `force_active` is false on return and the bridge
is reported not present. -/
theorem ovs_hotplug_prepare_loses_force_active :
    (∀ w : World, (ovs_hotplug_prepare w).2 = 0 ∧
      (ovs_hotplug_prepare w).1.ost.force_active =
        (base_absent w.ost || w.ost.config.empty) ∧
      (ovs_hotplug_prepare w).1.trace = w.trace ++
        [(Call.device_set_present w.ost.dev.ifname
          (!base_absent w.ost && (w.ost.config.empty || decide (w.ost.n_present ≠ 0))), 0)]) ∧
    c1_start.ost.config.empty = false ∧ c1_start.ost.n_present = 0 ∧
    c1_start.ost.base = none ∧
    (ovs_hotplug_prepare c1_start).1.ost.force_active = false ∧
    new_calls c1_start (ovs_hotplug_prepare c1_start).1 =
      [Call.device_set_present "br0" false] := by
  refine ⟨?_, by decide, by decide, by decide, by decide, by decide⟩
  intro w
  refine ⟨rfl, ?_⟩
  unfold ovs_hotplug_prepare ovs_set_present ovs_set_present_out base_absent call_void
  dsimp only
  cases hb : w.ost.base with
  | none =>
    dsimp only
    cases he : w.ost.config.empty <;> by_cases hn : w.ost.n_present = 0 <;> simp [he, hn]
  | some ob =>
    dsimp only
    cases hp : ob.present <;> cases he : w.ost.config.empty <;>
      by_cases hn : w.ost.n_present = 0 <;> simp [he, hn, hp]

theorem mem_keys_iff_avl_find (nodes : List ovs_port) (key : String) :
    key ∈ keys nodes ↔ ∃ op, avl_find nodes key = some op := by
  constructor
  · intro h
    exact avl_find_of_mem_keys h
  · rintro ⟨op, h⟩
    obtain ⟨hm, hn⟩ := avl_find_some h
    exact hn ▸ mem_keys_of_mem hm

theorem avl_delete_eq_filter {nodes : List ovs_port} (hn : (keys nodes).Nodup) (key : String) :
    avl_delete key nodes = nodes.filter fun n => n.name ≠ key := by
  induction nodes with
  | nil => rfl
  | cons m rest ih =>
    simp only [keys, List.map_cons, List.nodup_cons, List.mem_map, not_exists, not_and] at hn
    unfold avl_delete
    by_cases h : m.name = key
    · rw [if_pos h, List.filter_cons_of_neg (by simpa using h)]
      symm
      rw [List.filter_eq_self]
      intro a ha
      have := hn.1 a ha
      simpa [h] using fun e => this e
    · rw [if_neg h, List.filter_cons_of_pos (by simpa using h), ih hn.2]

/-- C12: on a port set with distinct keys, `ovs_hotplug_del` returns
`UBUS_STATUS_NOT_FOUND` exactly when no port has the name of the device, and then
leaves the bridge and the trace as they were; when the port `op` has that name it
returns 0, the new port set is the old one without the port of that name (no
other port is touched), and `n_present` is lowered by one exactly when `op` was
present. -/
theorem ovs_hotplug_del_result (env : Env) (port : String) (w : World)
    (hn : (keys w.ost.ports.nodes).Nodup) :
    ((ovs_hotplug_del env port w).2 = UBUS_STATUS_NOT_FOUND ↔
      port ∉ keys w.ost.ports.nodes) ∧
    (port ∉ keys w.ost.ports.nodes → (ovs_hotplug_del env port w).1 = w) ∧
    (∀ op, avl_find w.ost.ports.nodes port = some op →
      (ovs_hotplug_del env port w).2 = 0 ∧
      port ∉ keys (ovs_hotplug_del env port w).1.ost.ports.nodes ∧
      (ovs_hotplug_del env port w).1.ost.ports.nodes =
        w.ost.ports.nodes.filter (fun n => n.name ≠ port) ∧
      (ovs_hotplug_del env port w).1.ost.n_present = w.ost.n_present - b2i op.present) := by
  unfold ovs_hotplug_del
  cases hf : avl_find w.ost.ports.nodes port with
  | none =>
    have hk := avl_find_none hf
    exact ⟨⟨fun _ => hk, fun _ => rfl⟩, fun _ => rfl, fun op h => by cases h⟩
  | some op =>
    obtain ⟨hm, hname⟩ := avl_find_some hf
    have hk : port ∈ keys w.ost.ports.nodes := hname ▸ mem_keys_of_mem hm
    obtain ⟨h1, _, h3⟩ := vlist_delete_nodes env op w
    refine ⟨⟨fun h => ?_, fun h => absurd hk h⟩, fun h => absurd hk h, ?_⟩
    · simp [UBUS_STATUS_NOT_FOUND] at h
    · intro op' hop'
      cases hop'
      dsimp only
      rw [h1, h3, hname, avl_delete_eq_filter hn]
      refine ⟨rfl, ?_, rfl, rfl⟩
      simp [keys]

/-- On the bridge `c1_final` (declared port `a`, not present; hot-plugged port
`b`, present) the removal of `b` returns 0, leaves the port `a` and takes
`n_present` from 1 to 0; the removal of an unknown device `c` is refused. -/
theorem ovs_hotplug_del_result_witness :
    (keys c1_final.ost.ports.nodes).Nodup ∧
    keys c1_final.ost.ports.nodes = ["a", "b"] ∧
    (ovs_hotplug_del env_ok "c" c1_final).2 = UBUS_STATUS_NOT_FOUND ∧
    (ovs_hotplug_del env_ok "b" c1_final).2 = 0 ∧
    keys (ovs_hotplug_del env_ok "b" c1_final).1.ost.ports.nodes = ["a"] ∧
    c1_final.ost.n_present = 1 ∧
    (ovs_hotplug_del env_ok "b" c1_final).1.ost.n_present = 0 ∧
    (((ovs_hotplug_del env_ok "b" c1_final).2 = UBUS_STATUS_NOT_FOUND ↔
        "b" ∉ keys c1_final.ost.ports.nodes) ∧
      ("b" ∉ keys c1_final.ost.ports.nodes → (ovs_hotplug_del env_ok "b" c1_final).1 = c1_final) ∧
      (∀ op, avl_find c1_final.ost.ports.nodes "b" = some op →
        (ovs_hotplug_del env_ok "b" c1_final).2 = 0 ∧
        "b" ∉ keys (ovs_hotplug_del env_ok "b" c1_final).1.ost.ports.nodes ∧
        (ovs_hotplug_del env_ok "b" c1_final).1.ost.ports.nodes =
          c1_final.ost.ports.nodes.filter (fun n => n.name ≠ "b") ∧
        (ovs_hotplug_del env_ok "b" c1_final).1.ost.n_present =
          c1_final.ost.n_present - b2i op.present)) :=
  ⟨by decide, by decide, by decide, by decide, by decide, by decide, by decide,
    ovs_hotplug_del_result env_ok "b" c1_final (by decide)⟩

/-- C13 fails as stated: on the bridge `c1_start` (`config.empty` false,
`force_active` false, no base, declared member `a`) in an environment in which
every device claim fails, the add event of `a` makes `n_present` 1 and the
bridge is reported present; the activation that follows issues `add-br`. -/
theorem scenario_b_bridge_reported_present :
    c1_start.ost.config.empty = false ∧ c1_start.ost.force_active = false ∧
    c1_start.ost.base = none ∧ blobmsg_elems c1_start.ost.ifnames = ["a"] ∧
    (run env_claim_fails [.config_init, .port_event "a" .DEV_EVENT_ADD] c1_start).map
        (fun w => (w.ost.n_present, reported_presence "br0" w.trace)) = some (1, [true]) ∧
    (run env_claim_fails
        [.config_init, .port_event "a" .DEV_EVENT_ADD, .dev_active true, .set_state true]
        c1_start).map (fun w => (new_calls c1_start w, w.ost.n_present)) =
      some ([Call.device_get "a", Call.device_add_user "a",
        Call.device_set_present "br0" true, Call.run_prog ["add-br", "br0"],
        Call.device_claim "a", Call.run_prog ["del-br", "br0"],
        Call.device_set_present "br0" false], 0) := by
  decide

theorem member_available_cb (env : Env) (w : World) (op : ovs_port)
    (he : w.ost.config.empty = false) (hb : w.ost.base = none)
    (ha : w.ost.dev.active = false) (hn : w.ost.n_present = 0)
    (hp : w.ost.ports.nodes = [op]) (hop : op.present = false) :
    ovs_port_cb env op.name .DEV_EVENT_ADD w = some (member_available w op) := by
  have hf : avl_find w.ost.ports.nodes op.name = some op := by
    rw [hp]
    simp [avl_find]
  unfold ovs_port_cb
  rw [hf]
  simp only [hop, ha, hn, Bool.false_eq_true, if_false, zero_add, if_true]
  unfold ovs_set_present ovs_set_present_out member_available World.store call_void
  simp [hb, he, hp, store_port]

theorem member_available_set_up (env : Env) (w : World) (op : ovs_port) (act : Bool)
    (hc : ∀ tr d, env.ret tr (Call.device_claim d) < 0)
    (he : w.ost.config.empty = false) (hb : w.ost.base = none)
    (hcb : w.ost.config.base = none) :
    (env.ret (member_available w op).trace (Call.run_prog ["add-br", w.ost.dev.ifname]) ≠ 0 →
      ovs_set_up env (with_active act (member_available w op)) =
        ({ with_active act (member_available w op) with
          trace := (member_available w op).trace ++
            [(Call.run_prog ["add-br", w.ost.dev.ifname],
              env.ret (member_available w op).trace
                (Call.run_prog ["add-br", w.ost.dev.ifname]))] }, -1)) ∧
    (env.ret (member_available w op).trace (Call.run_prog ["add-br", w.ost.dev.ifname]) = 0 →
      ∃ c rd, c < 0 ∧
      ovs_set_up env (with_active act (member_available w op)) =
        ({ with_active act (member_available w op) with
          ost := { (with_active act (member_available w op)).ost with
            n_present := 0,
            ports := { w.ost.ports with nodes := [{ op with present := false }] } },
          trace := (member_available w op).trace ++
            [(Call.run_prog ["add-br", w.ost.dev.ifname], 0),
              (Call.device_claim op.name, c),
              (Call.run_prog ["del-br", w.ost.dev.ifname], rd),
              (Call.device_set_present w.ost.dev.ifname false, 0)] }, -ENOENT)) := by
  constructor
  · intro hr
    have hr2 : env.ret (w.trace ++ [(Call.device_set_present w.ost.dev.ifname true, 0)])
        (Call.run_prog ["add-br", w.ost.dev.ifname]) ≠ 0 := hr
    unfold ovs_set_up ovs_set_up_base system_ovs_addbr call
    simp [member_available, with_active, hb, hcb, hr2]
  · intro hr
    refine ⟨env.ret ((member_available w op).trace ++
        [(Call.run_prog ["add-br", w.ost.dev.ifname], 0)]) (Call.device_claim op.name),
      env.ret ((member_available w op).trace ++
        [(Call.run_prog ["add-br", w.ost.dev.ifname], 0),
          (Call.device_claim op.name, env.ret ((member_available w op).trace ++
            [(Call.run_prog ["add-br", w.ost.dev.ifname], 0)]) (Call.device_claim op.name))])
        (Call.run_prog ["del-br", w.ost.dev.ifname]),
      hc _ _, ?_⟩
    have hr2 : env.ret (w.trace ++ [(Call.device_set_present w.ost.dev.ifname true, 0)])
        (Call.run_prog ["add-br", w.ost.dev.ifname]) = 0 := hr
    unfold ovs_set_up ovs_set_up_base system_ovs_addbr ovs_set_up_ports call
    simp only [member_available, with_active, hb, hcb]
    simp [hr2, ovs_enable_ports, ovs_enable_port, ovs_enable_port_error, call, hc,
      system_ovs_delbr, ovs_set_present, ovs_set_present_out, hb, he, call_void]
    split_ifs <;> simp

/-- C13, amended: a bridge that is not active, with `config.empty` false, no
base, `n_present = 0` and one port `op` that is not present, in an environment in
which every device claim fails. The add event of `op` makes `n_present` 1 and
reports the bridge present (`member_available`). The activation that follows
(`ovs_set_up`, whatever `dev.active` is) issues `add-br`; when `add-br` fails it
returns -1 with the port still counted; when `add-br` succeeds the claim of the
member fails, the port is marked not present, `n_present` is 0 again, the bridge
is deleted, reported not present, and `ovs_set_up` returns `-ENOENT` without a
call of `set_state`. -/
theorem scenario_b_claim_fails_at_activation (env : Env) (w : World) (op : ovs_port)
    (act : Bool) (hc : ∀ tr d, env.ret tr (Call.device_claim d) < 0)
    (he : w.ost.config.empty = false) (hb : w.ost.base = none)
    (hcb : w.ost.config.base = none) (ha : w.ost.dev.active = false)
    (hn : w.ost.n_present = 0) (hp : w.ost.ports.nodes = [op]) (hop : op.present = false) :
    ovs_port_cb env op.name .DEV_EVENT_ADD w = some (member_available w op) ∧
    (member_available w op).ost.n_present = 1 ∧
    new_calls w (member_available w op) = [Call.device_set_present w.ost.dev.ifname true] ∧
    (env.ret (member_available w op).trace (Call.run_prog ["add-br", w.ost.dev.ifname]) ≠ 0 →
      ovs_set_up env (with_active act (member_available w op)) =
        ({ with_active act (member_available w op) with
          trace := (member_available w op).trace ++
            [(Call.run_prog ["add-br", w.ost.dev.ifname],
              env.ret (member_available w op).trace
                (Call.run_prog ["add-br", w.ost.dev.ifname]))] }, -1)) ∧
    (env.ret (member_available w op).trace (Call.run_prog ["add-br", w.ost.dev.ifname]) = 0 →
      ∃ c rd, c < 0 ∧
      ovs_set_up env (with_active act (member_available w op)) =
        ({ with_active act (member_available w op) with
          ost := { (with_active act (member_available w op)).ost with
            n_present := 0,
            ports := { w.ost.ports with nodes := [{ op with present := false }] } },
          trace := (member_available w op).trace ++
            [(Call.run_prog ["add-br", w.ost.dev.ifname], 0),
              (Call.device_claim op.name, c),
              (Call.run_prog ["del-br", w.ost.dev.ifname], rd),
              (Call.device_set_present w.ost.dev.ifname false, 0)] }, -ENOENT)) :=
  ⟨member_available_cb env w op he hb ha hn hp hop, rfl,
    by simp [new_calls, member_available],
    member_available_set_up env w op act hc he hb hcb⟩

/-- The bridge `c13_world` with its port `a`, in the environment
`env_claim_fails`: the add event reports the bridge present, the activation
ends with `-ENOENT` and `n_present = 0`. -/
theorem scenario_b_claim_fails_at_activation_witness :
    ovs_config_init env_claim_fails c1_start = some c13_world ∧
    (∀ tr d, env_claim_fails.ret tr (Call.device_claim d) < 0) ∧
    c13_world.ost.config.empty = false ∧ c13_world.ost.base = none ∧
    c13_world.ost.config.base = none ∧ c13_world.ost.dev.active = false ∧
    c13_world.ost.n_present = 0 ∧ c13_world.ost.ports.nodes = [c13_port] ∧
    c13_port.present = false ∧
    (ovs_set_up env_claim_fails (with_active true (member_available c13_world c13_port))).2 =
      -ENOENT ∧
    (ovs_set_up env_claim_fails
      (with_active true (member_available c13_world c13_port))).1.ost.n_present = 0 ∧
    (ovs_port_cb env_claim_fails c13_port.name .DEV_EVENT_ADD c13_world =
        some (member_available c13_world c13_port) ∧
      (member_available c13_world c13_port).ost.n_present = 1 ∧
      new_calls c13_world (member_available c13_world c13_port) =
        [Call.device_set_present c13_world.ost.dev.ifname true] ∧
      (env_claim_fails.ret (member_available c13_world c13_port).trace
          (Call.run_prog ["add-br", c13_world.ost.dev.ifname]) ≠ 0 →
        ovs_set_up env_claim_fails (with_active true (member_available c13_world c13_port)) =
          ({ with_active true (member_available c13_world c13_port) with
            trace := (member_available c13_world c13_port).trace ++
              [(Call.run_prog ["add-br", c13_world.ost.dev.ifname],
                env_claim_fails.ret (member_available c13_world c13_port).trace
                  (Call.run_prog ["add-br", c13_world.ost.dev.ifname]))] }, -1)) ∧
      (env_claim_fails.ret (member_available c13_world c13_port).trace
          (Call.run_prog ["add-br", c13_world.ost.dev.ifname]) = 0 →
        ∃ c rd, c < 0 ∧
        ovs_set_up env_claim_fails (with_active true (member_available c13_world c13_port)) =
          ({ with_active true (member_available c13_world c13_port) with
            ost := { (with_active true (member_available c13_world c13_port)).ost with
              n_present := 0,
              ports := { c13_world.ost.ports with
                nodes := [{ c13_port with present := false }] } },
            trace := (member_available c13_world c13_port).trace ++
              [(Call.run_prog ["add-br", c13_world.ost.dev.ifname], 0),
                (Call.device_claim c13_port.name, c),
                (Call.run_prog ["del-br", c13_world.ost.dev.ifname], rd),
                (Call.device_set_present c13_world.ost.dev.ifname false, 0)] }, -ENOENT))) :=
  ⟨by decide, fun _ _ => by simp [env_claim_fails], by decide, by decide, by decide,
    by decide, by decide, by decide, by decide, by decide, by decide,
    scenario_b_claim_fails_at_activation env_claim_fails c13_world c13_port true
      (fun _ _ => by simp [env_claim_fails]) (by decide) (by decide) (by decide) (by decide)
      (by decide) (by decide) (by decide)⟩

theorem snprintf_tag (t : Nat) (ht : t < 2 ^ 32) : snprintf 16 (toString t) = toString t := by
  have hl : (Nat.repr t).length ≤ 10 :=
    Nat.repr_length t 10 (by decide) (lt_trans ht (by norm_num))
  unfold snprintf
  have hd : (toString t).data.length ≤ 15 := by
    show (Nat.repr t).length ≤ 15
    omega
  rw [List.take_of_length_le hd]

/-- C14: for every attribute table parsed with the policy `ovs_attrs`, every
previously stored bridge state and every bridge name: the configuration that
`ovs_apply_settings` stores depends on the table alone; without `ovs_tag` or
without `ovs_base` it has `tag = 0` and no base; with both, and a tag value
other than 0, `system_ovs_addbr` runs `add-br <name> <base> <tag>` with the tag
in unsigned decimal; in every other case (one of the two missing, or a tag of 0)
it runs `add-br <name>`. -/
theorem pseudo_bridge_arguments (env : Env) (ost ost' : ovs_state)
    (tb : List (Option blobmsg)) (name : String) (tr : Trace)
    (h : blobmsg_parsed ovs_attrs tb) :
    (ovs_apply_settings ost' tb).config = (ovs_apply_settings ost tb).config ∧
    (tb_get tb OVS_ATTR_TAG = none ∨ tb_get tb OVS_ATTR_BASE = none →
      (ovs_apply_settings ost tb).config.tag = 0 ∧
      (ovs_apply_settings ost tb).config.base = none) ∧
    (∀ t b, tb_get tb OVS_ATTR_TAG = some t → tb_get tb OVS_ATTR_BASE = some b →
      blobmsg_get_u32 t ≠ 0 →
      ∃ n s, t = .int32 n ∧ b = .string s ∧
        (system_ovs_addbr env name (ovs_apply_settings ost tb).config tr).1 =
          tr ++ [(Call.run_prog ["add-br", name, s, toString (n % 2 ^ 32)],
            env.ret tr (Call.run_prog ["add-br", name, s, toString (n % 2 ^ 32)]))]) ∧
    (tb_get tb OVS_ATTR_TAG = none ∨ tb_get tb OVS_ATTR_BASE = none ∨
        (∃ t, tb_get tb OVS_ATTR_TAG = some t ∧ blobmsg_get_u32 t = 0) →
      (system_ovs_addbr env name (ovs_apply_settings ost tb).config tr).1 =
        tr ++ [(Call.run_prog ["add-br", name], env.ret tr (Call.run_prog ["add-br", name]))]) := by
  have hplain : ∀ cfg : ovs_config, (cfg.tag = 0 ∨ cfg.base = none) →
      (system_ovs_addbr env name cfg tr).1 =
        tr ++ [(Call.run_prog ["add-br", name], env.ret tr (Call.run_prog ["add-br", name]))] := by
    intro cfg hc
    unfold system_ovs_addbr call
    cases hb : cfg.base with
    | none => dsimp only; split_ifs <;> rfl
    | some b =>
      rcases hc with hc | hc
      · dsimp only
        rw [if_neg (not_not.mpr hc)]
        split_ifs <;> rfl
      · rw [hb] at hc
        cases hc
  have hcfg : ((ovs_apply_settings ost tb).config.tag, (ovs_apply_settings ost tb).config.base) =
      match tb_get tb OVS_ATTR_TAG, tb_get tb OVS_ATTR_BASE with
      | some t, some b => (blobmsg_get_u32 t, blobmsg_get_string b)
      | _, _ => (0, none) := by
    unfold ovs_apply_settings
    dsimp only
    cases tb_get tb OVS_ATTR_TAG <;> cases tb_get tb OVS_ATTR_BASE <;>
      cases tb_get tb OVS_ATTR_EMPTY <;> cases tb_get tb OVS_ATTR_TYPE <;>
      cases tb_get tb OVS_ATTR_OPTIONS <;> rfl
  refine ⟨rfl, ?_, ?_, ?_⟩
  · intro hm
    rcases hm with hm | hm <;> rw [hm] at hcfg
    · simpa using hcfg
    · cases hT : tb_get tb OVS_ATTR_TAG <;> rw [hT] at hcfg <;> simpa using hcfg
  · intro t b hT hB hne
    rw [hT, hB] at hcfg
    have htT := h _ _ hT
    have htB := h _ _ hB
    cases t with
    | int32 n =>
      cases b with
      | string s =>
        refine ⟨n, s, rfl, rfl, ?_⟩
        simp only [blobmsg_get_u32, blobmsg_get_string, Prod.mk.injEq] at hcfg hne
        unfold system_ovs_addbr call
        rw [hcfg.2]
        dsimp only
        rw [hcfg.1, if_pos hne, Nat.mod_mod, snprintf_tag _ (Nat.mod_lt _ (by norm_num))]
        split_ifs <;> rfl
      | array l => simp [ovs_attrs, OVS_ATTR_BASE, blobmsg_type_of] at htB
      | int32 m => simp [ovs_attrs, OVS_ATTR_BASE, blobmsg_type_of] at htB
      | bool m => simp [ovs_attrs, OVS_ATTR_BASE, blobmsg_type_of] at htB
    | array l => simp [blobmsg_get_u32] at hne
    | string l => simp [blobmsg_get_u32] at hne
    | bool l => simp [blobmsg_get_u32] at hne
  · intro hm
    apply hplain
    rcases hm with hm | hm | ⟨t, hT, h0⟩
    · rw [hm] at hcfg
      left
      simpa using congrArg Prod.fst hcfg
    · rw [hm] at hcfg
      left
      cases hT : tb_get tb OVS_ATTR_TAG <;> rw [hT] at hcfg <;>
        simpa using congrArg Prod.fst hcfg
    · rw [hT] at hcfg
      left
      cases hB : tb_get tb OVS_ATTR_BASE <;> rw [hB] at hcfg
      · simpa using congrArg Prod.fst hcfg
      · have := congrArg Prod.fst hcfg
        simp only at this
        rw [this, h0]

theorem attr_tagged_parsed (l : List String) (tag : Nat) :
    blobmsg_parsed ovs_attrs (attr_tagged l tag).tb_br := by
  intro i m h
  rcases i with _ | _ | _ | i <;> simp [attr_tagged, tb_get] at h <;> subst h <;> rfl

/-- The table of `attr_tagged ["a"] 10` (`ovs_base = br1`, `ovs_tag = 10`) gives
`add-br br0 br1 10`, whatever configuration was stored before. -/
theorem pseudo_bridge_arguments_witness :
    blobmsg_parsed ovs_attrs (attr_tagged ["a"] 10).tb_br ∧
    (system_ovs_addbr env_ok "br0"
      (ovs_apply_settings c1_start.ost (attr_tagged ["a"] 10).tb_br).config []).1 =
      [(Call.run_prog ["add-br", "br0", "br1", "10"], 0)] ∧
    (system_ovs_addbr env_ok "br0"
      (ovs_apply_settings c1_start.ost (attr_tagged ["a"] 0).tb_br).config []).1 =
      [(Call.run_prog ["add-br", "br0"], 0)] ∧
    ((ovs_apply_settings c10_world.ost (attr_tagged ["a"] 10).tb_br).config =
        (ovs_apply_settings c1_start.ost (attr_tagged ["a"] 10).tb_br).config ∧
      (tb_get (attr_tagged ["a"] 10).tb_br OVS_ATTR_TAG = none ∨
          tb_get (attr_tagged ["a"] 10).tb_br OVS_ATTR_BASE = none →
        (ovs_apply_settings c1_start.ost (attr_tagged ["a"] 10).tb_br).config.tag = 0 ∧
        (ovs_apply_settings c1_start.ost (attr_tagged ["a"] 10).tb_br).config.base = none) ∧
      (∀ t b, tb_get (attr_tagged ["a"] 10).tb_br OVS_ATTR_TAG = some t →
        tb_get (attr_tagged ["a"] 10).tb_br OVS_ATTR_BASE = some b →
        blobmsg_get_u32 t ≠ 0 →
        ∃ n s, t = .int32 n ∧ b = .string s ∧
          (system_ovs_addbr env_ok "br0"
            (ovs_apply_settings c1_start.ost (attr_tagged ["a"] 10).tb_br).config []).1 =
            [] ++ [(Call.run_prog ["add-br", "br0", s, toString (n % 2 ^ 32)],
              env_ok.ret [] (Call.run_prog ["add-br", "br0", s, toString (n % 2 ^ 32)]))]) ∧
      (tb_get (attr_tagged ["a"] 10).tb_br OVS_ATTR_TAG = none ∨
          tb_get (attr_tagged ["a"] 10).tb_br OVS_ATTR_BASE = none ∨
          (∃ t, tb_get (attr_tagged ["a"] 10).tb_br OVS_ATTR_TAG = some t ∧
            blobmsg_get_u32 t = 0) →
        (system_ovs_addbr env_ok "br0"
          (ovs_apply_settings c1_start.ost (attr_tagged ["a"] 10).tb_br).config []).1 =
          [] ++ [(Call.run_prog ["add-br", "br0"],
            env_ok.ret [] (Call.run_prog ["add-br", "br0"]))])) :=
  ⟨attr_tagged_parsed _ _, by decide, by decide,
    pseudo_bridge_arguments env_ok c1_start.ost c10_world.ost (attr_tagged ["a"] 10).tb_br
      "br0" [] (attr_tagged_parsed _ _)⟩

theorem get_base_set_present (w : World) (r : base_ref) :
    (ovs_set_present w).get_base r = w.get_base r := by
  obtain ⟨fa, tr, h⟩ := ovs_set_present_frame w
  rw [h]
  cases r <;> rfl

theorem remove_base_not_present (r : base_ref) (w : World) (ob' : ovs_base)
    (h : (ovs_remove_base r w).get_base r = some ob') : ob'.present = false := by
  unfold ovs_remove_base at h
  cases hb : w.get_base r with
  | none =>
    rw [hb] at h
    dsimp only at h
    rw [hb] at h
    cases h
  | some ob =>
    rw [hb] at h
    dsimp only at h
    split_ifs at h with hp ha
    · rw [hb] at h
      cases h
      simpa using hp
    · rw [get_base_set_present] at h
      rw [get_base_set_base _ _ _ _ h]
    · rw [get_base_set_present] at h
      rw [get_base_set_base _ _ _ _ h]

theorem base_cb_add_not_present (env : Env) (r : base_ref) (w : World) (ob' : ovs_base)
    (h : (ovs_base_cb env r .DEV_EVENT_ADD w).get_base r = some ob') :
    ob'.present = false := by
  unfold ovs_base_cb at h
  dsimp only at h
  cases hb : w.get_base r with
  | none =>
    rw [hb] at h
    dsimp only at h
    rw [hb] at h
    cases h
  | some ob =>
    rw [hb] at h
    dsimp only at h
    split_ifs at h with hp
    · exact remove_base_not_present r _ ob' h
    · rw [get_base_set_present] at h
      rw [get_base_set_base _ _ _ _ h]
      simpa using hp

/-- C15: the `DEV_EVENT_ADD` case of `ovs_base_cb` runs on into the removal
logic of the `DEV_EVENT_REMOVE` case. For every base link the present flag is
false when the handler returns. On the bridge `c10_world` (base link to `br1`,
claims succeed) the add event leaves the link not present after its device was
claimed, and on the active bridge the claim is released again. -/
theorem ovs_base_cb_add_falls_through :
    (∀ (env : Env) (r : base_ref) (w : World) (ob : ovs_base),
      (ovs_base_cb env r .DEV_EVENT_ADD w).get_base r = some ob → ob.present = false) ∧
    c10_world.links = [{ dev := "br1", present := false }] ∧
    (ovs_base_cb env_ok (.link 0) .DEV_EVENT_ADD c10_world).links =
      [{ dev := "br1", present := false }] ∧
    new_calls c10_world (ovs_base_cb env_ok (.link 0) .DEV_EVENT_ADD c10_world) =
      [Call.device_claim "br1", Call.device_set_present "br0" true,
        Call.device_set_present "br0" true] ∧
    (ovs_base_cb env_ok (.link 0) .DEV_EVENT_ADD (with_active true c10_world)).links =
      [{ dev := "br1", present := false }] ∧
    new_calls (with_active true c10_world)
        (ovs_base_cb env_ok (.link 0) .DEV_EVENT_ADD (with_active true c10_world)) =
      [Call.device_claim "br1", Call.device_set_present "br0" true,
        Call.device_release "br1", Call.device_set_present "br0" true] :=
  ⟨base_cb_add_not_present, by decide, by decide, by decide, by decide, by decide⟩

theorem addport_no_set (env : Env) (ovs dev : String) (tr : Trace) :
    emits (fun c => is_set_call c = false) tr (system_ovs_addport env ovs dev tr).1 := by
  unfold system_ovs_addport
  dsimp only
  have h1 : emits (fun c => is_set_call c = false) tr
      (call_void (Call.system_set_disable_ipv6 dev "1") tr) :=
    emits_call_void (by rfl) tr
  have h2 : emits (fun c => is_set_call c = false)
      (call_void (Call.system_set_disable_ipv6 dev "1") tr)
      (system_get_ovs env dev (call_void (Call.system_set_disable_ipv6 dev "1") tr)).1 := by
    unfold system_get_ovs
    dsimp only
    split_ifs
    · exact emits_call_void (by rfl) _
    · exact emits_call_void (by rfl) _
  have h3 := emits_trans h1 h2
  split_ifs
  · exact h3
  · exact emits_trans h3 (emits_call env (by simp [is_set_call]) _)
  · exact emits_trans h3 (emits_call env (by simp [is_set_call]) _)

/-- C16: for a present port. When the claim and the attach succeed,
`ovs_enable_port` returns 0 with the port and `n_present` as they were, after
running `system_ovs_settype` and then `system_ovs_setoptions` on the trace that
`system_ovs_settype` left, whatever the two return; a configured type or option
string is applied by its `ovs-vsctl set` call whatever its result and the result
of the call before it. When the claim fails, or the attach fails after a
successful claim, the port is marked not present, `n_present` drops by one, the
negative result is returned, and no `ovs-vsctl set` call has been made. -/
theorem ovs_enable_port_set_failures_nonfatal (env : Env) (op : ovs_port) (w : World)
    (hp : op.present = true) :
    (0 ≤ (ovs_enable_port_claim env op w).2 → 0 ≤ (ovs_enable_port_attach env op w).2 →
      ovs_enable_port env op w =
        ((op, { w with trace :=
          (system_ovs_setoptions env op.name w.ost.config
            (system_ovs_settype env op.name w.ost.config
              (ovs_enable_port_attach env op w).1).1).1 }), 0)) ∧
    (∀ tr t, w.ost.config.type = some t →
      (system_ovs_settype env op.name w.ost.config tr).1 =
        tr ++ [(Call.run_prog ["set", "interface", op.name, snprintf 31 ("type=" ++ t)],
          env.ret tr (Call.run_prog ["set", "interface", op.name,
            snprintf 31 ("type=" ++ t)]))]) ∧
    (∀ tr o, w.ost.config.options = some o →
      (system_ovs_setoptions env op.name w.ost.config tr).1 =
        tr ++ [(Call.run_prog ["set", "interface", op.name, snprintf 128 ("options:" ++ o)],
          env.ret tr (Call.run_prog ["set", "interface", op.name,
            snprintf 128 ("options:" ++ o)]))]) ∧
    ((ovs_enable_port_claim env op w).2 < 0 →
      ovs_enable_port env op w =
        (({ op with present := false },
          { w with ost := { w.ost with n_present := w.ost.n_present - 1 },
                   trace := (ovs_enable_port_claim env op w).1 }),
          (ovs_enable_port_claim env op w).2)) ∧
    (0 ≤ (ovs_enable_port_claim env op w).2 → (ovs_enable_port_attach env op w).2 < 0 →
      ovs_enable_port env op w =
        (({ op with present := false },
          { w with ost := { w.ost with n_present := w.ost.n_present - 1 },
                   trace := (ovs_enable_port_attach env op w).1 }),
          (ovs_enable_port_attach env op w).2)) ∧
    emits (fun c => is_set_call c = false) w.trace (ovs_enable_port_claim env op w).1 ∧
    emits (fun c => is_set_call c = false) w.trace (ovs_enable_port_attach env op w).1 := by
  have hc : emits (fun c => is_set_call c = false) w.trace (ovs_enable_port_claim env op w).1 :=
    emits_call env (by rfl) _
  refine ⟨?_, ?_, ?_, ?_, ?_, hc, emits_trans hc (addport_no_set env _ _ _)⟩
  · intro h1 h2
    unfold ovs_enable_port_attach ovs_enable_port_claim at h2
    unfold ovs_enable_port_claim at h1
    unfold ovs_enable_port
    simp only [hp, Bool.not_true, Bool.false_eq_true, if_false]
    rw [if_neg (not_lt.mpr h1), if_neg (not_lt.mpr h2)]
    rfl
  · intro tr t ht
    unfold system_ovs_settype call
    rw [ht]
    dsimp only
    split_ifs <;> rfl
  · intro tr o ho
    unfold system_ovs_setoptions call
    rw [ho]
    dsimp only
    split_ifs <;> rfl
  · intro h1
    unfold ovs_enable_port_claim at h1
    unfold ovs_enable_port ovs_enable_port_error
    simp only [hp, Bool.not_true, Bool.false_eq_true, if_false]
    rw [if_pos h1]
    rfl
  · intro h1 h2
    unfold ovs_enable_port_attach ovs_enable_port_claim at h2
    unfold ovs_enable_port_claim at h1
    unfold ovs_enable_port ovs_enable_port_error
    simp only [hp, Bool.not_true, Bool.false_eq_true, if_false]
    rw [if_neg (not_lt.mpr h1), if_pos h2]
    rfl

/-- The present port `a` of the bridge `c16_world` in the environment
`env_set_fails`: both `ovs-vsctl set` calls are made and fail, and
`ovs_enable_port` returns 0 with the port still present. -/
theorem ovs_enable_port_set_failures_nonfatal_witness :
    c7_port.present = true ∧
    ovs_enable_port env_set_fails c7_port c16_world =
      ((c7_port, { c16_world with trace := c16_world.trace ++
        [(Call.device_claim "a", 0), (Call.system_set_disable_ipv6 "a" "1", 0),
          (Call.popen "/usr/bin/ovs-vsctl --verbose=vsctl:syslog:emer iface-to-br a", 0),
          (Call.run_prog ["add-port", "br0", "a"], 0),
          (Call.run_prog ["set", "interface", "a", "type=internal"], 1),
          (Call.run_prog ["set", "interface", "a", "options:key=1"], 1)] }), 0) ∧
    ((0 ≤ (ovs_enable_port_claim env_set_fails c7_port c16_world).2 →
        0 ≤ (ovs_enable_port_attach env_set_fails c7_port c16_world).2 →
        ovs_enable_port env_set_fails c7_port c16_world =
          ((c7_port, { c16_world with trace :=
            (system_ovs_setoptions env_set_fails c7_port.name c16_world.ost.config
              (system_ovs_settype env_set_fails c7_port.name c16_world.ost.config
                (ovs_enable_port_attach env_set_fails c7_port c16_world).1).1).1 }), 0)) ∧
      (∀ tr t, c16_world.ost.config.type = some t →
        (system_ovs_settype env_set_fails c7_port.name c16_world.ost.config tr).1 =
          tr ++ [(Call.run_prog ["set", "interface", c7_port.name, snprintf 31 ("type=" ++ t)],
            env_set_fails.ret tr (Call.run_prog ["set", "interface", c7_port.name,
              snprintf 31 ("type=" ++ t)]))]) ∧
      (∀ tr o, c16_world.ost.config.options = some o →
        (system_ovs_setoptions env_set_fails c7_port.name c16_world.ost.config tr).1 =
          tr ++ [(Call.run_prog ["set", "interface", c7_port.name,
              snprintf 128 ("options:" ++ o)],
            env_set_fails.ret tr (Call.run_prog ["set", "interface", c7_port.name,
              snprintf 128 ("options:" ++ o)]))]) ∧
      ((ovs_enable_port_claim env_set_fails c7_port c16_world).2 < 0 →
        ovs_enable_port env_set_fails c7_port c16_world =
          (({ c7_port with present := false },
            { c16_world with
              ost := { c16_world.ost with n_present := c16_world.ost.n_present - 1 },
              trace := (ovs_enable_port_claim env_set_fails c7_port c16_world).1 }),
            (ovs_enable_port_claim env_set_fails c7_port c16_world).2)) ∧
      (0 ≤ (ovs_enable_port_claim env_set_fails c7_port c16_world).2 →
        (ovs_enable_port_attach env_set_fails c7_port c16_world).2 < 0 →
        ovs_enable_port env_set_fails c7_port c16_world =
          (({ c7_port with present := false },
            { c16_world with
              ost := { c16_world.ost with n_present := c16_world.ost.n_present - 1 },
              trace := (ovs_enable_port_attach env_set_fails c7_port c16_world).1 }),
            (ovs_enable_port_attach env_set_fails c7_port c16_world).2)) ∧
      emits (fun c => is_set_call c = false) c16_world.trace
        (ovs_enable_port_claim env_set_fails c7_port c16_world).1 ∧
      emits (fun c => is_set_call c = false) c16_world.trace
        (ovs_enable_port_attach env_set_fails c7_port c16_world).1) :=
  ⟨by decide, by decide,
    ovs_enable_port_set_failures_nonfatal env_set_fails c7_port c16_world (by decide)⟩

theorem ovs_disable_ports_calls (env : Env) (l : List ovs_port) (w : World) :
    ∃ suf, ovs_disable_ports env l w = { w with trace := w.trace ++ suf } ∧
      suf.map Prod.fst = detach_calls w.ost.dev.ifname l := by
  induction l generalizing w with
  | nil => exact ⟨[], by simp [ovs_disable_ports], rfl⟩
  | cons op rest ih =>
    unfold ovs_disable_ports detach_calls
    cases hp : op.present with
    | false =>
      have h0 : ovs_disable_port env op w = (w, 0) := by
        simp [ovs_disable_port, hp]
      rw [h0]
      obtain ⟨suf, h1, h2⟩ := ih w
      exact ⟨suf, h1, by simpa using h2⟩
    | true =>
      obtain ⟨r, h0⟩ := ovs_disable_port_events env op w hp
      rw [h0]
      obtain ⟨suf, h1, h2⟩ :=
        ih { w with trace := w.trace ++ detach_events w.ost.dev.ifname op.name r }
      refine ⟨detach_events w.ost.dev.ifname op.name r ++ suf, ?_, ?_⟩
      · rw [h1]
        simp
      · simp only [List.map_append, h2, if_true]
        rfl

theorem ovs_set_down_base_calls (w : World) :
    ∃ suf, ovs_set_down_base w = { w with trace := w.trace ++ suf } ∧
      suf.map Prod.fst = base_release_calls w.ost.base := by
  unfold ovs_set_down_base base_release_calls ovs_disable_base
  cases hb : w.ost.base with
  | none => exact ⟨[], by simp, rfl⟩
  | some ob =>
    dsimp only
    cases hp : ob.present with
    | false => exact ⟨[], by simp, rfl⟩
    | true => exact ⟨[(Call.device_release ob.dev, 0)], by simp [call_void], rfl⟩

/-- C17: for every bridge state and environment `ovs_set_down` returns 0, leaves
the bridge state as it was and appends to the trace exactly the calls
`ovs_set_down_calls`: `set_state(dev, false)` first; then, port by port, for
each present port the detach followed at once by the release of its claim, and
nothing for a port that is not present, whatever the detach calls returned; then
the release of the base link if there is one and it is present; `del-br` last. -/
theorem ovs_set_down_order (env : Env) (w : World) :
    ∃ suf, ovs_set_down env w = ({ w with trace := w.trace ++ suf }, 0) ∧
      suf.map Prod.fst = ovs_set_down_calls w := by
  unfold ovs_set_down
  dsimp only
  obtain ⟨s1, h1, c1⟩ := ovs_disable_ports_calls env w.ost.ports.nodes
    { w with trace := (call env (Call.set_state false) w.trace).1 }
  rw [h1]
  obtain ⟨s2, h2, c2⟩ := ovs_set_down_base_calls
    { ({ w with trace := (call env (Call.set_state false) w.trace).1 } : World) with
      trace := (call env (Call.set_state false) w.trace).1 ++ s1 }
  rw [h2]
  dsimp only at c1 c2 ⊢
  obtain ⟨r1, hd⟩ := delbr_event env w.ost.dev.ifname
    ((call env (Call.set_state false) w.trace).1 ++ s1 ++ s2)
  rw [hd]
  refine ⟨(Call.set_state false, env.ret w.trace (Call.set_state false)) :: s1 ++ s2 ++
    [(Call.run_prog ["del-br", w.ost.dev.ifname], r1)], ?_, ?_⟩
  · simp [call]
  · simp [ovs_set_down_calls, c1, c2]

theorem avl_find_store_port {nodes : List ovs_port} {key : String} {op op' : ovs_port}
    (hf : avl_find nodes key = some op) (hname : op'.name = key) :
    avl_find (store_port op' nodes) key = some op' := by
  induction nodes with
  | nil => simp [avl_find] at hf
  | cons m rest ih =>
    unfold store_port
    by_cases h : m.name = key
    · rw [if_pos (h.trans hname.symm)]
      simp [avl_find, hname]
    · have hf' : avl_find rest key = some op := by
        simp only [avl_find] at hf ⊢
        rwa [List.find?_cons_of_neg _ (by simpa using h)] at hf
      rw [if_neg (fun e => h (e.trans hname))]
      have := ih hf'
      simp only [avl_find] at this ⊢
      rw [List.find?_cons_of_neg _ (by simpa using h)]
      exact this

theorem reported_presence_append (dev : String) (a b : Trace) :
    reported_presence dev (a ++ b) = reported_presence dev a ++ reported_presence dev b := by
  simp [reported_presence, List.filterMap_append]

theorem reported_presence_attach (dev : String) {tr tr' : Trace}
    (h : emits attach_call tr tr') : reported_presence dev tr' = reported_presence dev tr := by
  obtain ⟨suf, rfl, hs⟩ := h
  rw [reported_presence_append]
  have : reported_presence dev suf = [] := by
    unfold reported_presence
    rw [List.filterMap_eq_nil_iff]
    intro e he
    rcases hs e he with ⟨d, h⟩ | ⟨d, h⟩ | ⟨s, h⟩ | ⟨s, h⟩ | ⟨a, h⟩ | ⟨a, h⟩ <;> rw [h]
  rw [this, List.append_nil]

/-- C18: the add event of a port `op` that is not present is handled without a
failed assertion. On an active bridge the handler runs `ovs_enable_port` on the
port, marked present and counted, and reports no presence; the port ends present
and counted exactly when the attach did not fail. On an inactive bridge the port
ends present, `n_present` is one more, and presence is reported exactly when
`n_present` has become 1; the value reported is true unless a base link is
absent, whatever `force_active` and `config.empty` are. -/
theorem ovs_port_cb_add_event (env : Env) (name : String) (op : ovs_port) (w : World)
    (hf : avl_find w.ost.ports.nodes name = some op) (hp : op.present = false) :
    ∃ w', ovs_port_cb env name .DEV_EVENT_ADD w = some w' ∧
      (w.ost.dev.active = true →
        w' = (ovs_enable_port env { op with present := true } (counted w)).1.2.store
          (ovs_enable_port env { op with present := true } (counted w)).1.1 ∧
        reported_presence w.ost.dev.ifname w'.trace =
          reported_presence w.ost.dev.ifname w.trace ∧
        ∃ x, avl_find w'.ost.ports.nodes name = some x ∧
          w'.ost.n_present = w.ost.n_present + b2i x.present ∧
          (x.present = true ↔ (ovs_enable_port env { op with present := true } (counted w)).2 = 0)) ∧
      (w.ost.dev.active = false →
        avl_find w'.ost.ports.nodes name = some { op with present := true } ∧
        w'.ost.n_present = w.ost.n_present + 1 ∧
        (w.ost.n_present + 1 = 1 →
          w'.trace = w.trace ++
            [(Call.device_set_present w.ost.dev.ifname (!base_absent w.ost), 0)]) ∧
        (w.ost.n_present + 1 ≠ 1 → w'.trace = w.trace)) := by
  have hname := (avl_find_some hf).2
  unfold ovs_port_cb
  rw [hf]
  dsimp only
  rw [if_neg (by simp [hp] : ¬ op.present = true)]
  by_cases ha : w.ost.dev.active = true
  · rw [if_pos ha]
    refine ⟨_, rfl, fun _ => ⟨rfl, ?_, ?_⟩, fun h => absurd ha (by simp [h])⟩
    · have he := emits_enable_port env { op with present := true } (counted w)
      exact reported_presence_attach _ he
    · rcases ovs_enable_port_cases env { op with present := true } (counted w)
        with ⟨tr, he⟩ | ⟨_, tr, ret, hret, he⟩
      · unfold counted at he
        refine ⟨{ op with present := true }, ?_, ?_, ?_⟩
        · rw [he]
          exact avl_find_store_port hf hname
        · rw [he]
          simp [World.store, b2i]
        · unfold counted
          rw [he]
          simp
      · unfold counted at he
        refine ⟨{ op with present := false }, ?_, ?_, ?_⟩
        · rw [he]
          exact avl_find_store_port hf hname
        · rw [he]
          simp [World.store, b2i]
        · unfold counted
          rw [he]
          simp only [Bool.false_eq_true, false_iff]
          omega
  · rw [if_neg ha]
    by_cases h1 : w.ost.n_present + 1 = 1
    · rw [if_pos h1]
      refine ⟨_, rfl, fun h => absurd h ha, fun _ => ⟨?_, ?_, fun _ => ?_, fun h => absurd h1 h⟩⟩
      · obtain ⟨fa, tr, hs⟩ := ovs_set_present_frame
          { w with ost := { w.ost with n_present := w.ost.n_present + 1 } }
        rw [hs]
        exact avl_find_store_port hf hname
      · obtain ⟨fa, tr, hs⟩ := ovs_set_present_frame
          { w with ost := { w.ost with n_present := w.ost.n_present + 1 } }
        rw [hs]
        rfl
      · have hs := (ovs_set_present_spec
          { w with ost := { w.ost with n_present := w.ost.n_present + 1 } }).1
        show (ovs_set_present
          { w with ost := { w.ost with n_present := w.ost.n_present + 1 } }).trace = _
        rw [hs]
        dsimp only
        have h0 : decide (w.ost.n_present + 1 ≠ 0) = true := by
          rw [h1]
          decide
        rw [h0]
        unfold base_absent
        cases w.ost.base <;> simp
    · rw [if_neg h1]
      exact ⟨_, rfl, fun h => absurd h ha,
        fun _ => ⟨avl_find_store_port hf hname, rfl, fun h => absurd h h1, fun _ => rfl⟩⟩

/-- Scenario E: on the bridge `c18_world` (down, no declared member,
`config.empty` and `force_active` false, no base) the add event of the
hot-plugged port `x` makes `n_present` 1 and reports the bridge present. -/
theorem ovs_port_cb_add_event_witness :
    (ovs_create env_ok "br0" (attr_ifname [])).bind
        (run env_ok [.config_init, .hotplug_add "x"]) = some c18_world ∧
    avl_find c18_world.ost.ports.nodes "x" = some c18_port ∧ c18_port.present = false ∧
    c18_world.ost.dev.active = false ∧ c18_world.ost.force_active = false ∧
    c18_world.ost.config.empty = false ∧ c18_world.ost.n_present = 0 ∧
    (ovs_port_cb env_ok "x" .DEV_EVENT_ADD c18_world).map
        (fun w => (w.ost.n_present, new_calls c18_world w)) =
      some (1, [Call.device_set_present "br0" true]) ∧
    (∃ w', ovs_port_cb env_ok "x" .DEV_EVENT_ADD c18_world = some w' ∧
      (c18_world.ost.dev.active = true →
        w' = (ovs_enable_port env_ok { c18_port with present := true }
            (counted c18_world)).1.2.store
          (ovs_enable_port env_ok { c18_port with present := true } (counted c18_world)).1.1 ∧
        reported_presence c18_world.ost.dev.ifname w'.trace =
          reported_presence c18_world.ost.dev.ifname c18_world.trace ∧
        ∃ x, avl_find w'.ost.ports.nodes "x" = some x ∧
          w'.ost.n_present = c18_world.ost.n_present + b2i x.present ∧
          (x.present = true ↔
            (ovs_enable_port env_ok { c18_port with present := true }
              (counted c18_world)).2 = 0)) ∧
      (c18_world.ost.dev.active = false →
        avl_find w'.ost.ports.nodes "x" = some { c18_port with present := true } ∧
        w'.ost.n_present = c18_world.ost.n_present + 1 ∧
        (c18_world.ost.n_present + 1 = 1 →
          w'.trace = c18_world.trace ++
            [(Call.device_set_present c18_world.ost.dev.ifname
              (!base_absent c18_world.ost), 0)]) ∧
        (c18_world.ost.n_present + 1 ≠ 1 → w'.trace = c18_world.trace))) :=
  ⟨by decide, by decide, by decide, by decide, by decide, by decide, by decide, by decide,
    ovs_port_cb_add_event env_ok "x" c18_port c18_world (by decide) (by decide)⟩

theorem free_port_removes_user (env : Env) (op : ovs_port) (w : World) :
    (Call.device_remove_user op.name, 0) ∈ (ovs_free_port env op w).trace := by
  unfold ovs_free_port call call_void
  dsimp only
  split_ifs <;> simp

theorem remove_port_present (env : Env) (op : ovs_port) (w : World) (hp : op.present = true) :
    ∃ fa, ovs_remove_port env op w =
      ({ op with present := false },
        { w with
          ost := { w.ost with n_present := w.ost.n_present - 1, force_active := fa },
          trace := (if w.ost.dev.active then (ovs_disable_port env op w).1.trace else w.trace) ++
            [(Call.device_set_present w.ost.dev.ifname
              (!base_absent w.ost &&
                (w.ost.config.empty || decide (w.ost.n_present - 1 ≠ 0))), 0)] }) := by
  unfold ovs_remove_port
  simp only [hp, Bool.not_true, Bool.false_eq_true, if_false]
  have key : ∀ w1 : World, w1.ost = w.ost → w1.links = w.links →
      ∃ fa, ovs_set_present { w1 with ost := { w1.ost with n_present := w1.ost.n_present - 1 } } =
        { w with
          ost := { w.ost with n_present := w.ost.n_present - 1, force_active := fa },
          trace := w1.trace ++
            [(Call.device_set_present w.ost.dev.ifname
              (!base_absent w.ost &&
                (w.ost.config.empty || decide (w.ost.n_present - 1 ≠ 0))), 0)] } := by
    intro w1 h1 h2
    obtain ⟨fa, tr, hs⟩ := ovs_set_present_frame
      { w1 with ost := { w1.ost with n_present := w1.ost.n_present - 1 } }
    have ht := (ovs_set_present_spec
      { w1 with ost := { w1.ost with n_present := w1.ost.n_present - 1 } }).1
    rw [hs] at ht ⊢
    dsimp only at ht
    refine ⟨fa, ?_⟩
    rw [ht, h1, h2]
    unfold base_absent
    cases w.ost.base <;> simp
  by_cases ha : w.ost.dev.active = true
  · simp only [if_pos ha]
    obtain ⟨tr, hd⟩ := ovs_disable_port_frame env op w
    obtain ⟨fa, h⟩ := key (ovs_disable_port env op w).1 (by rw [hd]) (by rw [hd])
    exact ⟨fa, by rw [h]⟩
  · simp only [if_neg ha]
    obtain ⟨fa, h⟩ := key w rfl rfl
    exact ⟨fa, by rw [h]⟩

theorem store_port_eq_map {nodes : List ovs_port} (hn : (keys nodes).Nodup) (op' : ovs_port) :
    store_port op' nodes = nodes.map fun n => if n.name = op'.name then op' else n := by
  induction nodes with
  | nil => rfl
  | cons m rest ih =>
    simp only [keys, List.map_cons, List.nodup_cons, List.mem_map, not_exists, not_and] at hn
    unfold store_port
    by_cases h : m.name = op'.name
    · rw [if_pos h, List.map_cons, if_pos h]
      congr 1
      symm
      conv_rhs => rw [← List.map_id rest]
      apply List.map_congr_left
      intro a ha
      have hne : a.name ≠ op'.name := fun e => hn.1 a ha (e.trans h.symm)
      rw [if_neg hne]
      rfl
    · rw [if_neg h, List.map_cons, if_neg h, ih hn.2]

/-- C19: the remove event of the port `op` keyed `name`, on a port set with
distinct keys. A hot-plugged port is deleted from the port set (the other ports
stay as they are, `n_present` is lowered when the port was present, the port is
unregistered from its device). A port that is not hot-plugged and present stays
in the set and is marked not present, no other port changes, `n_present` is
lowered by one, the detach and the release are issued exactly when the bridge
device is active, and presence is reported once, last. A port that is not
hot-plugged and not present: nothing changes. -/
theorem ovs_port_cb_remove_event (env : Env) (name : String) (op : ovs_port) (w : World)
    (hn : (keys w.ost.ports.nodes).Nodup)
    (hf : avl_find w.ost.ports.nodes name = some op) :
    (op.hotplug = true →
      ∃ w', ovs_port_cb env name .DEV_EVENT_REMOVE w = some w' ∧
        name ∉ keys w'.ost.ports.nodes ∧
        w'.ost.ports.nodes = w.ost.ports.nodes.filter (fun n => n.name ≠ name) ∧
        w'.ost.n_present = w.ost.n_present - b2i op.present ∧
        (Call.device_remove_user name, 0) ∈ w'.trace) ∧
    (op.hotplug = false → op.present = true →
      ∃ w', ovs_port_cb env name .DEV_EVENT_REMOVE w = some w' ∧
        avl_find w'.ost.ports.nodes name = some { op with present := false } ∧
        w'.ost.ports.nodes = w.ost.ports.nodes.map
          (fun n => if n.name = name then { op with present := false } else n) ∧
        w'.ost.n_present = w.ost.n_present - 1 ∧
        (w.ost.dev.active = true →
          ∃ r, w'.trace = w.trace ++ detach_events w.ost.dev.ifname name r ++
            [(Call.device_set_present w.ost.dev.ifname
              (!base_absent w.ost &&
                (w.ost.config.empty || decide (w.ost.n_present - 1 ≠ 0))), 0)]) ∧
        (w.ost.dev.active = false →
          w'.trace = w.trace ++
            [(Call.device_set_present w.ost.dev.ifname
              (!base_absent w.ost &&
                (w.ost.config.empty || decide (w.ost.n_present - 1 ≠ 0))), 0)])) ∧
    (op.hotplug = false → op.present = false →
      ovs_port_cb env name .DEV_EVENT_REMOVE w = some w) := by
  have hname := (avl_find_some hf).2
  refine ⟨?_, ?_, ?_⟩
  · intro hh
    unfold ovs_port_cb
    rw [hf]
    dsimp only
    rw [if_pos hh]
    obtain ⟨h1, _, h3⟩ := vlist_delete_nodes env op w
    refine ⟨_, rfl, ?_, ?_, h3, ?_⟩
    · rw [h1, hname, avl_delete_eq_filter hn]
      simp [keys]
    · rw [h1, hname, avl_delete_eq_filter hn]
    · unfold vlist_delete
      exact hname ▸ free_port_removes_user env op _
  · intro hh hp
    unfold ovs_port_cb
    rw [hf]
    dsimp only
    rw [if_neg (by simp [hh]), if_pos hp]
    obtain ⟨fa, hr⟩ := remove_port_present env op w hp
    rw [hr]
    refine ⟨_, rfl, avl_find_store_port hf hname, ?_, rfl, ?_, ?_⟩
    · simp only [World.store]
      rw [store_port_eq_map hn]
      simp only [hname]
    · intro ha
      obtain ⟨r, hd⟩ := ovs_disable_port_events env op w hp
      refine ⟨r, ?_⟩
      simp only [World.store, ha, if_true, hd, hname]
    · intro ha
      simp [World.store, ha]
  · intro hh hp
    unfold ovs_port_cb
    rw [hf]
    dsimp only
    rw [if_neg (by simp [hh]), if_neg (by simp [hp])]

/-- Scenario C: on the active bridge `c19_world` with the present ports `a` and
`b`, the remove event of `a` detaches and releases `a`, leaves `n_present = 1`
and reports the bridge present. -/
theorem ovs_port_cb_remove_event_witness :
    (ovs_create env_ok "br0" (attr_ifname ["a", "b"])).bind
        (run env_ok [.config_init, .port_event "a" .DEV_EVENT_ADD,
          .port_event "b" .DEV_EVENT_ADD, .dev_active true, .set_state true]) =
      some c19_world ∧
    (keys c19_world.ost.ports.nodes).Nodup ∧
    avl_find c19_world.ost.ports.nodes "a" = some c7_port ∧
    c19_world.ost.dev.active = true ∧ c19_world.ost.n_present = 2 ∧
    c19_world.ost.base = none ∧
    (ovs_port_cb env_ok "a" .DEV_EVENT_REMOVE c19_world).map
        (fun w => (w.ost.n_present, new_calls c19_world w)) =
      some (1, [Call.system_set_disable_ipv6 "a" "0", Call.run_prog ["del-port", "br0", "a"],
        Call.device_release "a", Call.device_set_present "br0" true]) ∧
    ((c7_port.hotplug = true →
        ∃ w', ovs_port_cb env_ok "a" .DEV_EVENT_REMOVE c19_world = some w' ∧
          "a" ∉ keys w'.ost.ports.nodes ∧
          w'.ost.ports.nodes = c19_world.ost.ports.nodes.filter (fun n => n.name ≠ "a") ∧
          w'.ost.n_present = c19_world.ost.n_present - b2i c7_port.present ∧
          (Call.device_remove_user "a", 0) ∈ w'.trace) ∧
      (c7_port.hotplug = false → c7_port.present = true →
        ∃ w', ovs_port_cb env_ok "a" .DEV_EVENT_REMOVE c19_world = some w' ∧
          avl_find w'.ost.ports.nodes "a" = some { c7_port with present := false } ∧
          w'.ost.ports.nodes = c19_world.ost.ports.nodes.map
            (fun n => if n.name = "a" then { c7_port with present := false } else n) ∧
          w'.ost.n_present = c19_world.ost.n_present - 1 ∧
          (c19_world.ost.dev.active = true →
            ∃ r, w'.trace = c19_world.trace ++
              detach_events c19_world.ost.dev.ifname "a" r ++
              [(Call.device_set_present c19_world.ost.dev.ifname
                (!base_absent c19_world.ost &&
                  (c19_world.ost.config.empty ||
                    decide (c19_world.ost.n_present - 1 ≠ 0))), 0)]) ∧
          (c19_world.ost.dev.active = false →
            w'.trace = c19_world.trace ++
              [(Call.device_set_present c19_world.ost.dev.ifname
                (!base_absent c19_world.ost &&
                  (c19_world.ost.config.empty ||
                    decide (c19_world.ost.n_present - 1 ≠ 0))), 0)])) ∧
      (c7_port.hotplug = false → c7_port.present = false →
        ovs_port_cb env_ok "a" .DEV_EVENT_REMOVE c19_world = some c19_world)) :=
  ⟨by decide, by decide, by decide, by decide, by decide, by decide, by decide,
    ovs_port_cb_remove_event env_ok "a" c7_port c19_world (by decide) (by decide)⟩

theorem base_set_present (w : World) : (ovs_set_present w).ost.base = w.ost.base := by
  obtain ⟨fa, tr, h⟩ := ovs_set_present_frame w
  rw [h]

theorem base_enable_port (env : Env) (op : ovs_port) (w : World) :
    (ovs_enable_port env op w).1.2.ost.base = w.ost.base := by
  rcases ovs_enable_port_cases env op w with ⟨tr, he⟩ | ⟨_, tr, ret, _, he⟩ <;> rw [he]

theorem base_remove_port (env : Env) (op : ovs_port) (w : World) :
    (ovs_remove_port env op w).2.ost.base = w.ost.base := by
  rcases ovs_remove_port_cases env op w with ⟨_, h⟩ | ⟨_, fa, tr, h⟩ <;> rw [h]

theorem base_free_port (env : Env) (op : ovs_port) (w : World) :
    (ovs_free_port env op w).ost.base = w.ost.base := by
  rcases ovs_free_port_cases env op w with ⟨_, tr, h⟩ | ⟨_, fa, tr, h⟩ <;> rw [h]

theorem base_vlist_delete (env : Env) (op : ovs_port) (w : World) :
    (vlist_delete env op w).ost.base = w.ost.base := by
  unfold vlist_delete
  rw [base_free_port]

theorem base_port_cb (env : Env) (name : String) (ev : device_event) {w w' : World}
    (h : ovs_port_cb env name ev w = some w') : w'.ost.base = w.ost.base := by
  unfold ovs_port_cb at h
  cases hf : avl_find w.ost.ports.nodes name with
  | none =>
    rw [hf] at h
    simp only [Option.some.injEq] at h
    rw [← h]
  | some op =>
    rw [hf] at h
    cases ev with
    | DEV_EVENT_ADD =>
      dsimp only at h
      split_ifs at h with hp ha h1
      · simp only [Option.some.injEq] at h
        subst h
        exact base_enable_port env _ _
      · simp only [Option.some.injEq] at h
        subst h
        exact base_set_present _
      · simp only [Option.some.injEq] at h
        subst h
        rfl
    | DEV_EVENT_REMOVE =>
      dsimp only at h
      split_ifs at h with hh hp
      · simp only [Option.some.injEq] at h
        subst h
        exact base_vlist_delete env op w
      · simp only [Option.some.injEq] at h
        subst h
        exact base_remove_port env op w
      · simp only [Option.some.injEq] at h
        rw [← h]
    | DEV_EVENT_SETUP => simp only [Option.some.injEq] at h; rw [← h]
    | DEV_EVENT_UP => simp only [Option.some.injEq] at h; rw [← h]
    | DEV_EVENT_TEARDOWN => simp only [Option.some.injEq] at h; rw [← h]
    | DEV_EVENT_DOWN => simp only [Option.some.injEq] at h; rw [← h]

theorem base_none_set_base (w : World) (r : base_ref) (ob : ovs_base)
    (h : w.ost.base = none) : (w.set_base r ob).ost.base = none := by
  cases r with
  | owned => simp [World.set_base, h]
  | link i => exact h

theorem base_none_remove_base (r : base_ref) (w : World) (h : w.ost.base = none) :
    (ovs_remove_base r w).ost.base = none := by
  unfold ovs_remove_base
  split
  · exact h
  · dsimp only
    split_ifs with hp ha
    · exact h
    · rw [base_set_present]
      apply base_none_set_base
      unfold ovs_disable_base
      split_ifs
      exact h
    · rw [base_set_present]
      exact base_none_set_base _ _ _ h

theorem base_none_base_cb (env : Env) (r : base_ref) (ev : device_event) (w : World)
    (h : w.ost.base = none) : (ovs_base_cb env r ev w).ost.base = none := by
  unfold ovs_base_cb
  cases ev with
  | DEV_EVENT_ADD =>
    dsimp only
    split
    · exact h
    · rename_i ob hb
      have h1 : (ovs_set_present ((ovs_enable_base env { ob with present := true } w).1.2.set_base r
          (ovs_enable_base env { ob with present := true } w).1.1)).ost.base = none := by
        rw [base_set_present]
        apply base_none_set_base
        unfold ovs_enable_base
        dsimp only
        split_ifs <;> exact h
      split_ifs
      · exact base_none_remove_base r _ h1
      · exact h1
  | DEV_EVENT_REMOVE =>
    dsimp only
    split
    · exact h
    · split_ifs
      · exact base_none_remove_base r w h
      · exact h
  | DEV_EVENT_SETUP => exact h
  | DEV_EVENT_UP => exact h
  | DEV_EVENT_TEARDOWN => exact h
  | DEV_EVENT_DOWN => exact h

theorem base_set_down (env : Env) (w : World) : (ovs_set_down env w).1.ost.base = w.ost.base := by
  obtain ⟨tr, h⟩ := ovs_set_down_frame env w
  rw [h]

theorem set_up_base_of_none (env : Env) (w : World) (h : w.ost.base = none) :
    ovs_set_up_base env w = w := by
  unfold ovs_set_up_base
  rw [h]

theorem base_set_up_ports (env : Env) (w : World) :
    (ovs_set_up_ports env w).ost.base = w.ost.base := by
  obtain ⟨_, _, n, tr, h3⟩ := ovs_enable_ports_spec env w.ost.ports.nodes w
  unfold ovs_set_up_ports
  dsimp only
  rw [h3]

theorem base_none_set_up (env : Env) (w : World) (h : w.ost.base = none) :
    (ovs_set_up env w).1.ost.base = none := by
  unfold ovs_set_up
  dsimp only
  rw [set_up_base_of_none env w h]
  split_ifs
  · exact h
  · exact h
  · rw [base_set_present]
    exact (base_set_up_ports env _).trans h
  · rw [base_set_down]
    exact (base_set_up_ports env _).trans h
  · exact (base_set_up_ports env _).trans h

theorem base_vlist_add (env : Env) (node : ovs_port) {w w' : World}
    (h : vlist_add env node w = some w') : w'.ost.base = w.ost.base := by
  unfold vlist_add at h
  dsimp only at h
  split at h
  · simp only [ovs_port_update, Option.some.injEq] at h
    rw [← h]
    rfl
  · simp only [ovs_port_update] at h
    split_ifs at h
    · exact (base_port_cb env _ _ h).trans rfl
    · simp only [Option.some.injEq] at h
      rw [← h]

theorem base_create_port (env : Env) (dev : String) (hotplug : Bool) {w w' : World}
    (h : ovs_create_port env dev hotplug w = some w') : w'.ost.base = w.ost.base := by
  unfold ovs_create_port at h
  dsimp only at h
  split at h
  · exact base_vlist_add env _ h
  · simp only [Option.map_eq_some'] at h
    obtain ⟨w1, h1, h2⟩ := h
    have hb := base_vlist_add env _ h1
    subst h2
    split_ifs
    · split
      · exact hb
      · exact hb
    · exact hb

theorem base_add_port (env : Env) (name : String) {w w' : World}
    (h : ovs_add_port env name w = some w') : w'.ost.base = w.ost.base := by
  unfold ovs_add_port at h
  dsimp only at h
  split_ifs at h
  · simp only [Option.some.injEq] at h
    rw [← h]
  · exact (base_create_port env _ _ h).trans rfl

theorem base_add_ports (env : Env) (l : List String) {w w' : World}
    (h : ovs_add_ports env l w = some w') : w'.ost.base = w.ost.base := by
  induction l generalizing w with
  | nil =>
    simp only [ovs_add_ports, Option.some.injEq] at h
    rw [← h]
  | cons name rest ih =>
    simp only [ovs_add_ports, Option.bind_eq_some] at h
    obtain ⟨w1, h1, h2⟩ := h
    exact (ih h2).trans (base_add_port env name h1)

theorem base_none_add_base (env : Env) (name : String) (w : World) (h : w.ost.base = none) :
    (ovs_add_base env name w).ost.base = none := by
  unfold ovs_add_base ovs_create_base
  dsimp only
  split_ifs
  · exact h
  · exact base_none_base_cb env _ _ _ h
  · exact h

theorem base_flush_nodes (env : Env) (l : List ovs_port) (w : World) :
    (vlist_flush_nodes env l w).ost.base = w.ost.base := by
  induction l generalizing w with
  | nil => rfl
  | cons node rest ih =>
    unfold vlist_flush_nodes
    split_ifs
    · exact ih w
    · exact (ih _).trans (base_vlist_delete env node w)

theorem base_none_config_init (env : Env) {w w' : World} (hb : w.ost.base = none)
    (h : ovs_config_init env w = some w') : w'.ost.base = none := by
  rw [ovs_config_init_eq] at h
  simp only [Option.map_eq_some'] at h
  obtain ⟨w4, h4, rfl⟩ := h
  unfold vlist_flush
  rw [base_flush_nodes, base_add_ports env _ h4]
  show (ovs_config_init_head env w).ost.base = none
  unfold ovs_config_init_head
  dsimp only
  have h1 : (if w.ost.config.empty = true then
      ovs_set_present { w with ost := { w.ost with force_active := true } } else w).ost.base =
      none := by
    split_ifs
    · rw [base_set_present]
      exact hb
    · exact hb
  split
  · exact base_none_add_base env _ _ h1
  · exact h1

theorem base_none_reload (env : Env) (attr : blob_attr) {w : World}
    {r : World × dev_change_type} (hb : w.ost.base = none)
    (h : ovs_reload env attr w = some r) : r.1.ost.base = none := by
  unfold ovs_reload at h
  dsimp only at h
  have h0 : (ovs_reload_settings attr w).ost.base = none := by
    unfold ovs_reload_settings ovs_apply_settings
    exact hb
  split at h
  · simp only [Option.map_eq_some'] at h
    obtain ⟨w2, h2, rfl⟩ := h
    have := base_none_config_init env h0 h2
    exact this
  · simp only [Option.some.injEq] at h
    subst h
    exact h0

theorem base_none_create (env : Env) (name : String) (attr : blob_attr) {w : World}
    (h : ovs_create env name attr = some w) : w.ost.base = none := by
  unfold ovs_create at h
  simp only [Option.map_eq_some'] at h
  obtain ⟨r, hr, rfl⟩ := h
  exact base_none_reload env attr rfl hr

theorem base_none_step (env : Env) (op : Op) {w w' : World} (hb : w.ost.base = none)
    (h : step env op w = some w') : w'.ost.base = none := by
  cases op with
  | port_event port ev => exact (base_port_cb env port ev h).trans hb
  | base_event r ev =>
    simp only [step, Option.some.injEq] at h
    exact h ▸ base_none_base_cb env r ev w hb
  | dev_active a =>
    simp only [step, Option.some.injEq] at h
    exact h ▸ hb
  | set_state up =>
    simp only [step, Option.some.injEq] at h
    subst h
    unfold ovs_set_state
    split_ifs
    · exact base_none_set_up env w hb
    · exact (base_set_down env w).trans hb
  | hotplug_prepare =>
    simp only [step, Option.some.injEq, ovs_hotplug_prepare] at h
    subst h
    rw [base_set_present]
    exact hb
  | hotplug_add port =>
    simp only [step, ovs_hotplug_add, Option.map_map, Option.map_eq_some'] at h
    obtain ⟨w1, h1, rfl⟩ := h
    exact (base_create_port env port true h1).trans hb
  | hotplug_del port =>
    simp only [step, Option.some.injEq, ovs_hotplug_del] at h
    subst h
    split
    · exact hb
    · exact (base_vlist_delete env _ w).trans hb
  | config_init => exact base_none_config_init env hb h
  | reload attr =>
    simp only [step, Option.map_eq_some'] at h
    obtain ⟨r, hr, rfl⟩ := h
    exact base_none_reload env attr hb hr

theorem base_none_run (env : Env) (ops : List Op) {w w' : World} (hb : w.ost.base = none)
    (h : run env ops w = some w') : w'.ost.base = none := by
  induction ops generalizing w with
  | nil =>
    simp only [run, Option.some.injEq] at h
    exact h ▸ hb
  | cons op rest ih =>
    simp only [run, Option.bind_eq_some] at h
    obtain ⟨w1, h1, h2⟩ := h
    exact ih (base_none_step env op hb h1) h2

/-- C20: in every state reached from `ovs_create` by any sequence of operations
(events of ports and of base links, changes of `dev.active`, `set_state`,
hot-plug requests, `ovs_config_init`, reloads) in any environment, `ost->base` is
`NULL`. So the base statements of `ovs_set_up`, `ovs_set_down` and `ovs_free`
do nothing, and `ovs_set_present` reports `config.empty || n_present != 0`,
whatever the base links that `ovs_create_base` registered look like. -/
theorem base_never_assigned (env : Env) (name : String) (attr : blob_attr)
    (ops : List Op) (w0 w : World) (h0 : ovs_create env name attr = some w0)
    (h : run env ops w0 = some w) :
    w.ost.base = none ∧
    ovs_set_up_base env w = w ∧ ovs_set_down_base w = w ∧
    ovs_free env w = vlist_flush_all env w ∧
    (ovs_set_present w).trace = w.trace ++
      [(Call.device_set_present w.ost.dev.ifname
        (w.ost.config.empty || decide (w.ost.n_present ≠ 0)), 0)] ∧
    ∀ links : List ovs_base,
      (ovs_set_present { w with links := links }).trace = (ovs_set_present w).trace := by
  have hb := base_none_run env ops (base_none_create env name attr h0) h
  refine ⟨hb, set_up_base_of_none env w hb, ?_, ?_, ?_, ?_⟩
  · unfold ovs_set_down_base
    rw [hb]
  · unfold ovs_free
    rw [hb]
  · rw [(ovs_set_present_spec w).1, hb]
    simp
  · intro links
    rw [(ovs_set_present_spec w).1, (ovs_set_present_spec { w with links := links }).1]

/-- The bridge `c10_world`, created with `ovs_base = br1` and `ovs_tag = 10`: a
base link to `br1` is registered, `ost->base` is `NULL`, and the bridge is
reported present on the strength of its one present port. -/
theorem base_never_assigned_witness :
    ovs_create env_ok "br0" (attr_tagged ["a"] 10) = some c20_start ∧
    run env_ok [.config_init, .port_event "a" .DEV_EVENT_ADD] c20_start = some c10_world ∧
    c10_world.links = [{ dev := "br1", present := false }] ∧
    (c10_world.ost.base = none ∧
      ovs_set_up_base env_ok c10_world = c10_world ∧ ovs_set_down_base c10_world = c10_world ∧
      ovs_free env_ok c10_world = vlist_flush_all env_ok c10_world ∧
      (ovs_set_present c10_world).trace = c10_world.trace ++
        [(Call.device_set_present c10_world.ost.dev.ifname
          (c10_world.ost.config.empty || decide (c10_world.ost.n_present ≠ 0)), 0)] ∧
      ∀ links : List ovs_base,
        (ovs_set_present { c10_world with links := links }).trace =
          (ovs_set_present c10_world).trace) :=
  ⟨by decide, by decide, by decide,
    base_never_assigned env_ok "br0" (attr_tagged ["a"] 10)
      [.config_init, .port_event "a" .DEV_EVENT_ADD] c20_start c10_world (by decide)
      (by decide)⟩

end Netifd
